import Mathlib

/-!
# godiode: manifest codec, sender and receiver state machines

A shallow embedding of `manifest.go`, `sender.go` and `receiver.go`.

Conventions of the embedding
* a Go `[]byte` or `string` is a `List Byte`, a byte being a `Fin 256`;
* Go unsigned integers are `Nat` (reduced `% 2 ^ w` where a conversion or an
  addition in the source can wrap), `int64` is `Int`; Go `int` values are
  lengths and indices of in-memory objects and are not wrapped;
* a function that can panic at run time (slice bounds, short buffer, write to
  a nil map) returns an `Option`, `none` being the panic; a returned Go `error`
  is a value of `Err`;
* the cryptographic primitives of the Go standard library are the fields of a
  `Crypto` record; a streaming hash is the list of the bytes written to it;
* calls into the operating system are recorded, in order, as `Op`s; what the
  operating system answers is read from an `Env`;
* logging to stdout and stderr is not modelled.
-/

namespace Godiode

/-! ## Bytes, slices and `encoding/binary` -/

abbrev Byte := Fin 256

abbrev Str := List Byte

/-- Conversion of an integer to `uint8` / `byte`. -/
def byte (n : Nat) : Byte := ⟨n % 256, Nat.mod_lt _ (by decide)⟩

/-- Bytes of a string literal. -/
def lit (s : String) : Str := s.toList.map fun ch => byte ch.toNat

/-- Slice expression `data[a:]` of a slice whose capacity is its length. -/
def sliceFrom (data : List Byte) (a : Nat) : Option (List Byte) :=
  if a ≤ data.length then some (data.drop a) else none

/-- Slice expression `data[a:b]` of a slice whose capacity is its length. -/
def slice (data : List Byte) (a b : Nat) : Option (List Byte) :=
  if a ≤ b ∧ b ≤ data.length then some ((data.drop a).take (b - a)) else none

/-- Go `binary.BigEndian.Uint16(b)`. -/
def uint16 : List Byte → Option Nat
  | b0 :: b1 :: _ => some (b0.val * 256 + b1.val)
  | _ => none

/-- Go `binary.BigEndian.Uint32(b)`. -/
def uint32 : List Byte → Option Nat
  | b0 :: b1 :: b2 :: b3 :: _ =>
    some (b0.val * 16777216 + b1.val * 65536 + b2.val * 256 + b3.val)
  | _ => none

/-- Go `binary.BigEndian.Uint64(b)`. -/
def uint64 : List Byte → Option Nat
  | b0 :: b1 :: b2 :: b3 :: b4 :: b5 :: b6 :: b7 :: _ =>
    some (b0.val * 72057594037927936 + b1.val * 281474976710656 + b2.val * 1099511627776
      + b3.val * 4294967296 + b4.val * 16777216 + b5.val * 65536 + b6.val * 256 + b7.val)
  | _ => none

/-- The two bytes `PutUint16` stores for `v`. -/
def be16 (v : Nat) : List Byte := [byte (v / 256), byte v]

/-- The four bytes `PutUint32` stores for `v`. -/
def be32 (v : Nat) : List Byte :=
  [byte (v / 16777216), byte (v / 65536), byte (v / 256), byte v]

/-- The eight bytes `PutUint64` stores for `v`. -/
def be64 (v : Nat) : List Byte :=
  [byte (v / 72057594037927936), byte (v / 281474976710656), byte (v / 1099511627776),
   byte (v / 4294967296), byte (v / 16777216), byte (v / 65536), byte (v / 256), byte v]

/-- In-place store of `bs` into `buf[off:]`, as `PutUint16/32/64(buf[off:], v)` and a
single-byte assignment do: panics when the slice is shorter than `bs`. -/
def putAt (buf : List Byte) (off : Nat) (bs : List Byte) : Option (List Byte) :=
  if off + bs.length ≤ buf.length then
    some (buf.take off ++ bs ++ buf.drop (off + bs.length))
  else none

/-- Go `copy(buf[off:], src)`: panics when `off` is beyond the buffer, otherwise copies
as many bytes as fit and returns their number. -/
def copyAt (buf : List Byte) (off : Nat) (src : List Byte) : Option (List Byte × Nat) :=
  if off ≤ buf.length then
    let n := min (buf.length - off) src.length
    some (buf.take off ++ src.take n ++ buf.drop (off + n), n)
  else none

/-! ## Cryptographic primitives -/

/-- The primitives of `crypto/sha256`, `crypto/sha512` and `crypto/hmac`, with the
digest lengths they guarantee. `hmac512 key msg` is HMAC-SHA-512. -/
structure Crypto where
  sha256 : List Byte → List Byte
  sha512 : List Byte → List Byte
  hmac512 : List Byte → List Byte → List Byte
  sha256_length : ∀ m, (sha256 m).length = 32
  sha512_length : ∀ m, (sha512 m).length = 64
  hmac512_length : ∀ k m, (hmac512 k m).length = 64

/-- The signature every signed structure carries:
`sha512.New(); io.WriteString(h512, secret); hmac.New(sha512.New, h512.Sum(nil));
mac.Write(msg); mac.Sum(nil)`. -/
def sign (c : Crypto) (hmacSecret : Str) (msg : List Byte) : List Byte :=
  c.hmac512 (c.sha512 hmacSecret) msg

/-- A small checksum standing in for a digest when a definition is evaluated on a
concrete input. -/
def toyDigest (n : Nat) (m : List Byte) : List Byte :=
  List.replicate n (byte (m.foldl (fun a b => 31 * a + b.val + 7) 5))

/-- An instance of `Crypto` that can be evaluated. -/
def toyCrypto : Crypto where
  sha256 := toyDigest 32
  sha512 := toyDigest 64
  hmac512 := fun k m => toyDigest 64 (k ++ m)
  sha256_length := fun _ => List.length_replicate _ _
  sha512_length := fun _ => List.length_replicate _ _
  hmac512_length := fun _ _ => List.length_replicate _ _

/-! ## Errors -/

/-- The errors the source returns, one constructor per `errors.New` site. -/
inductive Err where
  | truncatedManifest
  | invalidManifestSignature
  | tooMuchData
  | outOfOrderFilePacket
  | truncatedStart
  | startWithoutManifest
  | unknownFileType
  | startOtherManifest
  | invalidFileIndex
  | invalidFilePathName
  | invalidStartSignature
  | createFailed
  | truncatedComplete
  | completeWithoutPending
  | completeOtherManifest
  | completeOtherFile
  | invalidCompleteSignature
  | checksumError
  | outOfOrderManifestPacket
  | unexpectedManifestPart
  | tooLargeManifest
  | noManifest
  | tooSmallPacketSize
  deriving DecidableEq, Repr

/-! ## manifest.go -/

structure DirRecord where
  path : Str
  modts : Nat
  deriving DecidableEq, Repr

structure FileRecord extends DirRecord where
  size : Int
  deriving DecidableEq, Repr

structure Manifest where
  dirs : List DirRecord
  files : List FileRecord
  deriving DecidableEq, Repr

/-- Conversion `uint64(x)` of an `int64`. -/
def toUint64 (x : Int) : Nat := (x % 18446744073709551616).toNat

/-- Conversion `int64(s)` of a `uint64`. -/
def toInt64 (s : Nat) : Int :=
  if s % 18446744073709551616 < 9223372036854775808 then ((s % 18446744073709551616 : Nat) : Int)
  else ((s % 18446744073709551616 : Nat) : Int) - 18446744073709551616

/-- The first loop of `deserializeManifest`: `n` dir records read from `offset`. -/
def readDirs (data : List Byte) : Nat → Nat → Option (List DirRecord × Nat)
  | 0, offset => some ([], offset)
  | n + 1, offset => do
    let plen ← (sliceFrom data offset).bind uint16
    let offset := offset + 2
    let p ← slice data offset (offset + plen)
    let offset := offset + plen
    let modts ← (sliceFrom data offset).bind uint32
    let offset := offset + 4
    let (rest, offset) ← readDirs data n offset
    some ({ path := p, modts := modts } :: rest, offset)

/-- The second loop of `deserializeManifest`: `n` file records read from `offset`. -/
def readFiles (data : List Byte) : Nat → Nat → Option (List FileRecord × Nat)
  | 0, offset => some ([], offset)
  | n + 1, offset => do
    let plen ← (sliceFrom data offset).bind uint16
    let offset := offset + 2
    let p ← slice data offset (offset + plen)
    let offset := offset + plen
    let modts ← (sliceFrom data offset).bind uint32
    let offset := offset + 4
    let s ← (sliceFrom data offset).bind uint64
    let offset := offset + 8
    let (rest, offset) ← readFiles data n offset
    some ({ path := p, modts := modts, size := toInt64 s } :: rest, offset)

/-- Go `deserializeManifest(data, hmacSecret)`. `none` is a run-time panic; the
allocation of the two record slices is taken to succeed. -/
def deserializeManifest (c : Crypto) (data : List Byte) (hmacSecret : Str) :
    Option (Except Err Manifest) :=
  let l := data.length
  if l < 64 + 4 + 4 then some (.error .truncatedManifest)
  else do
    let signed ← slice data 0 (l - 64)
    let sgn := sign c hmacSecret signed
    let tail ← sliceFrom data (l - 64)
    if sgn ≠ tail then some (.error .invalidManifestSignature)
    else do
      let dl ← (sliceFrom data 0).bind uint32
      let fl ← (sliceFrom data 4).bind uint32
      let (dirs, offset) ← readDirs data dl 8
      let (files, _) ← readFiles data fl offset
      some (.ok { dirs := dirs, files := files })

/-- The first writing loop of `serializeManifest`. -/
def writeDirs : List DirRecord → List Byte → Nat → Option (List Byte × Nat)
  | [], manifest, offset => some (manifest, offset)
  | d :: ds, manifest, offset => do
    let manifest ← putAt manifest offset (be16 (d.path.length % 65536))
    let offset := offset + 2
    let (manifest, _) ← copyAt manifest offset d.path
    let offset := offset + d.path.length
    let manifest ← putAt manifest offset (be32 d.modts)
    let offset := offset + 4
    writeDirs ds manifest offset

/-- The second writing loop of `serializeManifest`. -/
def writeFiles : List FileRecord → List Byte → Nat → Option (List Byte × Nat)
  | [], manifest, offset => some (manifest, offset)
  | f :: fs, manifest, offset => do
    let manifest ← putAt manifest offset (be16 (f.path.length % 65536))
    let offset := offset + 2
    let (manifest, _) ← copyAt manifest offset f.path
    let offset := offset + f.path.length
    let manifest ← putAt manifest offset (be32 f.modts)
    let offset := offset + 4
    let manifest ← putAt manifest offset (be64 (toUint64 f.size))
    let offset := offset + 8
    writeFiles fs manifest offset

/-- Go `(m *Manifest) serializeManifest(hmacSecret)`; the returned error is always nil.
`none` is a run-time panic. -/
def serializeManifest (c : Crypto) (m : Manifest) (hmacSecret : Str) : Option (List Byte) := do
  let dirsSize := m.dirs.foldl (fun acc d => acc + (2 + d.path.length + 4)) 0
  let filesSize := m.files.foldl (fun acc f => acc + (2 + f.path.length + 4 + 8)) 0
  let manifest := List.replicate (4 + 4 + dirsSize + filesSize + 64) (0 : Byte)
  let manifest ← putAt manifest 0 (be32 (m.dirs.length % 4294967296))
  let manifest ← putAt manifest 4 (be32 (m.files.length % 4294967296))
  let (manifest, offset) ← writeDirs m.dirs manifest 8
  let (manifest, offset) ← writeFiles m.files manifest offset
  let signed ← slice manifest 0 offset
  let sgn := sign c hmacSecret signed
  let (manifest, _) ← copyAt manifest offset sgn
  some manifest

/-- Zeroed buffer of `k` bytes, as `make([]byte, k)` returns. -/
abbrev zeros (k : Nat) : List Byte := List.replicate k 0

/-! ### The layout of section 4.2, written from the specification -/

/-- One dir record: `uint16 pathLen | bytes path | uint32 modts`. -/
def dirLayout (d : DirRecord) : List Byte :=
  be16 d.path.length ++ d.path ++ be32 d.modts

/-- One file record: `uint16 pathLen | bytes path | uint32 modts | uint64 size`. -/
def fileLayout (f : FileRecord) : List Byte :=
  be16 f.path.length ++ f.path ++ be32 f.modts ++ be64 (toUint64 f.size)

def dirsLayout : List DirRecord → List Byte
  | [] => []
  | d :: ds => dirLayout d ++ dirsLayout ds

def filesLayout : List FileRecord → List Byte
  | [] => []
  | f :: fs => fileLayout f ++ filesLayout fs

/-- The signed part of a serialized manifest: both counts, the dir records, the file
records. -/
def manifestLayout (m : Manifest) : List Byte :=
  be32 m.dirs.length ++ be32 m.files.length ++ dirsLayout m.dirs ++ filesLayout m.files

/-- The field values of a dir record are values of their Go types. -/
def DirRecord.WF (d : DirRecord) : Prop := d.modts < 4294967296

/-- The field values of a file record are values of their Go types. -/
def FileRecord.WF (f : FileRecord) : Prop :=
  f.modts < 4294967296 ∧ -9223372036854775808 ≤ f.size ∧ f.size < 9223372036854775808

def Manifest.WF (m : Manifest) : Prop :=
  (∀ d ∈ m.dirs, d.WF) ∧ (∀ f ∈ m.files, f.WF)

/-- Every path fits the `uint16` length field of the layout. -/
def Manifest.PathsFit (m : Manifest) : Prop :=
  (∀ d ∈ m.dirs, d.path.length ≤ 65535) ∧ (∀ f ∈ m.files, f.path.length ≤ 65535)

/-! ## `path` and `strconv` of the Go standard library -/

def slash : Byte := 47

def dot : Byte := 46

/-- The inner loop of the `..` case of `path.Clean`: from write index `w`, step back
while `w > dotdot` and `out[w]` is not a slash. -/
def cleanBacktrack (out : List Byte) (dotdot : Nat) : Nat → Nat
  | 0 => 0
  | w + 1 =>
    if dotdot < w + 1 ∧ out[w + 1]? ≠ some slash then cleanBacktrack out dotdot w else w + 1

/-- The main loop of `path.Clean`; every iteration advances the read index `r`, so
`path.length + 1` iterations are enough. -/
def cleanLoop (path : List Byte) (rooted : Bool) : Nat → List Byte → Nat → Nat → List Byte
  | 0, out, _, _ => out
  | fuel + 1, out, r, dotdot =>
    if r < path.length then
      if path[r]? = some slash then cleanLoop path rooted fuel out (r + 1) dotdot
      else if path[r]? = some dot ∧ (r + 1 = path.length ∨ path[r + 1]? = some slash) then
        cleanLoop path rooted fuel out (r + 1) dotdot
      else if path[r]? = some dot ∧ path[r + 1]? = some dot
          ∧ (r + 2 = path.length ∨ path[r + 2]? = some slash) then
        if dotdot < out.length then
          cleanLoop path rooted fuel
            (out.take (cleanBacktrack out dotdot (out.length - 1))) (r + 2) dotdot
        else if rooted = false then
          let out1 := (if 0 < out.length then out ++ [slash] else out) ++ [dot, dot]
          cleanLoop path rooted fuel out1 (r + 2) out1.length
        else cleanLoop path rooted fuel out (r + 2) dotdot
      else
        let out1 :=
          if (rooted = true ∧ out.length ≠ 1) ∨ (rooted = false ∧ out.length ≠ 0) then
            out ++ [slash]
          else out
        let seg := (path.drop r).takeWhile (fun b => b ≠ slash)
        cleanLoop path rooted fuel (out1 ++ seg) (r + seg.length) dotdot
    else out

/-- Go `path.Clean`. -/
def pathClean (path : Str) : Str :=
  if path = [] then [dot]
  else
    let rooted : Bool := path.head? = some slash
    let out := cleanLoop path rooted (path.length + 1) (if rooted then [slash] else [])
      (if rooted then 1 else 0) (if rooted then 1 else 0)
    if out = [] then [dot] else out

/-- Go `path.Join(a, b)` for a non-empty `b`. -/
def pathJoin (a b : Str) : Str :=
  if a = [] then pathClean b else pathClean (a ++ [slash] ++ b)

/-- Go `strconv.FormatUint(n, 16)`. -/
def formatHex (n : Nat) : Str := (Nat.toDigits 16 n).map fun ch => byte ch.toNat

/-- Go `strconv.Itoa(n)` for a non-negative `n`. -/
def itoa (n : Nat) : Str := (Nat.toDigits 10 n).map fun ch => byte ch.toNat

/-! ## config.go -/

structure SenderConfig where
  bw : Int

structure ReceiverConfig where
  delete : Bool
  filePermission : Nat
  folderPermission : Nat
  tmpDir : Str

/-- The fields of `Config` the sender and the receiver read. `maxPacketSize` is taken
non-negative. -/
structure Config where
  maxPacketSize : Nat
  hmacSecret : Str
  verbose : Bool
  sender : SenderConfig
  receiver : ReceiverConfig

/-! ## The operating system -/

/-- One call into the operating system, as issued by the receiver. A file handle is
named by the path it was opened on. -/
inductive Op where
  /-- Call `os.OpenFile(path, O_RDWR|O_CREATE|O_TRUNC, perm)`. -/
  | openTrunc (path : Str) (perm : Nat)
  /-- Call `file.Write(data)`. -/
  | write (file : Str) (data : List Byte)
  /-- Call `file.Close()`. -/
  | close (file : Str)
  /-- Call `os.Remove(path)`. -/
  | remove (path : Str)
  /-- Call `os.Rename(src, dst)`. -/
  | rename (src dst : Str)
  /-- Call `os.Chtimes(path, modts, modts)`. -/
  | chtimes (path : Str) (modts : Nat)
  /-- Call `os.MkdirAll(path, perm)`. -/
  | mkdirAll (path : Str) (perm : Nat)
  /-- Statement `go r.moveTmpFile(pft, tmpFile)`, for a transfer with target
  `filename` and timestamp `modts`. -/
  | goMoveTmpFile (tmpFile filename : Str) (modts : Nat)
  deriving DecidableEq, Repr

/-- One visit of the `filepath.WalkDir` callback: the path, whether the entry is a
directory, whether the walk reports an error for it, whether `os.Stat` succeeds. -/
structure WalkEntry where
  path : Str
  isDir : Bool
  walkErr : Bool
  statOk : Bool
  modts : Nat
  size : Int

/-- What the operating system answers. -/
structure Env where
  openOk : Str → Bool
  mkdirOk : Str → Bool
  renameOk : Str → Str → Bool
  walk : Str → List WalkEntry

/-! ## receiver.go -/

structure PendingManifestTransfer where
  buff : List Byte
  offset : Nat
  index : Nat
  deriving DecidableEq, Repr

/-- Go `PendingFileTransfer`. `hash` is the list of bytes written to the SHA-256
accumulator, `file` the path the staging handle was opened on; `transferStart`, read
only by the verbose log line, is left out. -/
structure PendingFileTransfer where
  size : Nat
  offset : Nat
  index : Nat
  rawSize : Nat
  hash : List Byte
  file : Str
  err : Option Err
  filename : Str
  fileIndex : Nat
  modts : Nat
  deriving DecidableEq, Repr

structure Receiver where
  conf : Config
  dir : Str
  tmpDir : Str
  manifest : Option Manifest
  manifestId : Nat
  pendingFileTransfer : Option PendingFileTransfer
  pendingManifestTransfer : Option PendingManifestTransfer

/-- What a handler leaves behind when it returns: the receiver, the calls it issued
and the returned error. -/
structure Ret where
  r : Receiver
  ops : List Op
  err : Option Err

def HEADER_OVERHEAD : Nat := 6 + 6 + 2 + 4 + 20 + 8

/-- Go `(r *Receiver) onFileTransferData(buff, read)`. -/
def onFileTransferData (r : Receiver) (buff : List Byte) (read : Nat) : Option Ret :=
  match r.pendingFileTransfer with
  | none => some ⟨r, [], none⟩
  | some pt =>
    if read < 1 ∨ pt.err ≠ none then some ⟨r, [], none⟩
    else do
      let b0 ← buff[0]?
      let idx := b0.val % 128
      if idx = pt.index then
        if (pt.offset + (read - 1)) % 18446744073709551616 > pt.size then
          some ⟨{ r with pendingFileTransfer := some { pt with err := some .tooMuchData } },
            [.close pt.file, .remove pt.filename], some .tooMuchData⟩
        else do
          let payload ← slice buff 1 read
          let pt1 : PendingFileTransfer :=
            { pt with
              hash := pt.hash ++ payload
              index := (pt.index + 1) % 256 % 128
              offset := (pt.offset + (read - 1)) % 18446744073709551616
              rawSize := (pt.rawSize + (HEADER_OVERHEAD + read)) % 18446744073709551616 }
          some ⟨{ r with pendingFileTransfer := some pt1 }, [.write pt.file payload], none⟩
      else
        some ⟨{ r with pendingFileTransfer := some { pt with err := some .outOfOrderFilePacket } },
          [], some .outOfOrderFilePacket⟩

/-- The staging path
`path.Join(r.tmpDir, "godiodetmp."+FormatUint(manifestId, 16)+"."+Itoa(fileIndex))`. -/
def stagingPath (tmpDir : Str) (manifestId fileIndex : Nat) : Str :=
  pathJoin tmpDir (lit "godiodetmp." ++ formatHex manifestId ++ lit "." ++ itoa fileIndex)

/-- The block `if r.pendingFileTransfer != nil { ... }` of `onFileTransferStart`: the
staging file of the transfer found pending is closed (the transfer itself is dropped
by the caller). -/
def closePending (r : Receiver) : List Op :=
  match r.pendingFileTransfer with
  | some pt => [.close pt.file]
  | none => []

/-- Go `(r *Receiver) onFileTransferStart(buff, read)`. -/
def onFileTransferStart (c : Crypto) (env : Env) (r : Receiver) (buff : List Byte)
    (read : Nat) : Option Ret :=
  if read < 1 + 1 + 4 + 4 + 8 + 8 + 64 then some ⟨r, [], some .truncatedStart⟩
  else
    let r1 : Receiver := { r with pendingFileTransfer := none }
    let ops1 : List Op := closePending r
    match r.manifest with
    | none => some ⟨r1, ops1, some .startWithoutManifest⟩
    | some manifest => do
      let b1 ← buff[1]?
      if b1 ≠ 0 then do
        let _ ← buff[2]?
        some ⟨r1, ops1, some .unknownFileType⟩
      else do
        let manifestId ← (sliceFrom buff 2).bind uint32
        if manifestId ≠ r.manifestId then some ⟨r1, ops1, some .startOtherManifest⟩
        else do
          let fileIndex ← (sliceFrom buff 6).bind uint32
          if fileIndex ≥ manifest.files.length then some ⟨r1, ops1, some .invalidFileIndex⟩
          else do
            let mf ← manifest.files[fileIndex]?
            let fp := pathClean (r.dir ++ mf.path)
            if fp = [dot] then some ⟨r1, ops1, some .invalidFilePathName⟩
            else do
              let size ← (sliceFrom buff 10).bind uint64
              let signed ← slice buff 0 26
              let sg ← slice buff 26 (26 + 64)
              if sign c r.conf.hmacSecret signed ≠ sg then
                some ⟨r1, ops1, some .invalidStartSignature⟩
              else
                let tmpFile := stagingPath r.tmpDir manifestId fileIndex
                let ops2 := ops1 ++ [.openTrunc tmpFile r.conf.receiver.filePermission]
                if env.openOk tmpFile then
                  some ⟨{ r1 with
                      pendingFileTransfer := some
                        { size := size, offset := 0, index := 0, rawSize := 0, hash := [],
                          file := tmpFile, err := none, filename := fp,
                          fileIndex := fileIndex, modts := mf.modts } },
                    ops2, none⟩
                else some ⟨r1, ops2, some .createFailed⟩

/-- Go `(r *Receiver) moveTmpFile(pft, tmpFile)`, the body of the goroutine: the calls
it issues. -/
def moveTmpFile (env : Env) (filename : Str) (modts : Nat) (tmpFile : Str) : List Op :=
  if env.renameOk tmpFile filename then [.rename tmpFile filename, .chtimes filename modts]
  else [.rename tmpFile filename]

/-- Go `(r *Receiver) onFileTransferComplete(buff, read)`. -/
def onFileTransferComplete (c : Crypto) (r : Receiver) (buff : List Byte) (read : Nat) :
    Option Ret :=
  if read < 1 + 4 + 4 + 32 + 64 then some ⟨r, [], some .truncatedComplete⟩
  else
    match r.pendingFileTransfer with
    | none => some ⟨r, [], some .completeWithoutPending⟩
    | some pft => do
      let manifestId ← (sliceFrom buff 1).bind uint32
      if manifestId ≠ r.manifestId then some ⟨r, [], some .completeOtherManifest⟩
      else do
        let fileIndex ← (sliceFrom buff 5).bind uint32
        if fileIndex ≠ pft.fileIndex then some ⟨r, [], some .completeOtherFile⟩
        else do
          let h ← slice buff 9 (9 + 32)
          let signed ← slice buff 0 (9 + 32)
          let sg ← slice buff (9 + 32) (9 + 32 + 64)
          if sign c r.conf.hmacSecret signed ≠ sg then
            some ⟨r, [], some .invalidCompleteSignature⟩
          else
            let r1 : Receiver := { r with pendingFileTransfer := none }
            if h ≠ c.sha256 pft.hash then
              some ⟨r1, [.close pft.file, .remove pft.filename], some .checksumError⟩
            else
              let tmpFile := stagingPath r.tmpDir manifestId fileIndex
              some ⟨r1, [.close pft.file, .goMoveTmpFile tmpFile pft.filename pft.modts], none⟩

/-- Go `(r *Receiver) createFolders()`: the calls issued and the returned error. -/
def createFolders (env : Env) (r : Receiver) : List Op × Option Err :=
  match r.manifest with
  | none => ([], some .noManifest)
  | some m =>
    (m.dirs.foldr (fun d acc =>
        let p := r.dir ++ pathClean d.path
        (if env.mkdirOk p then
          [Op.mkdirAll p r.conf.receiver.folderPermission, Op.chtimes p d.modts]
        else [Op.mkdirAll p r.conf.receiver.folderPermission]) ++ acc) [],
      none)

/-- The callback `handleManifestReceived` passes to `filepath.WalkDir`, run over the
visited entries. Both maps it stores into, `dm` and `fm`, are declared with `var` and
never made, so they are nil: a store panics (`none`). -/
def walkCallbacks (dir : Str) : List WalkEntry → Option Unit
  | [] => some ()
  | e :: es =>
    if e.walkErr then walkCallbacks dir es
    else if e.path = dir then walkCallbacks dir es
    else if e.isDir then none
    else if e.statOk = false then walkCallbacks dir es
    else none

/-- Go `(r *Receiver) handleManifestReceived()`. When the walk returns, `dm` and `fm`
are still nil: the lookups in them find nothing and the two `range` loops over them,
the only places that call `os.Remove`, run zero times. -/
def handleManifestReceived (env : Env) (r : Receiver) : Option (List Op × Option Err) :=
  if r.conf.receiver.delete then do
    walkCallbacks r.dir (env.walk r.dir)
    some (createFolders env r)
  else some (createFolders env r)

/-- The block `if pmt == nil { ... }` of `onManifestPacket`. -/
def onManifestPartZero (c : Crypto) (env : Env) (r : Receiver) (buff : List Byte)
    (manifestId part : Nat) : Option Ret :=
  if part ≠ 0 then some ⟨r, [], some .unexpectedManifestPart⟩
  else do
    let size ← (sliceFrom buff 7).bind uint32
    if size > 5 * 1024 * 1024 ∨ size < 1 then some ⟨r, [], some .tooLargeManifest⟩
    else do
      let r1 : Receiver := { r with manifestId := manifestId }
      let src ← sliceFrom buff 11
      let (manifestData, read) ← copyAt (zeros size) 0 src
      if read = size then do
        match ← deserializeManifest c manifestData r.conf.hmacSecret with
        | .error e => some ⟨r1, [], some e⟩
        | .ok manifest => do
          let r2 : Receiver := { r1 with manifest := some manifest }
          let (ops, _) ← handleManifestReceived env r2
          some ⟨r2, ops, none⟩
      else
        some ⟨{ r1 with pendingManifestTransfer := some ⟨manifestData, read, 1⟩ }, [], none⟩

/-- Go `(r *Receiver) onManifestPacket(buff, read)`. -/
def onManifestPacket (c : Crypto) (env : Env) (r : Receiver) (buff : List Byte)
    (read : Nat) : Option Ret :=
  if read < 10 then some ⟨r, [], none⟩
  else do
    let manifestId ← (sliceFrom buff 1).bind uint32
    let part ← (sliceFrom buff 5).bind uint16
    match r.pendingManifestTransfer with
    | some pmt =>
      if manifestId ≠ r.manifestId then
        onManifestPartZero c env { r with pendingManifestTransfer := none } buff manifestId part
      else if part ≠ pmt.index then
        some ⟨{ r with pendingManifestTransfer := none }, [], some .outOfOrderManifestPacket⟩
      else do
        let src ← slice buff 7 read
        let (pbuff, copied) ← copyAt pmt.buff pmt.offset src
        let pmt1 : PendingManifestTransfer :=
          { pmt with buff := pbuff, offset := pmt.offset + copied }
        let r1 : Receiver := { r with pendingManifestTransfer := some pmt1 }
        if pmt1.offset = pmt1.buff.length then do
          match ← deserializeManifest c pmt1.buff r.conf.hmacSecret with
          | .error e => some ⟨r1, [], some e⟩
          | .ok manifest => do
            let r2 : Receiver := { r1 with manifest := some manifest }
            let (ops, _) ← handleManifestReceived env r2
            some ⟨r2, ops, none⟩
        else
          some ⟨{ r with pendingManifestTransfer := some { pmt1 with index := pmt1.index + 1 } },
            [], none⟩
    | none => onManifestPartZero c env r buff manifestId part

/-- One `c.Read(buff)` of the loop of `receive`: the datagram overwrites the front of
the read buffer, a datagram longer than the buffer is cut. Returns the buffer and the
number of bytes read. -/
def readInto (buff pkt : List Byte) : List Byte × Nat :=
  let read := min pkt.length buff.length
  (pkt.take read ++ buff.drop read, read)

/-- The body of the loop of `receive` after the read: dispatch on the type byte. -/
def dispatch (c : Crypto) (env : Env) (r : Receiver) (buff : List Byte) (read : Nat) :
    Option Ret :=
  if read < 1 then some ⟨r, [], none⟩
  else do
    let ptype ← buff[0]?
    if ptype.val / 128 % 2 ≠ 0 then onFileTransferData r buff read
    else if ptype = 2 then onFileTransferStart c env r buff read
    else if ptype = 3 then onFileTransferComplete c r buff read
    else if ptype = 1 then onManifestPacket c env r buff read
    else some ⟨r, [], none⟩

/-- The loop of `receive` run over the datagrams `pkts`, in order, with one read buffer:
the final receiver and buffer, all calls issued and the error each handler returned. -/
def receiveAll (c : Crypto) (env : Env) :
    Receiver → List Byte → List (List Byte) → Option (Receiver × List Byte × List Op × List (Option Err))
  | r, buff, [] => some (r, buff, [], [])
  | r, buff, pkt :: pkts => do
    let ret ← dispatch c env r (readInto buff pkt).1 (readInto buff pkt).2
    let (r2, buff2, ops, errs) ← receiveAll c env ret.r (readInto buff pkt).1 pkts
    some (r2, buff2, ret.ops ++ ops, ret.err :: errs)

/-! ## sender.go -/

/-- The loop of `sendManifest`: the datagrams written from chunk `i` on, `offset` bytes
of `manifestData` having been sent. Every iteration of the source copies at least one
byte once `MaxPacketSize ≥ 14`, so `fuel` bounds the number of iterations; running out
of fuel is `none`. -/
def sendManifestLoop (manifestData : List Byte) :
    Nat → List Byte → Nat → Nat → Option (List (List Byte))
  | 0, _, _, _ => none
  | fuel + 1, buff, offset, i =>
    if offset < manifestData.length then do
      let buff ← putAt buff 5 (be16 (i % 65536))
      let l := 7
      if i = 0 then do
        let buff ← putAt buff l (be32 (manifestData.length % 4294967296))
        let l := l + 4
        let src ← sliceFrom manifestData offset
        let (buff, copied) ← copyAt buff l src
        let l := l + copied
        let offset := offset + copied
        let pkt ← slice buff 0 l
        let rest ← sendManifestLoop manifestData fuel buff offset (i + 1)
        some (pkt :: rest)
      else do
        let src ← sliceFrom manifestData offset
        let (buff, copied) ← copyAt buff l src
        let l := l + copied
        let offset := offset + copied
        let pkt ← slice buff 0 l
        let rest ← sendManifestLoop manifestData fuel buff offset (i + 1)
        some (pkt :: rest)
    else some []

/-- Go `sendManifest(conf, c, manifest, manifestId)`: the datagrams written to the
socket, or the returned error. The pause after each write is not modelled. -/
def sendManifest (c : Crypto) (conf : Config) (manifest : Manifest) (manifestId : Nat) :
    Option (Except Err (List (List Byte))) :=
  if conf.maxPacketSize < 14 then some (.error .tooSmallPacketSize)
  else do
    let manifestData ← serializeManifest c manifest conf.hmacSecret
    let buff := zeros conf.maxPacketSize
    let buff ← putAt buff 0 [1]
    let buff ← putAt buff 1 (be32 (manifestId % 4294967296))
    let pkts ← sendManifestLoop manifestData (manifestData.length + 1) buff 0 0
    some (.ok pkts)

/-- The read loop of `sendFile`. `reads` are the results of the successive
`file.Read(buff[1:])` calls, the loop ends at the first read of zero bytes. Returns
the datagrams written, the bytes written to the SHA-256 accumulator and the buffer.
The pacing of the token bucket delays a write and does not change it; it is not part
of this function. -/
def sendFileLoop : List (List Byte) → List Byte → Option (List (List Byte) × List Byte × List Byte)
  | [], buff => some ([], [], buff)
  | chunk :: reads, buff => do
    let (buff, read) ← copyAt buff 1 chunk
    if read = 0 then some ([], [], buff)
    else do
      let b0 ← buff[0]?
      let b1 := byte (b0.val + 1)
      let buff ← putAt buff 0 [if b1 = 0 then 0x80 else b1]
      let pkt ← slice buff 0 (read + 1)
      let hashed ← slice buff 1 (read + 1)
      let (pkts, h, buff) ← sendFileLoop reads buff
      some (pkt :: pkts, hashed ++ h, buff)

/-- The first block of `sendFile`: the `0x02` packet is built in `buff` and written.
Returns the datagram and the buffer. -/
def sendFileStart (c : Crypto) (conf : Config) (manifestId fIndex : Nat) (size mtime : Int)
    (buff : List Byte) : Option (List Byte × List Byte) := do
  let buff ← putAt buff 0 [0x02]
  let buff ← putAt buff 1 [0x00]
  let buff ← putAt buff 2 (be32 (manifestId % 4294967296))
  let buff ← putAt buff 6 (be32 (fIndex % 4294967296))
  let buff ← putAt buff 10 (be64 (toUint64 size))
  let buff ← putAt buff 18 (be64 (toUint64 mtime))
  let signed ← slice buff 0 26
  let res ← copyAt buff 26 (sign c conf.hmacSecret signed)
  let start ← slice res.1 0 (26 + 64)
  some (start, res.1)

/-- The last block of `sendFile`: the `0x03` packet, carrying the digest `hs`, is built
in `buff` and written. -/
def sendFileComplete (c : Crypto) (conf : Config) (manifestId fIndex : Nat)
    (hs buff : List Byte) : Option (List Byte) := do
  let buff ← putAt buff 0 [0x03]
  let buff ← putAt buff 1 (be32 (manifestId % 4294967296))
  let buff ← putAt buff 5 (be32 (fIndex % 4294967296))
  let res ← copyAt buff 9 hs
  let signed ← slice res.1 0 (9 + 32)
  let res ← copyAt res.1 (9 + 32) (sign c conf.hmacSecret signed)
  slice res.1 0 (9 + 32 + 64)

/-- Go `sendFile(conf, c, manifestId, fIndex, f)`: the datagrams written to the socket.
`size` and `mtime` are `finfo.Size()` and `finfo.ModTime().Unix()` of the file,
`reads` the results of the successive reads. -/
def sendFile (c : Crypto) (conf : Config) (manifestId fIndex : Nat) (size mtime : Int)
    (reads : List (List Byte)) : Option (List (List Byte)) := do
  let buff := zeros conf.maxPacketSize
  let (start, buff) ← sendFileStart c conf manifestId fIndex size mtime buff
  let buff ← putAt buff 0 [0x7F]
  let (dataPkts, h, buff) ← sendFileLoop reads buff
  let complete ← sendFileComplete c conf manifestId fIndex (c.sha256 h) buff
  some (start :: dataPkts ++ [complete])

/-! ## Values for evaluating the definitions -/

def toyConfig : Config where
  maxPacketSize := 120
  hmacSecret := lit "k"
  verbose := false
  sender := ⟨0⟩
  receiver := ⟨false, 0o600, 0o700, []⟩

def toyEnv : Env where
  openOk := fun _ => true
  mkdirOk := fun _ => true
  renameOk := fun _ _ => true
  walk := fun _ => []

def toyManifest : Manifest where
  dirs := [⟨lit "a", 5⟩]
  files := [⟨⟨lit "a/f", 7⟩, 11⟩]

/-- A receiver in directory `x/`, holding `toyManifest` for session 3. -/
def toyReceiver : Receiver where
  conf := toyConfig
  dir := lit "x/"
  tmpDir := lit "x/.tmp"
  manifest := some toyManifest
  manifestId := 3
  pendingFileTransfer := none
  pendingManifestTransfer := none

/-- The signed `0x02` packet for session `manifestId`, file `fIndex`, with the given
size and mtime fields. -/
def startPacket (c : Crypto) (hmacSecret : Str) (manifestId fIndex size mtime : Nat) :
    List Byte :=
  [0x02, 0x00] ++ be32 manifestId ++ be32 fIndex ++ be64 size ++ be64 mtime
    ++ sign c hmacSecret ([0x02, 0x00] ++ be32 manifestId ++ be32 fIndex ++ be64 size
        ++ be64 mtime)

/-- The `0x02` packet for file 0 of session 3, of 11 bytes. -/
def toyStartPacket : List Byte := startPacket toyCrypto (lit "k") 3 0 11 99

/-- A receiver started in `.`, holding for session 3 a manifest whose one file has the
empty path. -/
def dotReceiver : Receiver :=
  { toyReceiver with
    dir := lit "./"
    tmpDir := lit ".tmp"
    manifest := some ⟨[], [⟨⟨[], 7⟩, 11⟩]⟩ }

/-- A transfer of file 0 of `toyManifest` of which 6 bytes have arrived. -/
def toyPending : PendingFileTransfer where
  size := 11
  offset := 6
  index := 1
  rawSize := 53
  hash := lit "hello\n"
  file := lit "x/.tmp/godiodetmp.3.0"
  err := none
  filename := lit "x/a/f"
  fileIndex := 0
  modts := 7

/-- The receiver `toyReceiver` in the middle of that transfer. -/
def busyReceiver : Receiver := { toyReceiver with pendingFileTransfer := some toyPending }

/-- A transfer whose byte counter stands at the largest `uint64`. -/
def wrapPending : PendingFileTransfer :=
  { toyPending with size := 18446744073709551615, offset := 18446744073709551615, index := 0 }

def wrapReceiver : Receiver := { toyReceiver with pendingFileTransfer := some wrapPending }

/-- The signed `0x03` packet for session `manifestId`, file `fIndex`, carrying the
digest `hs`. -/
def completePacket (c : Crypto) (hmacSecret : Str) (manifestId fIndex : Nat)
    (hs : List Byte) : List Byte :=
  [0x03] ++ be32 manifestId ++ be32 fIndex ++ hs
    ++ sign c hmacSecret ([0x03] ++ be32 manifestId ++ be32 fIndex ++ hs)

/-- The bytes a sequence of calls appends to the handle `file`. -/
def writtenTo (file : Str) : List Op → List Byte
  | [] => []
  | .write f d :: ops => if f = file then d ++ writtenTo file ops else writtenTo file ops
  | _ :: ops => writtenTo file ops

/-- The type byte `sendFile` gives the data packet that follows one of type `b`:
`buff[0]++`, and `0x80` when that wraps to 0. -/
def nextType (b : Byte) : Byte := if byte (b.val + 1) = 0 then 0x80 else byte (b.val + 1)

/-- The configuration `toyConfig` with the smallest packet size that holds a `0x03`
packet. -/
def smallConfig : Config := { toyConfig with maxPacketSize := 105 }

/-- A receiver configured like `smallConfig` that has received nothing yet. -/
def freshReceiver : Receiver :=
  { toyReceiver with conf := smallConfig, manifest := none, manifestId := 0 }

/-- A run of `sendManifest` followed by the receive loop over the chunks it wrote: the
chunks, the receiver at the end, the calls issued and the error returned for each
chunk. -/
def transferManifest (c : Crypto) (env : Env) (conf : Config) (m : Manifest) (manifestId : Nat)
    (r : Receiver) (rbuff : List Byte) :
    Option (List (List Byte) × Receiver × List Op × List (Option Err)) :=
  match sendManifest c conf m manifestId with
  | some (.ok pkts) => (receiveAll c env r rbuff pkts).map fun x => (pkts, x.1, x.2.2.1, x.2.2.2)
  | _ => none

/-- The header of chunk `i` of session `id`: type, session id, part. -/
def chunkHeader (id i : Nat) : List Byte := [0x01] ++ be32 id ++ be16 i

/-! ## The token bucket of sender.go -/

/-- Go `THROTTLE`. The fields `last`, a time, and `nsPerToken`, a float, enter the
pacing loop only through the amount refilled, which `throttleIter` takes as an input;
they are left out. -/
structure Throttle where
  enabled : Bool
  tokens : Int
  capacity : Int
  deriving DecidableEq, Repr

/-- A Go `int64` result: the value reduced to the range of `int64`. -/
def wrapInt64 (x : Int) : Int := (x + 9223372036854775808) % 18446744073709551616 - 9223372036854775808

/-- The block `if conf.Sender.Bw > 0 { ... }` of `send`, run on the zero-valued
`THROTTLE`. The capacity is a multiple of a buffer length and is not wrapped. -/
def throttleInit (conf : Config) (t : Throttle) : Throttle :=
  if conf.sender.bw > 0 then
    { enabled := true
      capacity := 13 * ((conf.maxPacketSize + HEADER_OVERHEAD : Nat) : Int)
      tokens := 13 * ((conf.maxPacketSize + HEADER_OVERHEAD : Nat) : Int) }
  else t

/-- One pass through the loop `for { ... }` that `sendFile` runs before it writes a data
packet of `read + 1` bytes. `refill` is the value of
`int64(math.Round(float64(ns)/THROTTLE.nsPerToken))` in this pass. Returns the bucket
and whether the loop is left (`break`); the branch that sleeps leaves the bucket as it
is. -/
def throttleIter (t : Throttle) (read : Nat) (refill : Int) : Throttle × Bool :=
  let plen : Int := ((read + 1 + HEADER_OVERHEAD : Nat) : Int)
  if t.tokens ≥ plen then ({ t with tokens := t.tokens - plen }, true)
  else
    let newValue := wrapInt64 (t.tokens + refill)
    if newValue ≥ plen then
      ({ t with tokens := if newValue > t.capacity then t.capacity else newValue }, false)
    else (t, false)

/-- Any number of passes through the pacing loop, over any data packets: each step
gives the `read` of the packet being paced and the refill of the pass. -/
def throttleRun (t : Throttle) : List (Nat × Int) → Throttle
  | [] => t
  | (read, refill) :: steps => throttleRun (throttleIter t read refill).1 steps

/-! ## Values for the claims on data packets and manifest chunks -/

/-- The loop of `receive` over data packets only: each buffer and count is handed to
`onFileTransferData`; a returned error is logged and the loop goes on. -/
def feedData : Receiver → List (List Byte × Nat) → Option Receiver
  | r, [] => some r
  | r, (buff, read) :: rest => (onFileTransferData r buff read).bind fun ret => feedData ret.r rest

/-- The `n` data packets with sequence numbers `start`, `start + 1`, ... that all carry
`payload`, each with its byte count. -/
def seqPackets (payload : List Byte) (start n : Nat) : List (List Byte × Nat) :=
  (List.range' start n).map fun k => (byte (128 + k % 128) :: payload, payload.length + 1)

/-- The `0x02` packet for file 0 of session 3 that declares the largest `uint64` as
size. -/
def wrapStartPacket : List Byte := startPacket toyCrypto (lit "k") 3 0 18446744073709551615 99

/-- A receiver like `toyReceiver` that deletes what the manifest does not name. -/
def deleteReceiver : Receiver :=
  { toyReceiver with conf := { toyConfig with receiver := ⟨true, 0o600, 0o700, []⟩ } }

/-- An operating system in which the walk of `x/` visits the root and one regular file
`x/old`. -/
def strayEnv : Env :=
  { toyEnv with walk := fun _ => [⟨lit "x/", true, false, true, 1, 0⟩,
      ⟨lit "x/old", false, false, true, 1, 3⟩] }

/-- An operating system in which the walk of `x/` visits the root and the temporary
directory `x/.tmp`. -/
def tmpDirEnv : Env :=
  { toyEnv with walk := fun _ => [⟨lit "x/", true, false, true, 1, 0⟩,
      ⟨lit "x/.tmp", true, false, true, 1, 0⟩] }

/-- A receiver in session 9 that is reassembling a manifest of 200 bytes and expects
part 1. -/
def reassembling : Receiver :=
  { freshReceiver with
    manifestId := 9
    pendingManifestTransfer := some ⟨zeros 200, 94, 1⟩ }

/-! ## The paced writes of `sendFile` -/

/-- What `sendFile` does to the bucket and the socket. Every pass through the pacing
loop is recorded with the bucket as the pass finds it and as it leaves it: `pass` for a
pass that refills or sleeps, `deduct` for the pass that executes
`THROTTLE.tokens -= int64(plen)` and `break`. `write` is `c.Write(pkt)`. -/
inductive SockEv where
  | pass (before after : Throttle)
  | deduct (before after : Throttle)
  | write (pkt : List Byte)
  deriving DecidableEq, Repr

/-- The loop `for { ... }` inside `if THROTTLE.enabled`, for a data packet of `read + 1`
bytes: `throttleIter` is run until it reports `break`. A pass that does not break takes
its refill from `refills`; the pass that breaks does not read the clock. Returns the
passes, the bucket and the refills not used; `none` when the refills are used up while
the loop is still waiting. -/
def paceLoop (t : Throttle) (read : Nat) : List Int → Option (List SockEv × Throttle × List Int)
  | [] =>
    if (throttleIter t read 0).2 then
      some ([.deduct t (throttleIter t read 0).1], (throttleIter t read 0).1, [])
    else none
  | refill :: refills =>
    if (throttleIter t read refill).2 then
      some ([.deduct t (throttleIter t read refill).1], (throttleIter t read refill).1,
        refill :: refills)
    else
      (paceLoop (throttleIter t read refill).1 read refills).map fun x =>
        (.pass t (throttleIter t read refill).1 :: x.1, x.2.1, x.2.2)

/-- The block `if THROTTLE.enabled { ... }` of `sendFile`. -/
def pace (t : Throttle) (read : Nat) (refills : List Int) :
    Option (List SockEv × Throttle × List Int) :=
  if t.enabled then paceLoop t read refills else some ([], t, refills)

/-- The read loop of `sendFile` with the bucket: as `sendFileLoop`, with the pacing
block run before each write. Returns what was done to bucket and socket, the bytes
hashed, the buffer, the bucket and the refills not used. -/
def sendFileLoopPaced : List (List Byte) → List Byte → Throttle → List Int →
    Option (List SockEv × List Byte × List Byte × Throttle × List Int)
  | [], buff, t, refills => some ([], [], buff, t, refills)
  | chunk :: reads, buff, t, refills => do
    let cp ← copyAt buff 1 chunk
    if cp.2 = 0 then some ([], [], cp.1, t, refills)
    else do
      let b0 ← cp.1[0]?
      let b1 := byte (b0.val + 1)
      let buff ← putAt cp.1 0 [if b1 = 0 then 0x80 else b1]
      let pc ← pace t cp.2 refills
      let pkt ← slice buff 0 (cp.2 + 1)
      let hashed ← slice buff 1 (cp.2 + 1)
      let res ← sendFileLoopPaced reads buff pc.2.1 pc.2.2
      some (pc.1 ++ .write pkt :: res.1, hashed ++ res.2.1, res.2.2.1, res.2.2.2.1, res.2.2.2.2)

/-- Go `sendFile(conf, c, manifestId, fIndex, f)` with the bucket: what it does to
bucket and socket, in order, and the bucket at the end. -/
def sendFilePaced (c : Crypto) (conf : Config) (t : Throttle) (manifestId fIndex : Nat)
    (size mtime : Int) (reads : List (List Byte)) (refills : List Int) :
    Option (List SockEv × Throttle) := do
  let st ← sendFileStart c conf manifestId fIndex size mtime (zeros conf.maxPacketSize)
  let buff ← putAt st.2 0 [0x7F]
  let res ← sendFileLoopPaced reads buff t refills
  let complete ← sendFileComplete c conf manifestId fIndex (c.sha256 res.2.1) res.2.2.1
  some (.write st.1 :: res.1 ++ [.write complete], res.2.2.2.1)

/-- Every write in the list comes right after a deducting pass that found at least the
length of the packet plus `HEADER_OVERHEAD` tokens in the bucket and left exactly that
many fewer, the capacity being the same; other than such pairs the list holds passes
that do not deduct. -/
def charged : List SockEv → Bool
  | [] => true
  | .pass _ _ :: evs => charged evs
  | .deduct before after :: .write pkt :: evs =>
    decide (before.tokens ≥ ((pkt.length + HEADER_OVERHEAD : Nat) : Int))
      && decide (after.tokens = before.tokens - ((pkt.length + HEADER_OVERHEAD : Nat) : Int))
      && decide (after.capacity = before.capacity)
      && charged evs
  | _ => false

/-- The passes of the list start from the bucket `t` and each pass starts from the
bucket the pass before it left: the bucket does not change between them. -/
def chained (t : Throttle) : List SockEv → Bool
  | [] => true
  | .pass before after :: evs => decide (before = t) && chained after evs
  | .deduct before after :: evs => decide (before = t) && chained after evs
  | .write _ :: evs => chained t evs

/-- The bucket the last pass of the list left, `t` when the list has no pass. -/
def bucketAfter (t : Throttle) : List SockEv → Throttle
  | [] => t
  | .pass _ after :: evs => bucketAfter after evs
  | .deduct _ after :: evs => bucketAfter after evs
  | .write _ :: evs => bucketAfter t evs

/-- The packets written, in order. -/
def writes : List SockEv → List (List Byte)
  | [] => []
  | .write pkt :: evs => pkt :: writes evs
  | .pass _ _ :: evs => writes evs
  | .deduct _ _ :: evs => writes evs

/-- The configuration `toyConfig` with a bandwidth limit of 8 Mbit/s. -/
def pacedConfig : Config := { toyConfig with sender := ⟨8⟩ }

/-! ## Values for the claims on manifests and sessions -/

/-- Chunk `i` of a manifest of `total` bytes in session `id`: part 0 carries the total
size after the header. -/
def manifestChunk (id total i : Nat) (payload : List Byte) : List Byte :=
  if i = 0 then chunkHeader id 0 ++ be32 total ++ payload else chunkHeader id i ++ payload

/-- A manifest whose paths lead out of the tree. -/
def evilManifest : Manifest where
  dirs := [⟨lit "../d", 5⟩]
  files := [⟨⟨lit "../evil", 7⟩, 11⟩]

/-- The receiver `toyReceiver` holding `evilManifest`. -/
def evilReceiver : Receiver := { toyReceiver with manifest := some evilManifest }

/-- A manifest with one file, `b/g`, whose serialization fits one chunk of 120 bytes. -/
def otherManifest : Manifest where
  dirs := [⟨lit "b", 6⟩]
  files := [⟨⟨lit "b/g", 8⟩, 11⟩]

/-- Part 0 of the manifest `otherManifest` in session 9: header, total size 96, the
layout and its signature under the secret `k`. -/
def otherChunk : List Byte :=
  chunkHeader 9 0 ++ be32 96
    ++ (manifestLayout otherManifest ++ sign toyCrypto (lit "k") (manifestLayout otherManifest))

/-! ## Lemmas on buffers and the manifest codec -/

@[simp] theorem be16_length (v : Nat) : (be16 v).length = 2 := rfl
@[simp] theorem be32_length (v : Nat) : (be32 v).length = 4 := rfl
@[simp] theorem be64_length (v : Nat) : (be64 v).length = 8 := rfl

theorem be16_mod (v : Nat) : be16 (v % 65536) = be16 v := by
  unfold be16 byte
  simp only [List.cons.injEq, Fin.mk.injEq, and_true]
  constructor <;> omega

theorem be32_mod (v : Nat) : be32 (v % 4294967296) = be32 v := by
  unfold be32 byte
  simp only [List.cons.injEq, Fin.mk.injEq, and_true]
  refine ⟨?_, ?_, ?_, ?_⟩ <;> omega

theorem putAt_mid (pre mid post bs : List Byte) (off : Nat) (ho : off = pre.length)
    (h : mid.length = bs.length) :
    putAt (pre ++ (mid ++ post)) off bs = some (pre ++ (bs ++ post)) := by
  subst ho
  unfold putAt
  simp [h, List.take_append_eq_append_take, List.drop_append_eq_append_drop]

theorem copyAt_mid (pre mid post src : List Byte) (off : Nat) (ho : off = pre.length)
    (h : mid.length = src.length) :
    copyAt (pre ++ (mid ++ post)) off src = some (pre ++ (src ++ post), src.length) := by
  subst ho
  unfold copyAt
  simp [h, List.take_append_eq_append_take, List.drop_append_eq_append_drop]

theorem zeros_split (a b : Nat) : zeros (a + b) = zeros a ++ zeros b := by
  exact List.replicate_add a b 0

theorem putAt_zeros (pre bs : List Byte) (k off : Nat) (ho : off = pre.length)
    (h : bs.length ≤ k) :
    putAt (pre ++ zeros k) off bs = some ((pre ++ bs) ++ zeros (k - bs.length)) := by
  have hk : k = bs.length + (k - bs.length) := by omega
  conv => lhs; rw [hk, zeros_split]
  rw [putAt_mid pre _ _ bs off ho (by simp)]
  simp

theorem copyAt_zeros (pre src : List Byte) (k off : Nat) (ho : off = pre.length)
    (h : src.length ≤ k) :
    copyAt (pre ++ zeros k) off src = some ((pre ++ src) ++ zeros (k - src.length), src.length) := by
  have hk : k = src.length + (k - src.length) := by omega
  conv => lhs; rw [hk, zeros_split]
  rw [copyAt_mid pre _ _ src off ho (by simp)]
  simp

@[simp] theorem dirLayout_length (d : DirRecord) : (dirLayout d).length = 6 + d.path.length := by
  simp [dirLayout]; omega

@[simp] theorem fileLayout_length (f : FileRecord) : (fileLayout f).length = 14 + f.path.length := by
  simp [fileLayout]; omega

theorem writeDirs_zeros (ds : List DirRecord) : ∀ (pre : List Byte) (k off : Nat),
    off = pre.length → (dirsLayout ds).length ≤ k →
    writeDirs ds (pre ++ zeros k) off
      = some ((pre ++ dirsLayout ds) ++ zeros (k - (dirsLayout ds).length),
              off + (dirsLayout ds).length) := by
  induction ds with
  | nil => intro pre k off _ _; simp [writeDirs, dirsLayout]
  | cons d ds ih =>
    intro pre k off ho hk
    simp only [dirsLayout, List.length_append, dirLayout_length] at hk
    simp only [writeDirs, be16_mod]
    rw [putAt_zeros pre _ k off ho (by simp; omega)]
    simp only [Option.bind_eq_bind, Option.some_bind, be16_length]
    rw [copyAt_zeros _ _ _ _ (by simp [ho]) (by omega)]
    simp only [Option.some_bind]
    rw [putAt_zeros _ _ _ _ (by simp [ho]; omega) (by simp; omega)]
    simp only [Option.some_bind]
    rw [ih _ _ _ (by simp [ho]; omega) (by simp; omega)]
    simp only [dirsLayout, dirLayout, List.append_assoc, List.length_append, be16_length,
      be32_length, Option.some.injEq, Prod.mk.injEq]
    constructor
    · congr 6; omega
    · omega

theorem writeFiles_zeros (fs : List FileRecord) : ∀ (pre : List Byte) (k off : Nat),
    off = pre.length → (filesLayout fs).length ≤ k →
    writeFiles fs (pre ++ zeros k) off
      = some ((pre ++ filesLayout fs) ++ zeros (k - (filesLayout fs).length),
              off + (filesLayout fs).length) := by
  induction fs with
  | nil => intro pre k off _ _; simp [writeFiles, filesLayout]
  | cons d ds ih =>
    intro pre k off ho hk
    simp only [filesLayout, List.length_append, fileLayout_length] at hk
    simp only [writeFiles, be16_mod]
    rw [putAt_zeros pre _ k off ho (by simp; omega)]
    simp only [Option.bind_eq_bind, Option.some_bind, be16_length]
    rw [copyAt_zeros _ _ _ _ (by simp [ho]) (by omega)]
    simp only [Option.some_bind]
    rw [putAt_zeros _ _ _ _ (by simp [ho]; omega) (by simp; omega)]
    simp only [Option.some_bind]
    rw [putAt_zeros _ _ _ _ (by simp [ho]; omega) (by simp; omega)]
    simp only [Option.some_bind]
    rw [ih _ _ _ (by simp [ho]; omega) (by simp; omega)]
    simp only [filesLayout, fileLayout, List.append_assoc, List.length_append, be16_length,
      be32_length, be64_length, Option.some.injEq, Prod.mk.injEq]
    constructor
    · congr 7; omega
    · omega

theorem foldl_dirsSize (ds : List DirRecord) : ∀ a : Nat,
    ds.foldl (fun acc d => acc + (2 + d.path.length + 4)) a = a + (dirsLayout ds).length := by
  induction ds with
  | nil => intro a; simp [dirsLayout]
  | cons d ds ih => intro a; simp [List.foldl_cons, ih, dirsLayout]; omega

theorem foldl_filesSize (fs : List FileRecord) : ∀ a : Nat,
    fs.foldl (fun acc f => acc + (2 + f.path.length + 4 + 8)) a
      = a + (filesLayout fs).length := by
  induction fs with
  | nil => intro a; simp [filesLayout]
  | cons d ds ih => intro a; simp [List.foldl_cons, ih, filesLayout]; omega

theorem slice_front (a b : List Byte) (n : Nat) (hn : n = a.length) :
    slice (a ++ b) 0 n = some a := by
  subst hn; simp [slice]

theorem sliceFrom_append (a b : List Byte) (n : Nat) (hn : n = a.length) :
    sliceFrom (a ++ b) n = some b := by
  subst hn; simp [sliceFrom]

theorem slice_mid (a p b : List Byte) (n m : Nat) (hn : n = a.length) (hm : m = n + p.length) :
    slice (a ++ (p ++ b)) n m = some p := by
  subst hn; subst hm; simp [slice]

theorem serializeManifest_eq (c : Crypto) (m : Manifest) (K : Str) :
    serializeManifest c m K = some (manifestLayout m ++ sign c K (manifestLayout m)) := by
  unfold serializeManifest
  simp only [foldl_dirsSize, foldl_filesSize, Nat.zero_add, be32_mod]
  have e1 : List.replicate (4 + 4 + (dirsLayout m.dirs).length + (filesLayout m.files).length + 64)
      (0 : Byte) = [] ++ zeros (4 + 4 + (dirsLayout m.dirs).length
        + (filesLayout m.files).length + 64) := rfl
  rw [e1, putAt_zeros [] _ _ 0 rfl (by simp)]
  simp only [Option.bind_eq_bind, Option.some_bind, be32_length]
  rw [putAt_zeros _ _ _ 4 (by simp) (by simp)]
  simp only [Option.some_bind, be32_length]
  rw [writeDirs_zeros _ _ _ 8 (by simp) (by omega)]
  simp only [Option.some_bind]
  rw [writeFiles_zeros _ _ _ _ (by simp; omega) (by omega)]
  simp only [Option.some_bind]
  rw [slice_front _ _ _ (by simp; omega)]
  simp only [Option.some_bind]
  rw [copyAt_zeros _ _ _ _ (by simp; omega) (by simp [sign, c.hmac512_length]; omega)]
  simp only [Option.some_bind, manifestLayout, List.nil_append, List.append_assoc,
    Option.some.injEq]
  have : 4 + 4 + (dirsLayout m.dirs).length + (filesLayout m.files).length + 64 - 4 - 4
      - (dirsLayout m.dirs).length - (filesLayout m.files).length
      - (sign c K (be32 m.dirs.length ++ (be32 m.files.length ++ (dirsLayout m.dirs
          ++ filesLayout m.files)))).length = 0 := by
    simp only [sign, c.hmac512_length]; omega
  rw [this]; simp

theorem uint16_be16 (v : Nat) (rest : List Byte) : uint16 (be16 v ++ rest) = some (v % 65536) := by
  simp only [be16, byte, List.cons_append, List.nil_append, uint16, Option.some.injEq]
  omega

theorem uint32_be32 (v : Nat) (rest : List Byte) :
    uint32 (be32 v ++ rest) = some (v % 4294967296) := by
  simp only [be32, byte, List.cons_append, List.nil_append, uint32, Option.some.injEq]
  omega

theorem uint64_be64 (v : Nat) (rest : List Byte) :
    uint64 (be64 v ++ rest) = some (v % 18446744073709551616) := by
  simp only [be64, byte, List.cons_append, List.nil_append, uint64, Option.some.injEq]
  omega

theorem toInt64_toUint64 (x : Int) (h1 : -9223372036854775808 ≤ x)
    (h2 : x < 9223372036854775808) : toInt64 (toUint64 x) = x := by
  unfold toInt64 toUint64
  split <;> omega

theorem readDirs_layout (ds : List DirRecord) : ∀ (pre rest : List Byte) (off : Nat),
    off = pre.length → (∀ d ∈ ds, d.path.length ≤ 65535 ∧ d.WF) →
    readDirs (pre ++ (dirsLayout ds ++ rest)) ds.length off
      = some (ds, off + (dirsLayout ds).length) := by
  induction ds with
  | nil => intro pre rest off _ _; simp [readDirs, dirsLayout]
  | cons d ds ih =>
    intro pre rest off ho hwf
    have hd := hwf d (List.mem_cons_self _ _)
    have hds : ∀ x ∈ ds, x.path.length ≤ 65535 ∧ x.WF :=
      fun x hx => hwf x (List.mem_cons_of_mem _ hx)
    have hmod : d.path.length % 65536 = d.path.length := Nat.mod_eq_of_lt (by omega)
    have hmts : d.modts % 4294967296 = d.modts := Nat.mod_eq_of_lt hd.2
    simp only [List.length_cons, readDirs, dirsLayout, dirLayout, List.append_assoc]
    rw [sliceFrom_append pre _ off ho]
    simp only [Option.bind_eq_bind, Option.some_bind, uint16_be16, hmod]
    have e2 : pre ++ (be16 d.path.length ++ (d.path ++ (be32 d.modts ++ (dirsLayout ds ++ rest))))
        = (pre ++ be16 d.path.length) ++ (d.path ++ (be32 d.modts ++ (dirsLayout ds ++ rest))) := by
      simp
    rw [e2, slice_mid _ _ _ _ _ (by simp [ho]) rfl]
    simp only [Option.some_bind]
    have e3 : (pre ++ be16 d.path.length) ++ (d.path ++ (be32 d.modts ++ (dirsLayout ds ++ rest)))
        = (pre ++ be16 d.path.length ++ d.path) ++ (be32 d.modts ++ (dirsLayout ds ++ rest)) := by
      simp
    rw [e3, sliceFrom_append _ _ _ (by simp [ho]; omega)]
    simp only [Option.some_bind, uint32_be32, hmts]
    have e4 : (pre ++ be16 d.path.length ++ d.path) ++ (be32 d.modts ++ (dirsLayout ds ++ rest))
        = (pre ++ be16 d.path.length ++ d.path ++ be32 d.modts) ++ (dirsLayout ds ++ rest) := by
      simp
    rw [e4, ih _ _ _ (by simp [ho]; omega) hds]
    simp only [Option.some_bind, List.length_append, be16_length, be32_length,
      Option.some.injEq, Prod.mk.injEq, true_and]
    omega

theorem readFiles_layout (fs : List FileRecord) : ∀ (pre rest : List Byte) (off : Nat),
    off = pre.length → (∀ f ∈ fs, f.path.length ≤ 65535 ∧ f.WF) →
    readFiles (pre ++ (filesLayout fs ++ rest)) fs.length off
      = some (fs, off + (filesLayout fs).length) := by
  induction fs with
  | nil => intro pre rest off _ _; simp [readFiles, filesLayout]
  | cons d ds ih =>
    intro pre rest off ho hwf
    have hd := hwf d (List.mem_cons_self _ _)
    have hds : ∀ x ∈ ds, x.path.length ≤ 65535 ∧ x.WF :=
      fun x hx => hwf x (List.mem_cons_of_mem _ hx)
    have hmod : d.path.length % 65536 = d.path.length := Nat.mod_eq_of_lt (by omega)
    have hmts : d.modts % 4294967296 = d.modts := Nat.mod_eq_of_lt hd.2.1
    have hsz : toInt64 (toUint64 d.size % 18446744073709551616) = d.size := by
      have := toInt64_toUint64 d.size hd.2.2.1 hd.2.2.2
      unfold toInt64 at this ⊢
      simpa using this
    simp only [List.length_cons, readFiles, filesLayout, fileLayout, List.append_assoc]
    rw [sliceFrom_append pre _ off ho]
    simp only [Option.bind_eq_bind, Option.some_bind, uint16_be16, hmod]
    have e2 : pre ++ (be16 d.path.length ++ (d.path ++ (be32 d.modts
          ++ (be64 (toUint64 d.size) ++ (filesLayout ds ++ rest)))))
        = (pre ++ be16 d.path.length) ++ (d.path ++ (be32 d.modts
          ++ (be64 (toUint64 d.size) ++ (filesLayout ds ++ rest)))) := by
      simp
    rw [e2, slice_mid _ _ _ _ _ (by simp [ho]) rfl]
    simp only [Option.some_bind]
    have e3 : (pre ++ be16 d.path.length) ++ (d.path ++ (be32 d.modts
          ++ (be64 (toUint64 d.size) ++ (filesLayout ds ++ rest))))
        = (pre ++ be16 d.path.length ++ d.path) ++ (be32 d.modts
          ++ (be64 (toUint64 d.size) ++ (filesLayout ds ++ rest))) := by
      simp
    rw [e3, sliceFrom_append _ _ _ (by simp [ho]; omega)]
    simp only [Option.some_bind, uint32_be32, hmts]
    have e4 : (pre ++ be16 d.path.length ++ d.path) ++ (be32 d.modts
          ++ (be64 (toUint64 d.size) ++ (filesLayout ds ++ rest)))
        = (pre ++ be16 d.path.length ++ d.path ++ be32 d.modts)
          ++ (be64 (toUint64 d.size) ++ (filesLayout ds ++ rest)) := by
      simp
    rw [e4, sliceFrom_append _ _ _ (by simp [ho]; omega)]
    simp only [Option.some_bind, uint64_be64, hsz]
    have e5 : (pre ++ be16 d.path.length ++ d.path ++ be32 d.modts)
          ++ (be64 (toUint64 d.size) ++ (filesLayout ds ++ rest))
        = (pre ++ be16 d.path.length ++ d.path ++ be32 d.modts ++ be64 (toUint64 d.size))
          ++ (filesLayout ds ++ rest) := by
      simp
    rw [e5, ih _ _ _ (by simp [ho]; omega) hds]
    simp only [Option.some_bind, List.length_append, be16_length, be32_length, be64_length,
      Option.some.injEq, Prod.mk.injEq, true_and]
    omega

theorem manifestLayout_length (m : Manifest) :
    (manifestLayout m).length = 8 + (dirsLayout m.dirs).length + (filesLayout m.files).length := by
  simp [manifestLayout]; omega

theorem sign_length (c : Crypto) (K : Str) (msg : List Byte) : (sign c K msg).length = 64 :=
  c.hmac512_length _ _

theorem deserializeManifest_signed (c : Crypto) (K : Str) (body sg : List Byte)
    (hb : 8 ≤ body.length) (hs : sg = sign c K body) :
    deserializeManifest c (body ++ sg) K =
      (do
        let dl ← (sliceFrom (body ++ sg) 0).bind uint32
        let fl ← (sliceFrom (body ++ sg) 4).bind uint32
        let (dirs, offset) ← readDirs (body ++ sg) dl 8
        let (files, _) ← readFiles (body ++ sg) fl offset
        some (.ok { dirs := dirs, files := files })) := by
  have hl : sg.length = 64 := by rw [hs]; exact sign_length c K body
  unfold deserializeManifest
  simp only [List.length_append, hl]
  rw [if_neg (by omega)]
  rw [slice_front body sg _ (by omega), sliceFrom_append body sg _ (by omega)]
  simp only [Option.bind_eq_bind, Option.some_bind, ← hs, ne_eq, not_true_eq_false, if_false]

theorem deserialize_layout (c : Crypto) (m : Manifest) (K : Str) (hwf : m.WF)
    (hp : m.PathsFit) (hd : m.dirs.length < 4294967296) (hf : m.files.length < 4294967296) :
    deserializeManifest c (manifestLayout m ++ sign c K (manifestLayout m)) K = some (.ok m) := by
  rw [deserializeManifest_signed c K _ _ (by rw [manifestLayout_length]; omega) rfl]
  have hdm : m.dirs.length % 4294967296 = m.dirs.length := Nat.mod_eq_of_lt hd
  have hfm : m.files.length % 4294967296 = m.files.length := Nat.mod_eq_of_lt hf
  have h0 : (sliceFrom (manifestLayout m ++ sign c K (manifestLayout m)) 0).bind uint32
      = some m.dirs.length := by
    simp only [sliceFrom, Nat.zero_le, if_true, List.drop_zero, Option.some_bind,
      manifestLayout, List.append_assoc, uint32_be32, hdm, Option.bind_eq_bind]
  have h4 : (sliceFrom (manifestLayout m ++ sign c K (manifestLayout m)) 4).bind uint32
      = some m.files.length := by
    have : manifestLayout m ++ sign c K (manifestLayout m) = be32 m.dirs.length
        ++ (be32 m.files.length ++ (dirsLayout m.dirs ++ (filesLayout m.files
          ++ sign c K (manifestLayout m)))) := by
      simp [manifestLayout]
    rw [this, sliceFrom_append (be32 m.dirs.length) _ 4 rfl]
    simp only [Option.some_bind, uint32_be32, hfm, Option.bind_eq_bind]
  rw [h0, h4]
  simp only [Option.bind_eq_bind, Option.some_bind]
  have e1 : manifestLayout m ++ sign c K (manifestLayout m) = (be32 m.dirs.length
        ++ be32 m.files.length) ++ (dirsLayout m.dirs ++ (filesLayout m.files
          ++ sign c K (manifestLayout m))) := by
    simp [manifestLayout]
  rw [e1, readDirs_layout m.dirs _ _ 8 (by simp) (fun d hd => ⟨hp.1 d hd, hwf.1 d hd⟩)]
  simp only [Option.some_bind]
  have e2 : (be32 m.dirs.length ++ be32 m.files.length) ++ (dirsLayout m.dirs
        ++ (filesLayout m.files ++ sign c K (manifestLayout m)))
      = (be32 m.dirs.length ++ be32 m.files.length ++ dirsLayout m.dirs)
        ++ (filesLayout m.files ++ sign c K (manifestLayout m)) := by
    simp
  rw [e2, readFiles_layout m.files _ _ _ (by simp; omega) (fun d hd => ⟨hp.2 d hd, hwf.2 d hd⟩)]
  simp

theorem readDirs_bound (data : List Byte) : ∀ (n off : Nat) (r : List DirRecord × Nat),
    readDirs data n off = some r →
      off + 6 * n ≤ r.2 ∧ (0 < n → r.2 ≤ data.length) ∧ r.1.length = n := by
  intro n
  induction n with
  | zero => intro off r h; simp [readDirs] at h; subst h; simp
  | succ n ih =>
    intro off r h
    simp only [readDirs, Option.bind_eq_bind, Option.bind_eq_some] at h
    obtain ⟨plen, _, p, hp, modts, hm, ⟨rest, off2⟩, hrec, hr⟩ := h
    simp only [Option.some.injEq] at hr
    subst hr
    have := ih _ _ hrec
    obtain ⟨s, hs, hu⟩ := hm
    simp only [sliceFrom] at hs
    split at hs
    · rename_i hle
      simp only [Option.some.injEq] at hs
      subst hs
      have hlen : 4 ≤ (data.drop (off + 2 + plen)).length := by
        match hd : data.drop (off + 2 + plen), hu with
        | b0 :: b1 :: b2 :: b3 :: _, _ => simp
      simp only [List.length_drop] at hlen
      refine ⟨by simp at this ⊢; omega, fun _ => ?_, by simp [this.2.2]⟩
      simp at this ⊢
      rcases Nat.eq_zero_or_pos n with h0 | h0
      · subst h0
        simp [readDirs] at hrec
        omega
      · exact this.2.1 h0
    · simp at hs

/-! ## The manifest codec: claims C1, C4, C5, C6 -/

theorem sum_dirs_length (ds : List DirRecord) :
    (dirsLayout ds).length = (ds.map fun d => 6 + d.path.length).sum := by
  induction ds with
  | nil => rfl
  | cons d ds ih => simp [dirsLayout, ih]

theorem sum_files_length (fs : List FileRecord) :
    (filesLayout fs).length = (fs.map fun f => 14 + f.path.length).sum := by
  induction fs with
  | nil => rfl
  | cons f fs ih => simp [filesLayout, ih]

/-- C1: for a manifest whose paths are at most 65535 bytes long and whose record counts
are below 2^32 (field values being values of their Go types), and for every secret,
`serializeManifest` returns bytes on which `deserializeManifest`, under the same secret,
succeeds and returns the same dir and file records in the same order. -/
theorem C1_roundtrip (c : Crypto) (m : Manifest) (K : Str) (hwf : m.WF) (hp : m.PathsFit)
    (hd : m.dirs.length < 4294967296) (hf : m.files.length < 4294967296) :
    ∃ data, serializeManifest c m K = some data ∧
      deserializeManifest c data K = some (.ok m) :=
  ⟨_, serializeManifest_eq c m K, deserialize_layout c m K hwf hp hd hf⟩

theorem C1_roundtrip_witness :
    ∃ data, serializeManifest toyCrypto toyManifest (lit "k") = some data ∧
      deserializeManifest toyCrypto data (lit "k") = some (.ok toyManifest) :=
  C1_roundtrip toyCrypto toyManifest (lit "k")
    (by simp [Manifest.WF, DirRecord.WF, FileRecord.WF, toyManifest])
    (by simp [Manifest.PathsFit, toyManifest, lit]) (by decide) (by decide)

/-- C4: the bytes `serializeManifest` returns are the big-endian layout (both counts,
the dir records, the file records) followed by the 64 bytes of HMAC-SHA-512, keyed with
SHA-512 of the secret, of that layout; their number is
`8 + Σ_dirs (6 + |path|) + Σ_files (14 + |path|) + 64`; and under the bounds on paths and
counts every count field and every `pathLen` field holds the true value. -/
theorem C4_layout (c : Crypto) (m : Manifest) (K : Str) (hp : m.PathsFit)
    (hd : m.dirs.length < 4294967296) (hf : m.files.length < 4294967296) :
    serializeManifest c m K
        = some (manifestLayout m ++ c.hmac512 (c.sha512 K) (manifestLayout m)) ∧
      (manifestLayout m ++ c.hmac512 (c.sha512 K) (manifestLayout m)).length
        = 8 + (m.dirs.map fun d => 6 + d.path.length).sum
            + (m.files.map fun f => 14 + f.path.length).sum + 64 ∧
      uint32 (be32 m.dirs.length) = some m.dirs.length ∧
      uint32 (be32 m.files.length) = some m.files.length ∧
      (∀ d ∈ m.dirs, uint16 (be16 d.path.length) = some d.path.length) ∧
      (∀ f ∈ m.files, uint16 (be16 f.path.length) = some f.path.length) := by
  refine ⟨serializeManifest_eq c m K, ?_, ?_, ?_, ?_, ?_⟩
  · rw [List.length_append, c.hmac512_length, manifestLayout_length, sum_dirs_length,
      sum_files_length]
  · have := uint32_be32 m.dirs.length []
    rw [List.append_nil, Nat.mod_eq_of_lt hd] at this
    exact this
  · have := uint32_be32 m.files.length []
    rw [List.append_nil, Nat.mod_eq_of_lt hf] at this
    exact this
  · intro d hmem
    have := uint16_be16 d.path.length []
    rw [List.append_nil, Nat.mod_eq_of_lt (by have := hp.1 d hmem; omega)] at this
    exact this
  · intro f hmem
    have := uint16_be16 f.path.length []
    rw [List.append_nil, Nat.mod_eq_of_lt (by have := hp.2 f hmem; omega)] at this
    exact this

theorem C4_layout_witness :
    serializeManifest toyCrypto toyManifest (lit "k")
      = some (manifestLayout toyManifest
          ++ toyCrypto.hmac512 (toyCrypto.sha512 (lit "k")) (manifestLayout toyManifest)) :=
  (C4_layout toyCrypto toyManifest (lit "k") (by simp [Manifest.PathsFit, toyManifest, lit])
    (by decide) (by decide)).1

/-- C5: `deserializeManifest` returns the truncated-manifest error on an input shorter
than 72 bytes, and the invalid-signature error on a longer input whose last 64 bytes
are not the HMAC-SHA-512, keyed with SHA-512 of the secret, of the bytes before them;
in both cases the result is an error and no manifest. -/
theorem C5_reject (c : Crypto) (data : List Byte) (K : Str) :
    (data.length < 72 → deserializeManifest c data K = some (.error .truncatedManifest)) ∧
    (72 ≤ data.length →
      data.drop (data.length - 64)
        ≠ c.hmac512 (c.sha512 K) (data.take (data.length - 64)) →
      deserializeManifest c data K = some (.error .invalidManifestSignature)) := by
  constructor
  · intro h
    unfold deserializeManifest
    simp only
    rw [if_pos (by omega)]
  · intro h hne
    unfold deserializeManifest
    simp only
    rw [if_neg (by omega)]
    have h1 : slice data 0 (data.length - 64) = some (data.take (data.length - 64)) := by
      simp [slice]
    have h2 : sliceFrom data (data.length - 64) = some (data.drop (data.length - 64)) := by
      simp [sliceFrom]
    rw [h1, h2]
    simp only [Option.bind_eq_bind, Option.some_bind, sign]
    rw [if_pos (fun h => hne h.symm)]

set_option maxRecDepth 100000 in
theorem C5_reject_witness :
    deserializeManifest toyCrypto [] (lit "k") = some (.error .truncatedManifest) ∧
    deserializeManifest toyCrypto (zeros 72) (lit "k")
      = some (.error .invalidManifestSignature) :=
  ⟨(C5_reject toyCrypto [] (lit "k")).1 (by decide),
   (C5_reject toyCrypto (zeros 72) (lit "k")).2 (by decide) (by decide)⟩

/-- C6 (the fault): a 72-byte manifest that declares 20 dir records and carries the
valid HMAC of its 8 header bytes makes `deserializeManifest` panic: the record loop
reads past the end of the data. -/
theorem C6_out_of_bounds (c : Crypto) (K : Str) :
    (be32 20 ++ be32 0 ++ sign c K (be32 20 ++ be32 0)).length = 72 ∧
    deserializeManifest c (be32 20 ++ be32 0 ++ sign c K (be32 20 ++ be32 0)) K = none := by
  have hl : (be32 20 ++ be32 0 ++ sign c K (be32 20 ++ be32 0)).length = 72 := by
    simp [sign_length]
  refine ⟨hl, ?_⟩
  rw [deserializeManifest_signed c K _ _ (by simp) rfl]
  have h0 : (sliceFrom (be32 20 ++ be32 0 ++ sign c K (be32 20 ++ be32 0)) 0).bind uint32
      = some 20 := by
    simp only [sliceFrom, Nat.zero_le, if_true, List.drop_zero, Option.some_bind,
      List.append_assoc, uint32_be32]
  have h4 : (sliceFrom (be32 20 ++ be32 0 ++ sign c K (be32 20 ++ be32 0)) 4).bind uint32
      = some 0 := by
    rw [List.append_assoc, sliceFrom_append (be32 20) _ 4 rfl]
    simp only [Option.some_bind, uint32_be32]
  rw [h0, h4]
  simp only [Option.bind_eq_bind, Option.some_bind]
  cases hr : readDirs (be32 20 ++ be32 0 ++ sign c K (be32 20 ++ be32 0)) 20 8 with
  | none => rfl
  | some r =>
    have := readDirs_bound _ _ _ _ hr
    rw [hl] at this
    omega


/-! ## The file-transfer handlers: claims C7, C8, C9, C10 -/

theorem slice_eq (data : List Byte) (a b : Nat) (h1 : a ≤ b) (h2 : b ≤ data.length) :
    slice data a b = some ((data.drop a).take (b - a)) := by
  unfold slice; rw [if_pos ⟨h1, h2⟩]

theorem sliceFrom_eq (data : List Byte) (a : Nat) (h : a ≤ data.length) :
    sliceFrom data a = some (data.drop a) := by
  unfold sliceFrom; rw [if_pos h]

theorem onFileTransferStart_accept (c : Crypto) (env : Env) (r : Receiver) (buff : List Byte)
    (read : Nat) (M : Manifest) (i sz : Nat) (mf : FileRecord)
    (h90 : 90 ≤ read) (hlen : read ≤ buff.length)
    (hM : r.manifest = some M) (hft : buff[1]? = some 0)
    (hid : (sliceFrom buff 2).bind uint32 = some r.manifestId)
    (hidx : (sliceFrom buff 6).bind uint32 = some i) (hmf : M.files[i]? = some mf)
    (hsz : (sliceFrom buff 10).bind uint64 = some sz)
    (hsig : sign c r.conf.hmacSecret (buff.take 26) = (buff.drop 26).take 64)
    (hfp : pathClean (r.dir ++ mf.path) ≠ [dot])
    (hopen : env.openOk (stagingPath r.tmpDir r.manifestId i) = true) :
    onFileTransferStart c env r buff read
      = some ⟨{ r with
            pendingFileTransfer := some
              { size := sz, offset := 0, index := 0, rawSize := 0, hash := [],
                file := stagingPath r.tmpDir r.manifestId i, err := none,
                filename := pathClean (r.dir ++ mf.path), fileIndex := i, modts := mf.modts } },
          closePending r
            ++ [.openTrunc (stagingPath r.tmpDir r.manifestId i) r.conf.receiver.filePermission],
          none⟩ := by
  have hi : i < M.files.length := by
    rcases Nat.lt_or_ge i M.files.length with h | h
    · exact h
    · rw [List.getElem?_eq_none h] at hmf; cases hmf
  unfold onFileTransferStart
  rw [if_neg (by omega)]
  simp only [hM, hft, Option.bind_eq_bind, Option.some_bind, ne_eq, not_true_eq_false,
    if_false, hid, hidx, ge_iff_le, Nat.not_le.mpr hi, hmf, hfp, hsz,
    slice_eq buff 0 26 (by omega) (by omega), slice_eq buff 26 (26 + 64) (by omega) (by omega),
    List.drop_zero, Nat.sub_zero, Nat.add_sub_cancel_left, hsig, hopen, if_true]

theorem uint16_some (l : List Byte) (h : 2 ≤ l.length) : ∃ v, uint16 l = some v := by
  match l, h with
  | b0 :: b1 :: _, _ => exact ⟨_, rfl⟩

theorem uint32_some (l : List Byte) (h : 4 ≤ l.length) : ∃ v, uint32 l = some v := by
  match l, h with
  | b0 :: b1 :: b2 :: b3 :: _, _ => exact ⟨_, rfl⟩

theorem uint64_some (l : List Byte) (h : 8 ≤ l.length) : ∃ v, uint64 l = some v := by
  match l, h with
  | b0 :: b1 :: b2 :: b3 :: b4 :: b5 :: b6 :: b7 :: _, _ => exact ⟨_, rfl⟩

theorem uint16_at (buff : List Byte) (a : Nat) (h : a + 2 ≤ buff.length) :
    ∃ v, (sliceFrom buff a).bind uint16 = some v := by
  rw [sliceFrom_eq buff a (by omega)]
  exact uint16_some _ (by simp; omega)

theorem uint32_at (buff : List Byte) (a : Nat) (h : a + 4 ≤ buff.length) :
    ∃ v, (sliceFrom buff a).bind uint32 = some v := by
  rw [sliceFrom_eq buff a (by omega)]
  exact uint32_some _ (by simp; omega)

theorem uint64_at (buff : List Byte) (a : Nat) (h : a + 8 ≤ buff.length) :
    ∃ v, (sliceFrom buff a).bind uint64 = some v := by
  rw [sliceFrom_eq buff a (by omega)]
  exact uint64_some _ (by simp; omega)

theorem byte_at (buff : List Byte) (a : Nat) (h : a < buff.length) :
    ∃ b, buff[a]? = some b := ⟨buff[a], List.getElem?_eq_getElem h⟩

theorem openTrunc_not_mem_closePending (r : Receiver) (p : Str) (perm : Nat) :
    Op.openTrunc p perm ∉ closePending r := by
  unfold closePending
  cases r.pendingFileTransfer <;> simp

/-- C8: a `0x02` packet that is shorter than 90 bytes, or arrives when the receiver has
no manifest, or has a filetype other than 0, or names another session, or a file index
not below the manifest's file count, or whose trailing HMAC does not match its first 26
bytes, makes `onFileTransferStart` return an error; no staging file is opened and no
new pending transfer is created (the pending transfer is the old one or none). -/
theorem C8_start_rejected (c : Crypto) (env : Env) (r : Receiver) (buff : List Byte)
    (read : Nat) (hlen : read ≤ buff.length)
    (h : read < 90 ∨ r.manifest = none ∨ buff[1]? ≠ some 0
      ∨ (sliceFrom buff 2).bind uint32 ≠ some r.manifestId
      ∨ (∃ M i, r.manifest = some M ∧ (sliceFrom buff 6).bind uint32 = some i
          ∧ M.files.length ≤ i)
      ∨ c.hmac512 (c.sha512 r.conf.hmacSecret) (buff.take 26) ≠ (buff.drop 26).take 64) :
    ∃ ret e, onFileTransferStart c env r buff read = some ret ∧ ret.err = some e ∧
      (ret.r.pendingFileTransfer = none ∨ ret.r.pendingFileTransfer = r.pendingFileTransfer) ∧
      ∀ p perm, Op.openTrunc p perm ∉ ret.ops := by
  unfold onFileTransferStart
  by_cases h90 : read < 1 + 1 + 4 + 4 + 8 + 8 + 64
  · rw [if_pos h90]
    exact ⟨_, _, rfl, rfl, Or.inr rfl, fun p perm => by simp⟩
  rw [if_neg h90]
  obtain ⟨b1, hb1⟩ := byte_at buff 1 (by omega)
  obtain ⟨b2, hb2⟩ := byte_at buff 2 (by omega)
  obtain ⟨id, hid⟩ := uint32_at buff 2 (by omega)
  obtain ⟨idx, hidx⟩ := uint32_at buff 6 (by omega)
  obtain ⟨sz, hsz⟩ := uint64_at buff 10 (by omega)
  cases hM : r.manifest with
  | none => exact ⟨_, _, rfl, rfl, Or.inl rfl, openTrunc_not_mem_closePending r⟩
  | some M =>
    simp only [hb1, hb2, hid, hidx, hsz, Option.bind_eq_bind, Option.some_bind,
      slice_eq buff 0 26 (by omega) (by omega),
      slice_eq buff 26 (26 + 64) (by omega) (by omega), List.drop_zero, Nat.sub_zero,
      Nat.add_sub_cancel_left]
    by_cases c1 : b1 = 0
    swap
    · rw [if_pos c1]
      exact ⟨_, _, rfl, rfl, Or.inl rfl, openTrunc_not_mem_closePending r⟩
    rw [if_neg (not_not.mpr c1)]
    by_cases c2 : id = r.manifestId
    swap
    · rw [if_pos c2]
      exact ⟨_, _, rfl, rfl, Or.inl rfl, openTrunc_not_mem_closePending r⟩
    rw [if_neg (not_not.mpr c2)]
    by_cases c3 : idx ≥ M.files.length
    · rw [if_pos c3]
      exact ⟨_, _, rfl, rfl, Or.inl rfl, openTrunc_not_mem_closePending r⟩
    rw [if_neg c3]
    rw [List.getElem?_eq_getElem (Nat.not_le.mp c3)]
    simp only [Option.some_bind]
    by_cases c4 : pathClean (r.dir ++ M.files[idx].path) = [dot]
    · rw [if_pos c4]
      exact ⟨_, _, rfl, rfl, Or.inl rfl, openTrunc_not_mem_closePending r⟩
    rw [if_neg c4]
    by_cases c5 : sign c r.conf.hmacSecret (buff.take 26) = (buff.drop 26).take 64
    swap
    · rw [if_pos c5]
      exact ⟨_, _, rfl, rfl, Or.inl rfl, openTrunc_not_mem_closePending r⟩
    exfalso
    rcases h with h | h | h | h | h | h
    · exact h90 h
    · rw [hM] at h; cases h
    · rw [hb1, c1] at h; exact h rfl
    · rw [hid, c2] at h; exact h rfl
    · obtain ⟨M', i, hM', hi, hle⟩ := h
      rw [hM] at hM'; cases hM'
      rw [hidx] at hi; cases hi
      exact c3 hle
    · exact h c5

/-- C7 (as amended): a `0x02` packet of at least 90 bytes with filetype 0, the current
session id, a file index `i` below the file count and a valid trailing HMAC, for which
the cleaned target path is not `.` and the staging file can be opened, makes
`onFileTransferStart` close the staging file of a transfer found pending, open with
truncation `path.Join(tmpDir, "godiodetmp.<id hex>.<i decimal>")` and install a pending
transfer with the packet's size, zero bytes received, sequence 0, an empty hash
accumulator, file index `i` and the manifest's modts, returning no error. -/
theorem C7_start_accepted (c : Crypto) (env : Env) (r : Receiver) (buff : List Byte)
    (read : Nat) (M : Manifest) (i sz : Nat) (mf : FileRecord)
    (h90 : 90 ≤ read) (hlen : read ≤ buff.length)
    (hM : r.manifest = some M) (hft : buff[1]? = some 0)
    (hid : (sliceFrom buff 2).bind uint32 = some r.manifestId)
    (hidx : (sliceFrom buff 6).bind uint32 = some i) (hmf : M.files[i]? = some mf)
    (hsz : (sliceFrom buff 10).bind uint64 = some sz)
    (hsig : c.hmac512 (c.sha512 r.conf.hmacSecret) (buff.take 26) = (buff.drop 26).take 64)
    (hfp : pathClean (r.dir ++ mf.path) ≠ [dot])
    (hopen : env.openOk (stagingPath r.tmpDir r.manifestId i) = true) :
    onFileTransferStart c env r buff read
      = some ⟨{ r with
            pendingFileTransfer := some
              { size := sz, offset := 0, index := 0, rawSize := 0, hash := [],
                file := stagingPath r.tmpDir r.manifestId i, err := none,
                filename := pathClean (r.dir ++ mf.path), fileIndex := i, modts := mf.modts } },
          closePending r
            ++ [.openTrunc (stagingPath r.tmpDir r.manifestId i) r.conf.receiver.filePermission],
          none⟩ :=
  onFileTransferStart_accept c env r buff read M i sz mf h90 hlen hM hft hid hidx hmf hsz hsig
    hfp hopen

set_option maxRecDepth 100000 in
theorem C7_start_accepted_witness :
    onFileTransferStart toyCrypto toyEnv toyReceiver toyStartPacket 90
      = some ⟨{ toyReceiver with
            pendingFileTransfer := some
              { size := 11, offset := 0, index := 0, rawSize := 0, hash := [],
                file := stagingPath toyReceiver.tmpDir toyReceiver.manifestId 0, err := none,
                filename := pathClean (toyReceiver.dir ++ lit "a/f"), fileIndex := 0,
                modts := 7 } },
          closePending toyReceiver
            ++ [.openTrunc (stagingPath toyReceiver.tmpDir toyReceiver.manifestId 0)
                  toyReceiver.conf.receiver.filePermission],
          none⟩ :=
  C7_start_accepted toyCrypto toyEnv toyReceiver toyStartPacket 90 toyManifest 0 11
    ⟨⟨lit "a/f", 7⟩, 11⟩ (by decide) (by decide) rfl (by decide) (by decide) (by decide)
    (by decide) (by decide) (by decide) (by decide) rfl

set_option maxRecDepth 100000 in
/-- C7 (counterexample): the receiver started in `.` holds a manifest for session 3
whose file 0 has the empty path; the 90-byte `0x02` packet for session 3, file 0, with
filetype 0 and a valid HMAC is answered with the invalid-path error: nothing is opened
and no pending transfer is installed. -/
theorem C7_counterexample :
    toyStartPacket.length = 90 ∧ toyStartPacket[1]? = some 0 ∧
    (sliceFrom toyStartPacket 2).bind uint32 = some dotReceiver.manifestId ∧
    (sliceFrom toyStartPacket 6).bind uint32 = some 0 ∧
    dotReceiver.manifest.map (fun m => decide (0 < m.files.length)) = some true ∧
    toyCrypto.hmac512 (toyCrypto.sha512 dotReceiver.conf.hmacSecret) (toyStartPacket.take 26)
      = (toyStartPacket.drop 26).take 64 ∧
    (onFileTransferStart toyCrypto toyEnv dotReceiver toyStartPacket 90).map
        (fun ret => (ret.err, ret.ops, ret.r.pendingFileTransfer))
      = some (some .invalidFilePathName, [], none) := by
  decide

set_option maxRecDepth 100000 in
theorem C8_start_rejected_witness :
    ∃ ret e, onFileTransferStart toyCrypto toyEnv toyReceiver (toyStartPacket.set 26 0) 90
        = some ret ∧ ret.err = some e ∧
      (ret.r.pendingFileTransfer = none
        ∨ ret.r.pendingFileTransfer = toyReceiver.pendingFileTransfer) ∧
      ∀ p perm, Op.openTrunc p perm ∉ ret.ops :=
  C8_start_rejected toyCrypto toyEnv toyReceiver (toyStartPacket.set 26 0) 90 (by decide)
    (Or.inr (Or.inr (Or.inr (Or.inr (Or.inr (by decide))))))

/-- C9 (as amended): a `0x02` packet whose manifestId is not the current session id is
answered with an error and opens nothing. A packet shorter than 90 bytes leaves the
receiver unchanged; one of at least 90 bytes closes the staging file of the pending
transfer, if there is one, and drops that transfer, every other field of the receiver
being unchanged; so with no transfer pending the receiver is unchanged. -/
theorem C9_other_session (c : Crypto) (env : Env) (r : Receiver) (buff : List Byte)
    (read : Nat) (hlen : read ≤ buff.length)
    (hid : (sliceFrom buff 2).bind uint32 ≠ some r.manifestId) :
    (∃ e, onFileTransferStart c env r buff read
        = some ⟨if read < 90 then r else { r with pendingFileTransfer := none },
            if read < 90 then [] else closePending r, some e⟩) ∧
    (r.pendingFileTransfer = none →
      ∃ e, onFileTransferStart c env r buff read = some ⟨r, [], some e⟩) := by
  have main : ∃ e, onFileTransferStart c env r buff read
        = some ⟨if read < 90 then r else { r with pendingFileTransfer := none },
            if read < 90 then [] else closePending r, some e⟩ := by
    unfold onFileTransferStart
    by_cases h90 : read < 1 + 1 + 4 + 4 + 8 + 8 + 64
    · rw [if_pos h90, if_pos h90, if_pos h90]
      exact ⟨_, rfl⟩
    rw [if_neg h90, if_neg h90, if_neg h90]
    obtain ⟨b1, hb1⟩ := byte_at buff 1 (by omega)
    obtain ⟨b2, hb2⟩ := byte_at buff 2 (by omega)
    obtain ⟨id, hid'⟩ := uint32_at buff 2 (by omega)
    cases hM : r.manifest with
    | none => exact ⟨_, rfl⟩
    | some M =>
      simp only [hb1, hb2, hid', Option.bind_eq_bind, Option.some_bind]
      by_cases c1 : b1 = 0
      swap
      · rw [if_pos c1]
        exact ⟨_, rfl⟩
      rw [if_neg (not_not.mpr c1)]
      have c2 : id ≠ r.manifestId := by
        intro h; rw [hid', h] at hid; exact hid rfl
      rw [if_pos c2]
      exact ⟨_, rfl⟩
  refine ⟨main, fun hp => ?_⟩
  obtain ⟨e, he⟩ := main
  refine ⟨e, ?_⟩
  rw [he]
  have hr : ({ r with pendingFileTransfer := none } : Receiver) = r := by
    cases r; simp_all
  have hc : closePending r = [] := by
    unfold closePending; rw [hp]
  rw [hr, hc]
  simp

set_option maxRecDepth 100000 in
theorem C9_other_session_witness :
    ∃ e, onFileTransferStart toyCrypto toyEnv toyReceiver
      (startPacket toyCrypto (lit "k") 4 0 11 99) 90 = some ⟨toyReceiver, [], some e⟩ :=
  (C9_other_session toyCrypto toyEnv toyReceiver (startPacket toyCrypto (lit "k") 4 0 11 99) 90
    (by decide) (by decide)).2 rfl

set_option maxRecDepth 100000 in
/-- C9 (counterexample): with a transfer in progress, the `0x02` packet of session 4
reaches a receiver whose session is 3: the pending transfer is gone after the call, its
staging file closed. -/
theorem C9_counterexample :
    (sliceFrom (startPacket toyCrypto (lit "k") 4 0 11 99) 2).bind uint32
      ≠ some busyReceiver.manifestId ∧
    busyReceiver.pendingFileTransfer = some toyPending ∧
    (onFileTransferStart toyCrypto toyEnv busyReceiver
        (startPacket toyCrypto (lit "k") 4 0 11 99) 90).map
        (fun ret => (ret.r.pendingFileTransfer, ret.ops, ret.err))
      = some (none, [.close toyPending.file], some .startOtherManifest) := by
  decide

/-- C10 (as amended): for a pending transfer that is not errored and a data packet with
type byte `t` and payload `p` for which `bytesReceived + |p|` does not wrap a `uint64`,
`onFileTransferData` accepts the packet iff `t & 0x7F = nextSeq` and
`bytesReceived + |p| ≤ expectedSize`: then `p` is written to the staging file and to the
hash, `nextSeq` becomes `(nextSeq + 1) & 0x7F` and `bytesReceived` grows by `|p|`. With
the right sequence number and too many bytes the transfer is marked errored, the file
closed and a path removed; with a wrong sequence number the transfer is marked errored
and an error returned; in both cases nothing is written or hashed. -/
theorem C10_data (r : Receiver) (pt : PendingFileTransfer) (t : Byte) (p stale : List Byte)
    (hpt : r.pendingFileTransfer = some pt) (herr : pt.err = none)
    (hno : pt.offset + p.length < 18446744073709551616) :
    (t.val % 128 = pt.index ∧ pt.offset + p.length ≤ pt.size →
      onFileTransferData r (t :: (p ++ stale)) (p.length + 1)
        = some ⟨{ r with
              pendingFileTransfer := some
                { pt with
                  hash := pt.hash ++ p
                  index := (pt.index + 1) % 128
                  offset := pt.offset + p.length
                  rawSize := (pt.rawSize + (HEADER_OVERHEAD + (p.length + 1)))
                    % 18446744073709551616 } },
            [.write pt.file p], none⟩) ∧
    (t.val % 128 = pt.index ∧ pt.size < pt.offset + p.length →
      onFileTransferData r (t :: (p ++ stale)) (p.length + 1)
        = some ⟨{ r with pendingFileTransfer := some { pt with err := some .tooMuchData } },
            [.close pt.file, .remove pt.filename], some .tooMuchData⟩) ∧
    (t.val % 128 ≠ pt.index →
      onFileTransferData r (t :: (p ++ stale)) (p.length + 1)
        = some ⟨{ r with
              pendingFileTransfer := some { pt with err := some .outOfOrderFilePacket } },
            [], some .outOfOrderFilePacket⟩) := by
  have hmod : (pt.offset + p.length) % 18446744073709551616 = pt.offset + p.length :=
    Nat.mod_eq_of_lt hno
  have hsl : slice (t :: (p ++ stale)) 1 (p.length + 1) = some p := by
    have := slice_mid [t] p stale 1 (p.length + 1) rfl (by omega)
    simpa using this
  have hidx : (pt.index + 1) % 256 % 128 = (pt.index + 1) % 128 := by omega
  refine ⟨fun h => ?_, fun h => ?_, fun h => ?_⟩
  · unfold onFileTransferData
    simp only [hpt, herr, ne_eq, not_true_eq_false, or_false, Nat.add_sub_cancel,
      List.getElem?_cons_zero, Option.bind_eq_bind, Option.some_bind, h.1, if_true, hmod,
      hsl, hidx]
    rw [if_neg (by omega), if_neg (by omega)]
  · unfold onFileTransferData
    simp only [hpt, herr, ne_eq, not_true_eq_false, or_false, Nat.add_sub_cancel,
      List.getElem?_cons_zero, Option.bind_eq_bind, Option.some_bind, h.1, if_true, hmod]
    rw [if_neg (by omega), if_pos (by omega)]
  · unfold onFileTransferData
    simp only [hpt, herr, ne_eq, not_true_eq_false, or_false, Nat.add_sub_cancel,
      List.getElem?_cons_zero, Option.bind_eq_bind, Option.some_bind, h, if_false]
    rw [if_neg (by omega)]

set_option maxRecDepth 100000 in
theorem C10_data_witness :
    onFileTransferData busyReceiver ((0x81 : Byte) :: (lit "world" ++ [])) (5 + 1)
      = some ⟨{ busyReceiver with
            pendingFileTransfer := some
              { toyPending with
                hash := toyPending.hash ++ lit "world"
                index := (toyPending.index + 1) % 128
                offset := toyPending.offset + 5
                rawSize := (toyPending.rawSize + (HEADER_OVERHEAD + (5 + 1)))
                  % 18446744073709551616 } },
          [.write toyPending.file (lit "world")], none⟩ :=
  (C10_data busyReceiver toyPending 0x81 (lit "world") [] rfl rfl (by decide)).1
    ⟨by decide, by decide⟩

set_option maxRecDepth 100000 in
/-- C10 (counterexample): the byte counter of the pending transfer stands at
`2^64 - 1`, equal to the expected size; a data packet with the expected sequence number
and a one-byte payload would take it above the expected size, and is accepted: the byte
is written and the counter wraps to 0. -/
theorem C10_counterexample :
    wrapReceiver.pendingFileTransfer = some wrapPending ∧ wrapPending.err = none ∧
    (0x80 : Byte).val % 128 = wrapPending.index ∧
    ¬ (wrapPending.offset + [(0x41 : Byte)].length ≤ wrapPending.size) ∧
    (onFileTransferData wrapReceiver [0x80, 0x41] 2).map
        (fun ret => (ret.err, ret.ops, ret.r.pendingFileTransfer.map fun q => q.offset))
      = some (none, [.write wrapPending.file [0x41]], some 0) := by
  decide


/-! ## End-to-end file transfer: claim C2 -/

theorem putAt_pre (pre rest bs : List Byte) (off : Nat) (ho : off = pre.length)
    (h : bs.length ≤ rest.length) :
    putAt (pre ++ rest) off bs = some ((pre ++ bs) ++ rest.drop bs.length) := by
  have hr : rest = rest.take bs.length ++ rest.drop bs.length := (List.take_append_drop _ _).symm
  conv => lhs; rw [hr]
  rw [putAt_mid pre _ _ bs off ho (by simp; omega)]
  simp

theorem copyAt_pre (pre rest src : List Byte) (off : Nat) (ho : off = pre.length)
    (h : src.length ≤ rest.length) :
    copyAt (pre ++ rest) off src = some ((pre ++ src) ++ rest.drop src.length, src.length) := by
  have hr : rest = rest.take src.length ++ rest.drop src.length :=
    (List.take_append_drop _ _).symm
  conv => lhs; rw [hr]
  rw [copyAt_mid pre _ _ src off ho (by simp; omega)]
  simp

theorem sendFileStart_eq (c : Crypto) (conf : Config) (X i : Nat) (size mtime : Int)
    (buff : List Byte) (h : 90 ≤ buff.length) :
    sendFileStart c conf X i size mtime buff
      = some (startPacket c conf.hmacSecret X i (toUint64 size) (toUint64 mtime),
          startPacket c conf.hmacSecret X i (toUint64 size) (toUint64 mtime) ++ buff.drop 90) := by
  unfold sendFileStart
  simp only [be32_mod]
  have e0 : buff = [] ++ buff := rfl
  conv => lhs; rw [e0]
  rw [putAt_pre [] _ _ 0 rfl (by simp; omega)]
  simp only [Option.bind_eq_bind, Option.some_bind]
  rw [putAt_pre _ _ _ 1 (by simp) (by simp; omega)]
  simp only [Option.some_bind]
  rw [putAt_pre _ _ _ 2 (by simp) (by simp; omega)]
  simp only [Option.some_bind]
  rw [putAt_pre _ _ _ 6 (by simp) (by simp; omega)]
  simp only [Option.some_bind]
  rw [putAt_pre _ _ _ 10 (by simp) (by simp; omega)]
  simp only [Option.some_bind]
  rw [putAt_pre _ _ _ 18 (by simp) (by simp; omega)]
  simp only [Option.some_bind]
  rw [slice_front _ _ 26 (by simp)]
  simp only [Option.some_bind]
  rw [copyAt_pre _ _ _ 26 (by simp) (by simp [sign_length]; omega)]
  simp only [Option.some_bind]
  rw [slice_front _ _ (26 + 64) (by simp [sign_length])]
  simp [startPacket, sign_length]

theorem sendFileComplete_eq (c : Crypto) (conf : Config) (X i : Nat) (hs buff : List Byte)
    (h : 105 ≤ buff.length) (hh : hs.length = 32) :
    sendFileComplete c conf X i hs buff = some (completePacket c conf.hmacSecret X i hs) := by
  unfold sendFileComplete
  simp only [be32_mod]
  have e0 : buff = [] ++ buff := rfl
  conv => lhs; rw [e0]
  rw [putAt_pre [] _ _ 0 rfl (by simp; omega)]
  simp only [Option.bind_eq_bind, Option.some_bind]
  rw [putAt_pre _ _ _ 1 (by simp) (by simp; omega)]
  simp only [Option.some_bind]
  rw [putAt_pre _ _ _ 5 (by simp) (by simp; omega)]
  simp only [Option.some_bind]
  rw [copyAt_pre _ _ _ 9 (by simp) (by simp [hh]; omega)]
  simp only [Option.some_bind]
  rw [slice_front _ _ (9 + 32) (by simp [hh])]
  simp only [Option.some_bind]
  rw [copyAt_pre _ _ _ (9 + 32) (by simp [hh]) (by simp [sign_length, hh]; omega)]
  simp only [Option.some_bind]
  rw [slice_front _ _ (9 + 32 + 64) (by simp [sign_length, hh])]
  simp [completePacket]

theorem nextType_val (b : Byte) (hb : 127 ≤ b.val) :
    128 ≤ (nextType b).val ∧ (nextType b).val % 128 = (b.val + 1) % 128 := by
  unfold nextType
  have hlt := b.isLt
  by_cases h : byte (b.val + 1) = 0
  · rw [if_pos h]
    have h2 : (byte (b.val + 1)).val = 0 := by rw [h]; rfl
    simp only [byte] at h2
    refine ⟨by decide, ?_⟩
    show 128 % 128 = _
    omega
  · rw [if_neg h]
    have h2 : (byte (b.val + 1)).val ≠ 0 := fun h3 => h (Fin.ext h3)
    simp only [byte] at h2 ⊢
    omega

theorem sendFileLoop_step (ch : List Byte) (reads : List (List Byte)) (b : Byte)
    (t : List Byte) (h0 : 0 < ch.length) (hfit : ch.length ≤ t.length) :
    sendFileLoop (ch :: reads) (b :: t)
      = (sendFileLoop reads (nextType b :: (ch ++ t.drop ch.length))).bind
          (fun res => some ((nextType b :: ch) :: res.1, ch ++ res.2.1, res.2.2)) := by
  have hc : copyAt (b :: t) 1 ch = some (([b] ++ ch) ++ t.drop ch.length, ch.length) :=
    copyAt_pre [b] t ch 1 rfl hfit
  rw [sendFileLoop, hc]
  simp only [Option.bind_eq_bind, Option.some_bind]
  rw [if_neg (by omega)]
  simp only [List.singleton_append, List.cons_append, List.nil_append, List.getElem?_cons_zero,
    Option.some_bind]
  have hp : putAt (b :: (ch ++ t.drop ch.length)) 0 [nextType b]
      = some (nextType b :: (ch ++ t.drop ch.length)) := by
    simp [putAt]
  have hp' : putAt (b :: (ch ++ t.drop ch.length)) 0
      [if byte (b.val + 1) = 0 then 0x80 else byte (b.val + 1)]
      = some (nextType b :: (ch ++ t.drop ch.length)) := hp
  rw [hp']
  simp only [Option.some_bind]
  have hs1 : slice (nextType b :: (ch ++ t.drop ch.length)) 0 (ch.length + 1)
      = some (nextType b :: ch) := by
    have := slice_front (nextType b :: ch) (t.drop ch.length) (ch.length + 1) (by simp)
    simpa using this
  have hs2 : slice (nextType b :: (ch ++ t.drop ch.length)) 1 (ch.length + 1) = some ch := by
    have := slice_mid [nextType b] ch (t.drop ch.length) 1 (ch.length + 1) rfl (by omega)
    simpa using this
  rw [hs1, hs2]
  simp only [Option.some_bind]

theorem readInto_fit (buff pkt : List Byte) (h : pkt.length ≤ buff.length) :
    readInto buff pkt = (pkt ++ buff.drop pkt.length, pkt.length) := by
  unfold readInto
  simp [Nat.min_eq_left h]

theorem onFileTransferData_accept (r : Receiver) (pt : PendingFileTransfer) (t : Byte)
    (p stale : List Byte) (hpt : r.pendingFileTransfer = some pt) (herr : pt.err = none)
    (hseq : t.val % 128 = pt.index) (hfit : pt.offset + p.length ≤ pt.size)
    (hsz : pt.size < 18446744073709551616) :
    onFileTransferData r (t :: (p ++ stale)) (p.length + 1)
      = some ⟨{ r with
            pendingFileTransfer := some
              { pt with
                hash := pt.hash ++ p
                index := (pt.index + 1) % 128
                offset := pt.offset + p.length
                rawSize := (pt.rawSize + (HEADER_OVERHEAD + (p.length + 1)))
                  % 18446744073709551616 } },
          [.write pt.file p], none⟩ := by
  have hmod : (pt.offset + p.length) % 18446744073709551616 = pt.offset + p.length :=
    Nat.mod_eq_of_lt (by omega)
  have hsl : slice (t :: (p ++ stale)) 1 (p.length + 1) = some p := by
    have := slice_mid [t] p stale 1 (p.length + 1) rfl (by omega)
    simpa using this
  have hidx : (pt.index + 1) % 256 % 128 = (pt.index + 1) % 128 := by omega
  unfold onFileTransferData
  simp only [hpt, herr, ne_eq, not_true_eq_false, or_false, Nat.add_sub_cancel,
    List.getElem?_cons_zero, Option.bind_eq_bind, Option.some_bind, hseq, if_true, hmod,
    hsl, hidx]
  rw [if_neg (by omega), if_neg (by omega)]

theorem dispatch_data (c : Crypto) (env : Env) (r : Receiver) (t : Byte) (rest : List Byte)
    (read : Nat) (hr : 1 ≤ read) (ht : 128 ≤ t.val) :
    dispatch c env r (t :: rest) read = onFileTransferData r (t :: rest) read := by
  unfold dispatch
  rw [if_neg (by omega)]
  simp only [List.getElem?_cons_zero, Option.bind_eq_bind, Option.some_bind]
  have := t.isLt
  rw [if_pos (by omega)]

theorem data_phase (c : Crypto) (env : Env) : ∀ (chunks : List (List Byte)) (b : Byte)
    (t rbuff : List Byte) (r : Receiver) (pt : PendingFileTransfer),
    127 ≤ b.val → (∀ ch ∈ chunks, 0 < ch.length ∧ ch.length ≤ t.length) →
    rbuff.length = t.length + 1 →
    r.pendingFileTransfer = some pt → pt.err = none → pt.index = (b.val + 1) % 128 →
    pt.offset + chunks.flatten.length ≤ pt.size → pt.size < 18446744073709551616 →
    ∃ pkts sbuff rbuff1 pt1,
      sendFileLoop chunks (b :: t) = some (pkts, chunks.flatten, sbuff) ∧
      sbuff.length = t.length + 1 ∧
      receiveAll c env r rbuff pkts
        = some ({ r with pendingFileTransfer := some pt1 }, rbuff1,
            chunks.map (Op.write pt.file), List.replicate pkts.length none) ∧
      rbuff1.length = rbuff.length ∧
      pt1.hash = pt.hash ++ chunks.flatten ∧ pt1.err = none ∧ pt1.file = pt.file ∧
      pt1.filename = pt.filename ∧ pt1.fileIndex = pt.fileIndex ∧ pt1.modts = pt.modts := by
  intro chunks
  induction chunks with
  | nil =>
    intro b t rbuff r pt _ _ _ hpt _ _ _ _
    refine ⟨[], b :: t, rbuff, pt, rfl, by simp, ?_, rfl, by simp, ‹_›, rfl, rfl, rfl, rfl⟩
    have hr : ({ r with pendingFileTransfer := some pt } : Receiver) = r := by
      cases r; simp_all
    rw [hr]; rfl
  | cons ch chunks ih =>
    intro b t rbuff r pt hb hch hrb hpt herr hidx hoff hsz
    have hc := hch ch (List.mem_cons_self _ _)
    have hnt := nextType_val b hb
    simp only [List.flatten_cons, List.length_append] at hoff
    -- the receiver's step on this packet
    have hri : readInto rbuff (nextType b :: ch)
        = (nextType b :: (ch ++ rbuff.drop (ch.length + 1)), ch.length + 1) := by
      have := readInto_fit rbuff (nextType b :: ch) (by simp; omega)
      simpa using this
    have hacc := onFileTransferData_accept r pt (nextType b) ch (rbuff.drop (ch.length + 1))
      hpt herr (by rw [hnt.2, hidx]) (by omega) hsz
    -- the rest of the run
    obtain ⟨pkts, sbuff, rbuff1, pt1, hs, hsl, hrcv, hrl, hh, he, hf, hfn, hfi, hm⟩ :=
      ih (nextType b) (ch ++ t.drop ch.length) (nextType b :: (ch ++ rbuff.drop (ch.length + 1)))
        { r with
          pendingFileTransfer := some
            { pt with
              hash := pt.hash ++ ch
              index := (pt.index + 1) % 128
              offset := pt.offset + ch.length
              rawSize := (pt.rawSize + (HEADER_OVERHEAD + (ch.length + 1)))
                % 18446744073709551616 } }
        _ (by omega)
        (fun x hx => by
          have := hch x (List.mem_cons_of_mem _ hx)
          simp only [List.length_append, List.length_drop]
          omega)
        (by simp only [List.length_cons, List.length_append, List.length_drop]; omega)
        rfl herr
        (by show (pt.index + 1) % 128 = ((nextType b).val + 1) % 128; omega)
        (by show pt.offset + ch.length + chunks.flatten.length ≤ pt.size; omega) hsz
    refine ⟨(nextType b :: ch) :: pkts, sbuff, rbuff1, pt1, ?_, ?_, ?_, ?_, ?_, he, hf, hfn,
      hfi, hm⟩
    · rw [sendFileLoop_step ch chunks b t hc.1 hc.2, hs]
      simp
    · rw [hsl]; simp only [List.length_append, List.length_drop]; omega
    · rw [receiveAll, hri]
      simp only
      rw [dispatch_data c env r _ _ _ (by omega) hnt.1, hacc]
      simp only [Option.bind_eq_bind, Option.some_bind]
      rw [hrcv]
      simp [List.replicate_succ]
    · rw [hrl]; simp only [List.length_cons, List.length_append, List.length_drop]; omega
    · rw [hh]; simp

theorem receiveAll_append (c : Crypto) (env : Env) : ∀ (a b : List (List Byte)) (r : Receiver)
    (buff : List Byte),
    receiveAll c env r buff (a ++ b)
      = (receiveAll c env r buff a).bind fun x =>
          (receiveAll c env x.1 x.2.1 b).bind fun y =>
            some (y.1, y.2.1, x.2.2.1 ++ y.2.2.1, x.2.2.2 ++ y.2.2.2) := by
  intro a
  induction a with
  | nil =>
    intro b r buff
    simp only [List.nil_append, receiveAll, Option.some_bind, List.nil_append]
    cases receiveAll c env r buff b with
    | none => rfl
    | some y => rfl
  | cons p a ih =>
    intro b r buff
    rw [List.cons_append]
    simp only [receiveAll, Option.bind_eq_bind]
    cases dispatch c env r (readInto buff p).1 (readInto buff p).2 with
    | none => rfl
    | some ret =>
      simp only [Option.some_bind]
      rw [ih]
      cases receiveAll c env ret.r (readInto buff p).1 a with
      | none => rfl
      | some x =>
        simp only [Option.some_bind]
        cases receiveAll c env x.1 x.2.1 b with
        | none => rfl
        | some y => simp

theorem startPacket_length (c : Crypto) (K : Str) (X i sz mt : Nat) :
    (startPacket c K X i sz mt).length = 90 := by
  simp [startPacket, sign_length]

theorem completePacket_length (c : Crypto) (K : Str) (X i : Nat) (hs : List Byte)
    (hh : hs.length = 32) : (completePacket c K X i hs).length = 105 := by
  simp [completePacket, sign_length, hh]

theorem dispatch_start (c : Crypto) (env : Env) (r : Receiver) (K : Str) (X i sz mt : Nat)
    (rest : List Byte) (M : Manifest) (mf : FileRecord)
    (hK : r.conf.hmacSecret = K) (hM : r.manifest = some M) (hX : r.manifestId = X)
    (hX32 : X < 4294967296) (hi32 : i < 4294967296) (hsz : sz < 18446744073709551616)
    (hmf : M.files[i]? = some mf) (hfp : pathClean (r.dir ++ mf.path) ≠ [dot])
    (hopen : env.openOk (stagingPath r.tmpDir X i) = true) :
    dispatch c env r (startPacket c K X i sz mt ++ rest) 90
      = some ⟨{ r with
            pendingFileTransfer := some
              { size := sz, offset := 0, index := 0, rawSize := 0, hash := [],
                file := stagingPath r.tmpDir X i, err := none,
                filename := pathClean (r.dir ++ mf.path), fileIndex := i, modts := mf.modts } },
          closePending r ++ [.openTrunc (stagingPath r.tmpDir X i) r.conf.receiver.filePermission],
          none⟩ := by
  have hd : dispatch c env r (startPacket c K X i sz mt ++ rest) 90
      = onFileTransferStart c env r (startPacket c K X i sz mt ++ rest) 90 := by
    unfold dispatch
    rw [if_neg (by omega)]
    simp [startPacket]
  rw [hd]
  subst hX
  have e2 : startPacket c K r.manifestId i sz mt ++ rest = [0x02, 0x00] ++ (be32 r.manifestId
      ++ (be32 i ++ (be64 sz ++ (be64 mt ++ (sign c K ([0x02, 0x00] ++ be32 r.manifestId
        ++ be32 i ++ be64 sz ++ be64 mt) ++ rest))))) := by
    simp [startPacket]
  have e6 : startPacket c K r.manifestId i sz mt ++ rest = ([0x02, 0x00] ++ be32 r.manifestId)
      ++ (be32 i ++ (be64 sz ++ (be64 mt ++ (sign c K ([0x02, 0x00] ++ be32 r.manifestId
        ++ be32 i ++ be64 sz ++ be64 mt) ++ rest)))) := by
    simp [startPacket]
  have e10 : startPacket c K r.manifestId i sz mt ++ rest
      = ([0x02, 0x00] ++ be32 r.manifestId ++ be32 i)
      ++ (be64 sz ++ (be64 mt ++ (sign c K ([0x02, 0x00] ++ be32 r.manifestId
        ++ be32 i ++ be64 sz ++ be64 mt) ++ rest))) := by
    simp [startPacket]
  have e26 : startPacket c K r.manifestId i sz mt ++ rest
      = ([0x02, 0x00] ++ be32 r.manifestId ++ be32 i ++ be64 sz ++ be64 mt)
      ++ (sign c K ([0x02, 0x00] ++ be32 r.manifestId ++ be32 i ++ be64 sz ++ be64 mt)
        ++ rest) := by
    simp [startPacket]
  refine onFileTransferStart_accept c env r _ 90 M i sz mf (by omega)
    (by rw [List.length_append, startPacket_length]; omega) hM (by simp [startPacket]) ?_ ?_ hmf
    ?_ ?_ hfp hopen
  · rw [e2, sliceFrom_append _ _ 2 (by rfl)]
    simp only [Option.bind_eq_bind, Option.some_bind, uint32_be32, Nat.mod_eq_of_lt hX32]
  · rw [e6, sliceFrom_append _ _ 6 (by rfl)]
    simp only [Option.bind_eq_bind, Option.some_bind, uint32_be32, Nat.mod_eq_of_lt hi32]
  · rw [e10, sliceFrom_append _ _ 10 (by rfl)]
    simp only [Option.bind_eq_bind, Option.some_bind, uint64_be64, Nat.mod_eq_of_lt hsz]
  · rw [e26, List.take_left' (by simp), List.drop_left' (by simp), List.take_left' (sign_length _ _ _),
      hK]

theorem dispatch_complete (c : Crypto) (env : Env) (r : Receiver) (K : Str) (X i : Nat)
    (hs rest : List Byte) (pft : PendingFileTransfer)
    (hK : r.conf.hmacSecret = K) (hX : r.manifestId = X)
    (hX32 : X < 4294967296) (hi32 : i < 4294967296) (hh : hs.length = 32)
    (hp : r.pendingFileTransfer = some pft) (hfi : pft.fileIndex = i)
    (hhash : c.sha256 pft.hash = hs) :
    dispatch c env r (completePacket c K X i hs ++ rest) 105
      = some ⟨{ r with pendingFileTransfer := none },
          [.close pft.file, .goMoveTmpFile (stagingPath r.tmpDir X i) pft.filename pft.modts],
          none⟩ := by
  have hd : dispatch c env r (completePacket c K X i hs ++ rest) 105
      = onFileTransferComplete c r (completePacket c K X i hs ++ rest) 105 := by
    unfold dispatch
    rw [if_neg (by omega)]
    simp [completePacket]
    intro h
    exact absurd h (by decide)
  rw [hd]
  subst hX
  have e1 : completePacket c K r.manifestId i hs ++ rest = [0x03] ++ (be32 r.manifestId
      ++ (be32 i ++ (hs ++ (sign c K ([0x03] ++ be32 r.manifestId ++ be32 i ++ hs) ++ rest))))
      := by
    simp [completePacket]
  have e5 : completePacket c K r.manifestId i hs ++ rest = ([0x03] ++ be32 r.manifestId)
      ++ (be32 i ++ (hs ++ (sign c K ([0x03] ++ be32 r.manifestId ++ be32 i ++ hs) ++ rest)))
      := by
    simp [completePacket]
  have e9 : completePacket c K r.manifestId i hs ++ rest = ([0x03] ++ be32 r.manifestId ++ be32 i)
      ++ (hs ++ (sign c K ([0x03] ++ be32 r.manifestId ++ be32 i ++ hs) ++ rest)) := by
    simp [completePacket]
  have e41 : completePacket c K r.manifestId i hs ++ rest
      = ([0x03] ++ be32 r.manifestId ++ be32 i ++ hs)
      ++ (sign c K ([0x03] ++ be32 r.manifestId ++ be32 i ++ hs) ++ rest) := by
    simp [completePacket]
  have h1 : (sliceFrom (completePacket c K r.manifestId i hs ++ rest) 1).bind uint32
      = some r.manifestId := by
    rw [e1, sliceFrom_append _ _ 1 (by rfl)]
    simp only [Option.bind_eq_bind, Option.some_bind, uint32_be32, Nat.mod_eq_of_lt hX32]
  have h5 : (sliceFrom (completePacket c K r.manifestId i hs ++ rest) 5).bind uint32
      = some i := by
    rw [e5, sliceFrom_append _ _ 5 (by rfl)]
    simp only [Option.bind_eq_bind, Option.some_bind, uint32_be32, Nat.mod_eq_of_lt hi32]
  have h9 : slice (completePacket c K r.manifestId i hs ++ rest) 9 (9 + 32) = some hs := by
    rw [e9, slice_mid _ _ _ 9 (9 + 32) (by rfl) (by rw [hh])]
  have h41 : slice (completePacket c K r.manifestId i hs ++ rest) 0 (9 + 32)
      = some ([0x03] ++ be32 r.manifestId ++ be32 i ++ hs) := by
    rw [e41, slice_front _ _ (9 + 32) (by simp [hh])]
  have h105 : slice (completePacket c K r.manifestId i hs ++ rest) (9 + 32) (9 + 32 + 64)
      = some (sign c K ([0x03] ++ be32 r.manifestId ++ be32 i ++ hs)) := by
    rw [e41, slice_mid _ _ _ (9 + 32) (9 + 32 + 64) (by simp [hh]) (by rw [sign_length])]
  unfold onFileTransferComplete
  rw [if_neg (by omega)]
  simp only [hp, h1, h5, h9, h41, h105, Option.bind_eq_bind, Option.some_bind, ne_eq,
    not_true_eq_false, if_false, hfi, hK, hhash]

theorem putAt_head (buf : List Byte) (y : Byte) (h : 0 < buf.length) :
    putAt buf 0 [y] = some (y :: buf.tail) := by
  cases buf with
  | nil => simp at h
  | cons x t => simp [putAt]

theorem toUint64_natCast (n : Nat) (h : n < 18446744073709551616) :
    toUint64 (n : Int) = n := by
  unfold toUint64
  omega

theorem writtenTo_map_write (file : Str) (chunks : List (List Byte)) (tail : List Op)
    : writtenTo file (chunks.map (Op.write file) ++ tail)
      = chunks.flatten ++ writtenTo file tail := by
  induction chunks with
  | nil => simp
  | cons ch chunks ih => simp [writtenTo, ih]

theorem file_transfer (c : Crypto) (env : Env) (conf : Config) (r : Receiver)
    (rbuff : List Byte) (M : Manifest) (X i : Nat) (mf : FileRecord) (mtime : Int)
    (chunks : List (List Byte))
    (hmps : 105 ≤ conf.maxPacketSize)
    (hsec : r.conf.hmacSecret = conf.hmacSecret)
    (hrb : rbuff.length = conf.maxPacketSize)
    (hM : r.manifest = some M) (hX : r.manifestId = X) (hX32 : X < 4294967296)
    (hnp : r.pendingFileTransfer = none)
    (hmf : M.files[i]? = some mf) (hi32 : i < 4294967296)
    (hch : ∀ ch ∈ chunks, 0 < ch.length ∧ ch.length ≤ conf.maxPacketSize - 1)
    (hsize : chunks.flatten.length < 9223372036854775808)
    (hfp : pathClean (r.dir ++ mf.path) ≠ [dot])
    (hopen : env.openOk (stagingPath r.tmpDir X i) = true) :
    ∃ pkts rbuff1,
      sendFile c conf X i (chunks.flatten.length : Int) mtime chunks = some pkts ∧
      receiveAll c env r rbuff pkts
        = some (r, rbuff1,
            [Op.openTrunc (stagingPath r.tmpDir X i) r.conf.receiver.filePermission]
              ++ chunks.map (Op.write (stagingPath r.tmpDir X i))
              ++ [Op.close (stagingPath r.tmpDir X i),
                  Op.goMoveTmpFile (stagingPath r.tmpDir X i) (pathClean (r.dir ++ mf.path))
                    mf.modts],
            List.replicate pkts.length none) := by
  -- the sender's buffer after the start packet
  have hz : (zeros conf.maxPacketSize).length = conf.maxPacketSize := List.length_replicate _ _
  have hstart := sendFileStart_eq c conf X i (chunks.flatten.length : Int) mtime
    (zeros conf.maxPacketSize) (by rw [hz]; omega)
  rw [toUint64_natCast _ (by omega)] at hstart
  generalize hsb : startPacket c conf.hmacSecret X i chunks.flatten.length (toUint64 mtime)
    ++ (zeros conf.maxPacketSize).drop 90 = sb at hstart
  have hsbl : sb.length = conf.maxPacketSize := by
    rw [← hsb, List.length_append, startPacket_length, List.length_drop, hz]; omega
  have hhead := putAt_head sb 0x7F (by omega)
  -- the receiver's step on the start packet
  have hri : readInto rbuff
      (startPacket c conf.hmacSecret X i chunks.flatten.length (toUint64 mtime))
      = (startPacket c conf.hmacSecret X i chunks.flatten.length (toUint64 mtime)
          ++ rbuff.drop 90, 90) := by
    have := readInto_fit rbuff
      (startPacket c conf.hmacSecret X i chunks.flatten.length (toUint64 mtime))
      (by rw [startPacket_length]; omega)
    rw [startPacket_length] at this
    exact this
  have hds := dispatch_start c env r conf.hmacSecret X i chunks.flatten.length
    (toUint64 mtime) (rbuff.drop 90) M mf hsec hM hX hX32 hi32 (by omega) hmf hfp hopen
  have hcp : closePending r = [] := by unfold closePending; rw [hnp]
  rw [hcp, List.nil_append] at hds
  -- the data packets
  obtain ⟨dpkts, sbuff, rbuff1, pt1, hloop, hsl, hrcv, hrl, hh, he, hf, hfn, hfi, hm⟩ :=
    data_phase c env chunks 0x7F sb.tail
      (startPacket c conf.hmacSecret X i chunks.flatten.length (toUint64 mtime) ++ rbuff.drop 90)
      { r with
        pendingFileTransfer := some
          { size := chunks.flatten.length, offset := 0, index := 0, rawSize := 0, hash := [],
            file := stagingPath r.tmpDir X i, err := none,
            filename := pathClean (r.dir ++ mf.path), fileIndex := i, modts := mf.modts } }
      _ (by decide)
      (fun ch hx => by
        have := hch ch hx
        rw [List.length_tail, hsbl]; exact this)
      (by rw [List.length_append, startPacket_length, List.length_drop, List.length_tail, hsbl,
            hrb]; omega)
      rfl rfl rfl (by simp) (by show chunks.flatten.length < _; omega)
  -- the complete packet
  have hcomp := sendFileComplete_eq c conf X i (c.sha256 chunks.flatten) sbuff
    (by rw [hsl, List.length_tail, hsbl]; omega) (c.sha256_length _)
  have hcl := completePacket_length c conf.hmacSecret X i (c.sha256 chunks.flatten)
    (c.sha256_length _)
  have hri2 : readInto rbuff1
      (completePacket c conf.hmacSecret X i (c.sha256 chunks.flatten))
      = (completePacket c conf.hmacSecret X i (c.sha256 chunks.flatten)
          ++ rbuff1.drop 105, 105) := by
    have := readInto_fit rbuff1
      (completePacket c conf.hmacSecret X i (c.sha256 chunks.flatten))
      (by rw [hcl, hrl, List.length_append, startPacket_length, List.length_drop, hrb]; omega)
    rw [hcl] at this
    exact this
  have hdc := dispatch_complete c env
    { r with pendingFileTransfer := some pt1 } conf.hmacSecret X i
    (c.sha256 chunks.flatten) (rbuff1.drop 105) pt1 hsec hX hX32 hi32 (c.sha256_length _) rfl
    hfi (by rw [hh]; rfl)
  have hr : ({ r with pendingFileTransfer := none } : Receiver) = r := by
    cases r; simp_all
  refine ⟨startPacket c conf.hmacSecret X i chunks.flatten.length (toUint64 mtime)
      :: dpkts ++ [completePacket c conf.hmacSecret X i (c.sha256 chunks.flatten)],
    completePacket c conf.hmacSecret X i (c.sha256 chunks.flatten) ++ rbuff1.drop 105, ?_, ?_⟩
  · unfold sendFile
    simp only [Option.bind_eq_bind]
    rw [hstart]
    simp only [Option.some_bind]
    rw [hhead]
    simp only [Option.some_bind]
    rw [hloop]
    simp only [Option.some_bind]
    rw [hcomp]
    simp
  · rw [List.cons_append, receiveAll, hri]
    simp only
    rw [hds]
    simp only [Option.bind_eq_bind, Option.some_bind]
    rw [receiveAll_append, hrcv]
    simp only [Option.some_bind]
    rw [receiveAll, hri2]
    simp only
    rw [hdc]
    simp only [Option.bind_eq_bind, Option.some_bind, receiveAll, hf, hfn, hm]
    simp [hr, hX, List.replicate_succ, List.replicate_add, List.replicate_succ']
    constructor
    · cases r; simp_all
    · rw [← List.replicate_succ', List.replicate_succ]

/-- C2 (as amended): a receiver holds a manifest for session `X` and has no transfer
pending; `sendFile` runs for file index `i` of that manifest over a content read in
non-empty chunks of at most `maxPacketSize - 1` bytes, with `maxPacketSize ≥ 105` and the
receiver's secret. If the cleaned target path is not `.` and the staging file can be
opened, then `sendFile` returns its packets, and the receive loop fed with them in order
returns no error on any packet, leaves the receiver as it was (no transfer pending) and
issues exactly: the open of the staging file, one write per chunk, the close, and the
promotion of the staging file to the manifest path of index `i` with the manifest's
modts; the bytes written to the staging file are the content. -/
theorem C2_file_transfer (c : Crypto) (env : Env) (conf : Config) (r : Receiver)
    (rbuff : List Byte) (M : Manifest) (X i : Nat) (mf : FileRecord) (mtime : Int)
    (chunks : List (List Byte))
    (hmps : 105 ≤ conf.maxPacketSize)
    (hsec : r.conf.hmacSecret = conf.hmacSecret)
    (hrb : rbuff.length = conf.maxPacketSize)
    (hM : r.manifest = some M) (hX : r.manifestId = X) (hX32 : X < 4294967296)
    (hnp : r.pendingFileTransfer = none)
    (hmf : M.files[i]? = some mf) (hi32 : i < 4294967296)
    (hch : ∀ ch ∈ chunks, 0 < ch.length ∧ ch.length ≤ conf.maxPacketSize - 1)
    (hsize : chunks.flatten.length < 9223372036854775808)
    (hfp : pathClean (r.dir ++ mf.path) ≠ [dot])
    (hopen : env.openOk (stagingPath r.tmpDir X i) = true) :
    ∃ pkts rbuff1 ops,
      sendFile c conf X i (chunks.flatten.length : Int) mtime chunks = some pkts ∧
      receiveAll c env r rbuff pkts = some (r, rbuff1, ops, List.replicate pkts.length none) ∧
      ops = [Op.openTrunc (stagingPath r.tmpDir X i) r.conf.receiver.filePermission]
              ++ chunks.map (Op.write (stagingPath r.tmpDir X i))
              ++ [Op.close (stagingPath r.tmpDir X i),
                  Op.goMoveTmpFile (stagingPath r.tmpDir X i) (pathClean (r.dir ++ mf.path))
                    mf.modts] ∧
      writtenTo (stagingPath r.tmpDir X i) ops = chunks.flatten := by
  obtain ⟨pkts, rbuff1, hs, hr⟩ := file_transfer c env conf r rbuff M X i mf mtime chunks hmps
    hsec hrb hM hX hX32 hnp hmf hi32 hch hsize hfp hopen
  refine ⟨pkts, rbuff1, _, hs, hr, rfl, ?_⟩
  rw [List.append_assoc, List.singleton_append]
  simp [writtenTo, writtenTo_map_write]

set_option maxRecDepth 100000 in
theorem C2_file_transfer_witness :
    ∃ pkts rbuff1 ops,
      sendFile toyCrypto toyConfig 3 0
        (([lit "hello\n", lit "world"] : List (List Byte)).flatten.length : Int) 99
        [lit "hello\n", lit "world"] = some pkts ∧
      receiveAll toyCrypto toyEnv toyReceiver (zeros 120) pkts
        = some (toyReceiver, rbuff1, ops, List.replicate pkts.length none) ∧
      ops = [Op.openTrunc (stagingPath toyReceiver.tmpDir 3 0)
                toyReceiver.conf.receiver.filePermission]
              ++ [lit "hello\n", lit "world"].map (Op.write (stagingPath toyReceiver.tmpDir 3 0))
              ++ [Op.close (stagingPath toyReceiver.tmpDir 3 0),
                  Op.goMoveTmpFile (stagingPath toyReceiver.tmpDir 3 0)
                    (pathClean (toyReceiver.dir ++ lit "a/f")) 7] ∧
      writtenTo (stagingPath toyReceiver.tmpDir 3 0) ops
        = ([lit "hello\n", lit "world"] : List (List Byte)).flatten :=
  C2_file_transfer toyCrypto toyEnv toyConfig toyReceiver (zeros 120) toyManifest 3 0
    ⟨⟨lit "a/f", 7⟩, 11⟩ 99 [lit "hello\n", lit "world"] (by decide) rfl (by decide) rfl rfl
    (by decide) rfl (by decide) (by decide) (by decide) (by decide) (by decide) rfl

set_option maxRecDepth 100000 in
/-- C2 (counterexample): the receiver started in `.` holds, for session 3, a manifest
whose file 0 has the empty path, and has no transfer pending; the packets `sendFile`
emits for file 0 with an 11-byte content (`maxPacketSize = 120`) are fed in order. The
`0x02` packet is answered with the invalid-path error, the data packet is ignored, the
`0x03` packet finds no pending transfer; nothing is opened, written or promoted. -/
theorem C2_counterexample :
    dotReceiver.manifestId = 3 ∧ dotReceiver.pendingFileTransfer = none ∧
    dotReceiver.manifest.map (fun m => decide (0 < m.files.length)) = some true ∧
    ((sendFile toyCrypto toyConfig 3 0 11 99 [lit "hello\nworld"]).bind fun pkts =>
        (receiveAll toyCrypto toyEnv dotReceiver (zeros 120) pkts).map fun x =>
          (x.2.2.2, x.2.2.1))
      = some ([some .invalidFilePathName, none, some .completeWithoutPending], []) := by
  decide


/-! ## End-to-end manifest transfer: claim C3 -/

theorem copyAt_pre_min (pre rest src : List Byte) (off : Nat) (ho : off = pre.length) :
    copyAt (pre ++ rest) off src
      = some ((pre ++ src.take (min rest.length src.length))
          ++ rest.drop (min rest.length src.length), min rest.length src.length) := by
  subst ho
  unfold copyAt
  simp [List.take_append_eq_append_take, List.drop_append_eq_append_drop]

theorem chunkHeader_length (id i : Nat) : (chunkHeader id i).length = 7 := rfl

theorem sendManifestLoop_later (data : List Byte) (fuel : Nat) (id i offset : Nat)
    (rest : List Byte) (hi : 0 < i) (hoff : offset < data.length) (hrest : 2 ≤ rest.length) :
    sendManifestLoop data (fuel + 1) ([0x01] ++ be32 id ++ rest) offset i
      = (sendManifestLoop data fuel
            (chunkHeader id i
              ++ (data.drop offset).take (min (rest.length - 2) (data.length - offset))
              ++ (rest.drop 2).drop (min (rest.length - 2) (data.length - offset)))
            (offset + min (rest.length - 2) (data.length - offset)) (i + 1)).bind
          fun r => some ((chunkHeader id i
              ++ (data.drop offset).take (min (rest.length - 2) (data.length - offset))) :: r) := by
  rw [sendManifestLoop, if_pos hoff, be16_mod]
  rw [putAt_pre ([0x01] ++ be32 id) rest (be16 i) 5 (by rfl) (by simpa using hrest)]
  simp only [Option.bind_eq_bind, Option.some_bind]
  rw [if_neg (by omega)]
  rw [sliceFrom_eq data offset (by omega)]
  simp only [Option.some_bind]
  rw [copyAt_pre_min _ _ _ 7 (by rfl)]
  simp only [Option.some_bind, List.length_drop, be16_length]
  rw [slice_front _ _ _ (by
    simp only [List.length_append, List.length_take, List.length_drop, be16_length]
    show 7 + _ = 1 + 4 + 2 + _
    omega)]
  simp only [Option.some_bind, chunkHeader]

theorem sendManifestLoop_first (data : List Byte) (fuel : Nat) (id : Nat)
    (rest : List Byte) (hoff : 0 < data.length) (hrest : 6 ≤ rest.length) :
    sendManifestLoop data (fuel + 1) ([0x01] ++ be32 id ++ rest) 0 0
      = (sendManifestLoop data fuel
            (chunkHeader id 0 ++ be32 data.length
              ++ data.take (min (rest.length - 6) data.length)
              ++ (rest.drop 6).drop (min (rest.length - 6) data.length))
            (min (rest.length - 6) data.length) 1).bind
          fun r => some ((chunkHeader id 0 ++ be32 data.length
              ++ data.take (min (rest.length - 6) data.length)) :: r) := by
  rw [sendManifestLoop, if_pos hoff, be32_mod]
  rw [putAt_pre ([0x01] ++ be32 id) rest (be16 (0 % 65536)) 5 (by rfl) (by simp; omega)]
  simp only [Option.bind_eq_bind, Option.some_bind]
  rw [if_pos trivial]
  rw [putAt_pre _ _ (be32 data.length) 7 (by rfl) (by simp; omega)]
  simp only [Option.some_bind]
  rw [sliceFrom_eq data 0 (by omega)]
  simp only [Option.some_bind]
  rw [copyAt_pre_min _ _ _ (7 + 4) (by rfl)]
  simp only [Option.some_bind, List.length_drop, be16_length, be32_length, List.drop_zero,
    List.drop_drop]
  rw [slice_front _ _ _ (by
    simp only [List.length_append, List.length_take, be16_length, be32_length]
    show 7 + 4 + _ = 1 + 4 + 2 + 4 + _
    omega)]
  simp only [Option.some_bind, chunkHeader, Nat.zero_add]

theorem handleManifestReceived_ok (env : Env) (r : Receiver)
    (h : r.conf.receiver.delete = true → walkCallbacks r.dir (env.walk r.dir) = some ()) :
    handleManifestReceived env r = some (createFolders env r) := by
  unfold handleManifestReceived
  by_cases hd : r.conf.receiver.delete = true
  · rw [if_pos hd, h hd]; rfl
  · rw [if_neg hd]

theorem dispatch_manifest (c : Crypto) (env : Env) (r : Receiver) (rest : List Byte)
    (read : Nat) (hr : 1 ≤ read) :
    dispatch c env r ((0x01 : Byte) :: rest) read = onManifestPacket c env r (0x01 :: rest) read := by
  unfold dispatch
  rw [if_neg (by omega)]
  simp only [List.getElem?_cons_zero, Option.bind_eq_bind, Option.some_bind]
  rw [if_neg (by decide), if_neg (by decide), if_neg (by decide), if_pos trivial]

theorem chunk_fields (id i : Nat) (tail : List Byte) (hid : id < 4294967296)
    (hi : i < 65536) :
    (sliceFrom (chunkHeader id i ++ tail) 1).bind uint32 = some id ∧
    (sliceFrom (chunkHeader id i ++ tail) 5).bind uint16 = some i := by
  have e1 : chunkHeader id i ++ tail = [0x01] ++ (be32 id ++ (be16 i ++ tail)) := by
    simp [chunkHeader]
  have e5 : chunkHeader id i ++ tail = ([0x01] ++ be32 id) ++ (be16 i ++ tail) := by
    simp [chunkHeader]
  constructor
  · rw [e1, sliceFrom_append _ _ 1 (by rfl)]
    simp only [Option.bind_eq_bind, Option.some_bind, uint32_be32, Nat.mod_eq_of_lt hid]
  · rw [e5, sliceFrom_append _ _ 5 (by rfl)]
    simp only [Option.bind_eq_bind, Option.some_bind, uint16_be16, Nat.mod_eq_of_lt hi]

/-- A later chunk that does not complete the manifest: its payload is stored and the
next part expected. -/
theorem onManifestPacket_later_more (c : Crypto) (env : Env) (r : Receiver)
    (pmt : PendingManifestTransfer) (id i k : Nat) (pre chunk stale : List Byte)
    (hid : id < 4294967296) (hi : i < 65536) (h3 : 3 ≤ chunk.length)
    (hp : r.pendingManifestTransfer = some pmt) (hrid : r.manifestId = id)
    (hidx : pmt.index = i) (hbuf : pmt.buff = pre ++ zeros k) (hoff : pmt.offset = pre.length)
    (hk : chunk.length < k) :
    onManifestPacket c env r (chunkHeader id i ++ chunk ++ stale) (7 + chunk.length)
      = some ⟨{ r with
            pendingManifestTransfer := some
              ⟨(pre ++ chunk) ++ zeros (k - chunk.length), pre.length + chunk.length, i + 1⟩ },
          [], none⟩ := by
  obtain ⟨f1, f5⟩ := chunk_fields id i (chunk ++ stale) hid hi
  have hsl : slice (chunkHeader id i ++ (chunk ++ stale)) 7 (7 + chunk.length) = some chunk :=
    slice_mid _ _ _ 7 _ (by rfl) rfl
  have hcp : copyAt (pre ++ zeros k) pre.length chunk
      = some ((pre ++ chunk) ++ zeros (k - chunk.length), chunk.length) :=
    copyAt_zeros pre chunk k _ rfl (by omega)
  unfold onManifestPacket
  rw [if_neg (by omega), List.append_assoc, f1, f5]
  simp only [Option.bind_eq_bind, Option.some_bind, hp, hrid, ne_eq, not_true_eq_false,
    if_false, hidx, hsl, hbuf, hoff, hcp]
  rw [if_neg (by simp only [List.length_append, List.length_replicate]; omega)]

/-- A later chunk that completes the manifest: the buffer is deserialized, the manifest
installed and the folders created. -/
theorem onManifestPacket_later_done (c : Crypto) (env : Env) (r : Receiver)
    (pmt : PendingManifestTransfer) (id i k : Nat) (pre chunk stale : List Byte) (M : Manifest)
    (hid : id < 4294967296) (hi : i < 65536) (h3 : 3 ≤ chunk.length)
    (hp : r.pendingManifestTransfer = some pmt) (hrid : r.manifestId = id)
    (hidx : pmt.index = i) (hbuf : pmt.buff = pre ++ zeros k) (hoff : pmt.offset = pre.length)
    (hk : chunk.length = k)
    (hdes : deserializeManifest c (pre ++ chunk) r.conf.hmacSecret = some (.ok M))
    (hwalk : r.conf.receiver.delete = true → walkCallbacks r.dir (env.walk r.dir) = some ()) :
    ∃ r1 ops, onManifestPacket c env r (chunkHeader id i ++ chunk ++ stale) (7 + chunk.length)
        = some ⟨r1, ops, none⟩ ∧ r1.manifest = some M ∧ r1.manifestId = id := by
  obtain ⟨f1, f5⟩ := chunk_fields id i (chunk ++ stale) hid hi
  have hsl : slice (chunkHeader id i ++ (chunk ++ stale)) 7 (7 + chunk.length) = some chunk :=
    slice_mid _ _ _ 7 _ (by rfl) rfl
  have hcp : copyAt (pre ++ zeros k) pre.length chunk
      = some ((pre ++ chunk) ++ zeros (k - chunk.length), chunk.length) :=
    copyAt_zeros pre chunk k _ rfl (by omega)
  have hz : (pre ++ chunk) ++ zeros (k - chunk.length) = pre ++ chunk := by
    rw [hk, Nat.sub_self]; simp
  unfold onManifestPacket
  rw [if_neg (by omega), List.append_assoc, f1, f5]
  simp only [Option.bind_eq_bind, Option.some_bind, hp, hrid, ne_eq, not_true_eq_false,
    if_false, hidx, hsl, hbuf, hoff, hcp, hz, List.length_append, if_true, hdes]
  have hh : ∀ r2 : Receiver, r2.conf = r.conf → r2.dir = r.dir →
      handleManifestReceived env r2 = some (createFolders env r2) :=
    fun r2 h1 h2 => handleManifestReceived_ok env r2 (by rw [h1, h2]; exact hwalk)
  rw [hh _ (by rfl) (by rfl)]
  exact ⟨_, _, rfl, rfl, rfl⟩

theorem first_fields (id len : Nat) (tail : List Byte) (hlen : len < 4294967296) :
    (sliceFrom (chunkHeader id 0 ++ be32 len ++ tail) 7).bind uint32 = some len ∧
    sliceFrom (chunkHeader id 0 ++ be32 len ++ tail) 11 = some tail := by
  constructor
  · rw [List.append_assoc, sliceFrom_append _ _ 7 (by rfl)]
    simp only [Option.bind_eq_bind, Option.some_bind, uint32_be32, Nat.mod_eq_of_lt hlen]
  · rw [sliceFrom_append _ _ 11 (by rfl)]

/-- Part 0 of a manifest that does not fit one chunk: the session id is taken, the
payload stored and part 1 expected. -/
theorem onManifestPacket_first_more (c : Crypto) (env : Env) (r : Receiver)
    (id len : Nat) (chunk : List Byte)
    (hid : id < 4294967296) (h1 : 1 ≤ len) (h5 : len ≤ 5 * 1024 * 1024)
    (hp : r.pendingManifestTransfer = none) (hk : chunk.length < len) :
    onManifestPacket c env r (chunkHeader id 0 ++ be32 len ++ chunk) (11 + chunk.length)
      = some ⟨{ r with
            manifestId := id
            pendingManifestTransfer := some
              ⟨chunk ++ zeros (len - chunk.length), chunk.length, 1⟩ },
          [], none⟩ := by
  have hc : chunkHeader id 0 ++ be32 len ++ chunk = chunkHeader id 0 ++ (be32 len ++ chunk) := by
    simp
  obtain ⟨f1, f5⟩ := chunk_fields id 0 (be32 len ++ chunk) hid (by decide)
  obtain ⟨f7, f11⟩ := first_fields id len chunk (by omega)
  have hcp : copyAt (zeros len) 0 chunk
      = some (chunk ++ zeros (len - chunk.length), chunk.length) := by
    have := copyAt_zeros [] chunk len 0 rfl (by omega)
    simpa using this
  unfold onManifestPacket onManifestPartZero
  rw [if_neg (by omega)]
  rw [hc, f1, f5, ← hc, f7, f11]
  simp only [Option.bind_eq_bind, Option.some_bind, hp, ne_eq, not_true_eq_false, if_false, hcp]
  rw [if_neg (by omega), if_neg (by omega)]

/-- Part 0 of a manifest that fits one chunk: the session id is taken, the payload
deserialized, the manifest installed and the folders created. -/
theorem onManifestPacket_first_done (c : Crypto) (env : Env) (r : Receiver)
    (id : Nat) (chunk stale : List Byte) (M : Manifest)
    (hid : id < 4294967296) (h1 : 1 ≤ chunk.length) (h5 : chunk.length ≤ 5 * 1024 * 1024)
    (hp : r.pendingManifestTransfer = none)
    (hdes : deserializeManifest c chunk r.conf.hmacSecret = some (.ok M))
    (hwalk : r.conf.receiver.delete = true → walkCallbacks r.dir (env.walk r.dir) = some ()) :
    ∃ r1 ops,
      onManifestPacket c env r (chunkHeader id 0 ++ be32 chunk.length ++ (chunk ++ stale))
          (11 + chunk.length) = some ⟨r1, ops, none⟩ ∧
      r1.manifest = some M ∧ r1.manifestId = id := by
  have hc : chunkHeader id 0 ++ be32 chunk.length ++ (chunk ++ stale)
      = chunkHeader id 0 ++ (be32 chunk.length ++ (chunk ++ stale)) := by
    simp
  obtain ⟨f1, f5⟩ := chunk_fields id 0 (be32 chunk.length ++ (chunk ++ stale)) hid (by decide)
  obtain ⟨f7, f11⟩ := first_fields id chunk.length (chunk ++ stale) (by omega)
  have hcp : copyAt (zeros chunk.length) 0 (chunk ++ stale) = some (chunk, chunk.length) := by
    have := copyAt_pre_min [] (zeros chunk.length) (chunk ++ stale) 0 rfl
    simpa using this
  have hh : ∀ r2 : Receiver, r2.conf = r.conf → r2.dir = r.dir →
      handleManifestReceived env r2 = some (createFolders env r2) :=
    fun r2 h1 h2 => handleManifestReceived_ok env r2 (by rw [h1, h2]; exact hwalk)
  unfold onManifestPacket onManifestPartZero
  rw [if_neg (by omega)]
  rw [hc, f1, f5, ← hc, f7, f11]
  simp only [Option.bind_eq_bind, Option.some_bind, hp, ne_eq, not_true_eq_false, if_false, hcp]
  rw [if_neg (by omega)]
  simp only [if_true, hdes, Option.some_bind]
  rw [hh _ (by rfl) (by rfl)]
  exact ⟨_, _, rfl, rfl, rfl⟩

theorem sendManifestLoop_end (data : List Byte) (fuel : Nat) (buff : List Byte)
    (offset i : Nat) (h : data.length ≤ offset) :
    sendManifestLoop data (fuel + 1) buff offset i = some [] := by
  rw [sendManifestLoop, if_neg (by omega)]

theorem take_append_take_drop (data : List Byte) (a n : Nat) :
    data.take a ++ (data.drop a).take n = data.take (a + n) := by
  rw [List.take_add]

theorem later_chunks (c : Crypto) (env : Env) (data : List Byte) (M : Manifest) (id mps : Nat)
    (hmps : 14 ≤ mps) (hid : id < 4294967296)
    (hcnt : data.length ≤ (mps - 11) + 65535 * (mps - 7))
    (hlast : ∀ k, (mps - 11) + k * (mps - 7) < data.length →
      (mps - 11) + k * (mps - 7) + 3 ≤ data.length) :
    ∀ (fuel i offset : Nat) (rest rbuff : List Byte) (r : Receiver)
      (pmt : PendingManifestTransfer),
      1 ≤ i → offset = (mps - 11) + (i - 1) * (mps - 7) → offset < data.length →
      data.length - offset < fuel → rest.length = mps - 5 → rbuff.length = mps →
      r.pendingManifestTransfer = some pmt →
      pmt.buff = data.take offset ++ zeros (data.length - offset) → pmt.offset = offset →
      pmt.index = i → r.manifestId = id →
      deserializeManifest c data r.conf.hmacSecret = some (.ok M) →
      (r.conf.receiver.delete = true → walkCallbacks r.dir (env.walk r.dir) = some ()) →
      ∃ pkts r1 rbuff1 ops,
        sendManifestLoop data fuel ([0x01] ++ be32 id ++ rest) offset i = some pkts ∧
        receiveAll c env r rbuff pkts = some (r1, rbuff1, ops, List.replicate pkts.length none) ∧
        r1.manifest = some M ∧ r1.manifestId = id := by
  intro fuel
  induction fuel with
  | zero => intro i offset rest rbuff r pmt _ _ _ hf; omega
  | succ fuel ih =>
    intro i offset rest rbuff r pmt hi hoffdef hoff hfuel hrest hrb hp hbuf hpo hidx hrid hdes
      hwalk
    -- the part index fits 16 bits, the chunk carries at least 3 bytes
    have hB : 0 < mps - 7 := by omega
    have hi16 : i < 65536 := by
      have h1 : (i - 1) * (mps - 7) < 65535 * (mps - 7) := by omega
      have := Nat.lt_of_mul_lt_mul_right h1
      omega
    have h3 := hlast (i - 1) (by rw [← hoffdef]; exact hoff)
    rw [← hoffdef] at h3
    have hmin : min (rest.length - 2) (data.length - offset)
        = min (mps - 7) (data.length - offset) := by rw [hrest]; congr 1
    generalize hn : min (mps - 7) (data.length - offset) = n at hmin
    have hn3 : 3 ≤ n := by rw [← hn]; omega
    have hnle : n ≤ data.length - offset := by rw [← hn]; omega
    have hnB : n ≤ mps - 7 := by rw [← hn]; omega
    generalize hchunk : (data.drop offset).take n = chunk
    have hcl : chunk.length = n := by
      rw [← hchunk, List.length_take, List.length_drop]; omega
    have hpre : (data.take offset).length = offset := by
      rw [List.length_take]; omega
    -- the sender's step
    have hsend := sendManifestLoop_later data fuel id i offset rest (by omega) hoff (by omega)
    rw [hmin, hchunk] at hsend
    -- the receiver's read
    have hri : readInto rbuff (chunkHeader id i ++ chunk)
        = (chunkHeader id i ++ chunk ++ rbuff.drop (7 + n), 7 + n) := by
      have := readInto_fit rbuff (chunkHeader id i ++ chunk)
        (by rw [List.length_append, chunkHeader_length, hcl]; omega)
      rw [List.length_append, chunkHeader_length, hcl] at this
      exact this
    have hdisp : dispatch c env r (chunkHeader id i ++ chunk ++ rbuff.drop (7 + n)) (7 + n)
        = onManifestPacket c env r (chunkHeader id i ++ chunk ++ rbuff.drop (7 + n)) (7 + n) :=
      dispatch_manifest c env r _ _ (by omega)
    by_cases hdone : offset + n = data.length
    · -- last chunk
      have hdata : data.take offset ++ chunk = data := by
        rw [← hchunk, take_append_take_drop, hdone, List.take_length]
      obtain ⟨r1, ops, hrecv, hm, hmid⟩ := onManifestPacket_later_done c env r pmt id i
        (data.length - offset) (data.take offset) chunk (rbuff.drop (7 + n)) M hid hi16
        (by omega) hp hrid hidx hbuf (by rw [hpre, hpo]) (by omega) (by rw [hdata]; exact hdes)
        hwalk
      rw [hcl] at hrecv
      obtain ⟨f, hf⟩ : ∃ f, fuel = f + 1 := ⟨fuel - 1, by omega⟩
      refine ⟨[chunkHeader id i ++ chunk], r1, chunkHeader id i ++ chunk ++ rbuff.drop (7 + n),
        ops ++ [], ?_, ?_, hm, hmid⟩
      · rw [hsend, hf, sendManifestLoop_end data f _ _ _ (by omega)]
        rfl
      · rw [receiveAll, hri]
        simp only
        rw [hdisp, hrecv]
        simp [receiveAll]
    · -- a full chunk, more to come
      have hnfull : n = mps - 7 := by rw [← hn]; omega
      have hrecv := onManifestPacket_later_more c env r pmt id i (data.length - offset)
        (data.take offset) chunk (rbuff.drop (7 + n)) hid hi16 (by omega) hp hrid hidx hbuf
        (by rw [hpre, hpo]) (by omega)
      rw [hcl, hpre] at hrecv
      have hsucc : (i + 1 - 1) * (mps - 7) = (i - 1) * (mps - 7) + (mps - 7) := by
        have : i + 1 - 1 = (i - 1) + 1 := by omega
        rw [this, Nat.add_mul, Nat.one_mul]
      obtain ⟨pkts, r1, rbuff1, ops, hs, hr, hm, hmid⟩ :=
        ih (i + 1) (offset + n) (be16 i ++ chunk ++ (rest.drop 2).drop n)
          (chunkHeader id i ++ chunk ++ rbuff.drop (7 + n))
          { r with
            pendingManifestTransfer := some
              ⟨(data.take offset ++ chunk) ++ zeros (data.length - offset - n), offset + n,
                i + 1⟩ }
          ⟨(data.take offset ++ chunk) ++ zeros (data.length - offset - n), offset + n, i + 1⟩
          (by omega) (by rw [hsucc]; omega) (by omega) (by omega)
          (by simp only [List.length_append, be16_length, hcl, List.length_drop]; omega)
          (by simp only [List.length_append, chunkHeader_length, hcl, List.length_drop]; omega)
          rfl
          (by
            show (data.take offset ++ chunk) ++ zeros (data.length - offset - n)
              = data.take (offset + n) ++ zeros (data.length - (offset + n))
            rw [← hchunk, take_append_take_drop, Nat.sub_sub])
          rfl rfl hrid hdes hwalk
      have hbuffeq : chunkHeader id i ++ chunk ++ (rest.drop 2).drop n
          = [0x01] ++ be32 id ++ (be16 i ++ chunk ++ (rest.drop 2).drop n) := by
        simp [chunkHeader]
      refine ⟨(chunkHeader id i ++ chunk) :: pkts, r1, rbuff1, [] ++ ops, ?_, ?_, hm, hmid⟩
      · rw [hsend, hbuffeq, hs]
        rfl
      · rw [receiveAll, hri]
        simp only
        rw [hdisp, hrecv]
        simp only [Option.bind_eq_bind, Option.some_bind]
        rw [hr]
        simp [List.replicate_succ]

theorem dirsLayout_length_ge (ds : List DirRecord) : 6 * ds.length ≤ (dirsLayout ds).length := by
  induction ds with
  | nil => simp
  | cons d ds ih => simp only [dirsLayout, List.length_append, dirLayout_length,
      List.length_cons]; omega

theorem filesLayout_length_ge (fs : List FileRecord) :
    14 * fs.length ≤ (filesLayout fs).length := by
  induction fs with
  | nil => simp
  | cons f fs ih => simp only [filesLayout, List.length_append, fileLayout_length,
      List.length_cons]; omega

/-- End-to-end manifest transfer where it does work: paths fit the `uint16` length field,
the serialized manifest is at most 5 MiB and needs at most 65536 chunks, no chunk after
part 0 carries fewer than 3 bytes, and the delete-mode walk (if enabled) stores nothing.
Then `sendManifest` returns its chunks, and the receive loop fed with them returns no
error on any chunk and ends holding `M` under the sender's session id. -/
theorem manifest_transfer (c : Crypto) (env : Env) (conf : Config) (M : Manifest) (id : Nat)
    (r : Receiver) (rbuff : List Byte)
    (hmps : 14 ≤ conf.maxPacketSize) (hsec : r.conf.hmacSecret = conf.hmacSecret)
    (hrb : rbuff.length = conf.maxPacketSize) (hnp : r.pendingManifestTransfer = none)
    (hid : id < 4294967296) (hwf : M.WF) (hpf : M.PathsFit)
    (hsize : (manifestLayout M).length + 64 ≤ 5 * 1024 * 1024)
    (hcnt : (manifestLayout M).length + 64
      ≤ (conf.maxPacketSize - 11) + 65535 * (conf.maxPacketSize - 7))
    (hlast : ∀ k,
      (conf.maxPacketSize - 11) + k * (conf.maxPacketSize - 7) < (manifestLayout M).length + 64 →
      (conf.maxPacketSize - 11) + k * (conf.maxPacketSize - 7) + 3
        ≤ (manifestLayout M).length + 64)
    (hwalk : r.conf.receiver.delete = true → walkCallbacks r.dir (env.walk r.dir) = some ()) :
    ∃ pkts r1 rbuff1 ops,
      sendManifest c conf M id = some (.ok pkts) ∧
      receiveAll c env r rbuff pkts = some (r1, rbuff1, ops, List.replicate pkts.length none) ∧
      r1.manifest = some M ∧ r1.manifestId = id := by
  have hml := manifestLayout_length M
  have hdl := dirsLayout_length_ge M.dirs
  have hfl := filesLayout_length_ge M.files
  generalize hdata : manifestLayout M ++ sign c conf.hmacSecret (manifestLayout M) = data
  have hlen : data.length = (manifestLayout M).length + 64 := by
    rw [← hdata, List.length_append, sign_length]
  have hser : serializeManifest c M conf.hmacSecret = some data := by
    rw [serializeManifest_eq, hdata]
  have hdes : deserializeManifest c data r.conf.hmacSecret = some (.ok M) := by
    rw [hsec, ← hdata]
    exact deserialize_layout c M conf.hmacSecret hwf hpf (by omega) (by omega)
  rw [← hlen] at hsize hcnt hlast
  generalize hmpsdef : conf.maxPacketSize = mps at *
  -- the sender's buffer before the loop
  have hb0 : putAt (zeros mps) 0 [0x01] = some ([0x01] ++ zeros (mps - 1)) := by
    have := putAt_zeros [] [0x01] mps 0 rfl (by simp; omega)
    simpa using this
  have hb1 : putAt ([0x01] ++ zeros (mps - 1)) 1 (be32 (id % 4294967296))
      = some ([0x01] ++ be32 id ++ zeros (mps - 5)) := by
    rw [be32_mod, putAt_zeros [0x01] (be32 id) (mps - 1) 1 rfl (by simp; omega)]
    have : mps - 1 - (be32 id).length = mps - 5 := by simp only [be32_length]; omega
    rw [this]
  have hz : (zeros (mps - 5)).length = mps - 5 := List.length_replicate _ _
  have hfirst := sendManifestLoop_first data data.length id (zeros (mps - 5)) (by omega)
    (by rw [hz]; omega)
  have hmin : min ((zeros (mps - 5)).length - 6) data.length = min (mps - 11) data.length := by
    rw [hz]; congr 1
  rw [hmin] at hfirst
  generalize hn : min (mps - 11) data.length = n at hfirst
  have hnle : n ≤ data.length := by rw [← hn]; omega
  have hnA : n ≤ mps - 11 := by rw [← hn]; omega
  have hsm : sendManifest c conf M id
      = (sendManifestLoop data (data.length + 1) ([0x01] ++ be32 id ++ zeros (mps - 5)) 0 0).bind
          fun pkts => some (.ok pkts) := by
    unfold sendManifest
    rw [hmpsdef, if_neg (by omega), hser]
    simp only [Option.bind_eq_bind, Option.some_bind, hb0, hb1]
  generalize hchunk : data.take n = chunk at hfirst
  have hcl : chunk.length = n := by rw [← hchunk, List.length_take]; omega
  have hri : readInto rbuff (chunkHeader id 0 ++ be32 data.length ++ chunk)
      = (chunkHeader id 0 ++ be32 data.length ++ chunk ++ rbuff.drop (11 + n), 11 + n) := by
    have hl : (chunkHeader id 0 ++ be32 data.length ++ chunk).length = 11 + n := by
      simp only [List.length_append, chunkHeader_length, be32_length, hcl]
    have := readInto_fit rbuff (chunkHeader id 0 ++ be32 data.length ++ chunk)
      (by rw [hl]; omega)
    rw [hl] at this
    exact this
  have hdisp : ∀ tail : List Byte,
      dispatch c env r (chunkHeader id 0 ++ be32 data.length ++ chunk ++ tail) (11 + n)
        = onManifestPacket c env r (chunkHeader id 0 ++ be32 data.length ++ chunk ++ tail)
            (11 + n) :=
    fun tail => dispatch_manifest c env r _ _ (by omega)
  by_cases hdone : n = data.length
  · -- the manifest fits part 0
    subst hdone
    have hcd : chunk = data := by rw [← hchunk, List.take_length]
    obtain ⟨r1, ops, hrecv, hm, hmid⟩ := onManifestPacket_first_done c env r id data
      (rbuff.drop (11 + data.length)) M hid (by omega) hsize hnp hdes hwalk
    refine ⟨[chunkHeader id 0 ++ be32 data.length ++ chunk], r1,
      chunkHeader id 0 ++ be32 data.length ++ chunk ++ rbuff.drop (11 + data.length),
      ops ++ [], ?_, ?_, hm, hmid⟩
    · rw [hsm, hfirst]
      have : sendManifestLoop data data.length
          (chunkHeader id 0 ++ be32 data.length ++ chunk
            ++ List.drop data.length (List.drop 6 (zeros (mps - 5)))) data.length 1
          = some [] := by
        obtain ⟨f, hf⟩ : ∃ f, data.length = f + 1 := ⟨data.length - 1, by omega⟩
        generalize hg : sendManifestLoop data = g
        rw [hf, ← hg]
        exact sendManifestLoop_end data f _ _ _ (by omega)
      rw [this]
      rfl
    · rw [receiveAll, hri]
      simp only
      rw [hdisp, hcd, List.append_assoc _ data, hrecv]
      simp [receiveAll]
  · -- part 0 is full, more chunks follow
    have hnfull : n = mps - 11 := by rw [← hn]; omega
    have hdrop : rbuff.drop (11 + n) = [] := by
      apply List.drop_of_length_le; omega
    have hrecv := onManifestPacket_first_more c env r id data.length chunk hid (by omega) hsize
      hnp (by omega)
    rw [hcl] at hrecv
    obtain ⟨pkts, r1, rbuff1, ops, hs, hr, hm, hmid⟩ :=
      later_chunks c env data M id mps hmps hid hcnt hlast data.length 1 n
        (be16 0 ++ be32 data.length ++ chunk ++ List.drop n (List.drop 6 (zeros (mps - 5))))
        (chunkHeader id 0 ++ be32 data.length ++ chunk)
        { r with
          manifestId := id
          pendingManifestTransfer := some ⟨chunk ++ zeros (data.length - n), n, 1⟩ }
        ⟨chunk ++ zeros (data.length - n), n, 1⟩
        (by omega) (by simp only [Nat.sub_self, Nat.zero_mul, Nat.add_zero]; exact hnfull)
        (by omega) (by omega)
        (by simp only [List.length_append, be16_length, be32_length, hcl, List.length_drop, hz]
            omega)
        (by simp only [List.length_append, chunkHeader_length, be32_length, hcl]; omega)
        rfl (by rw [hchunk]) rfl rfl rfl hdes hwalk
    have hbuffeq : chunkHeader id 0 ++ be32 data.length ++ chunk
          ++ List.drop n (List.drop 6 (zeros (mps - 5)))
        = [0x01] ++ be32 id ++ (be16 0 ++ be32 data.length ++ chunk
          ++ List.drop n (List.drop 6 (zeros (mps - 5)))) := by
      simp [chunkHeader]
    refine ⟨(chunkHeader id 0 ++ be32 data.length ++ chunk) :: pkts, r1, rbuff1, [] ++ ops,
      ?_, ?_, hm, hmid⟩
    · rw [hsm, hfirst, hbuffeq, hs]
      rfl
    · rw [receiveAll, hri]
      simp only
      have hd0 := hdisp []
      rw [List.append_nil] at hd0
      rw [hdrop, List.append_nil, hd0, hrecv]
      simp only [Option.bind_eq_bind, Option.some_bind]
      rw [hr]
      simp [List.replicate_succ]

set_option maxRecDepth 1000000 in
/-- C3 (the fault): `toyManifest` serializes to 96 bytes; with `maxPacketSize = 105`
`sendManifest` emits two chunks for session 9: part 0 with 94 bytes of payload after its
11-byte header, and part 1 with the last 2 bytes after its 7-byte header. Fed in order
to a receiver with the same packet size and secret and no pending manifest transfer,
both chunks return no error, yet the receiver ends without a manifest: part 1 is 9 bytes
long and `onManifestPacket` returns at `read < 10`, so reassembly stops at 94 of 96
bytes, still expecting part 1. -/
theorem C3_last_chunk_dropped :
    (serializeManifest toyCrypto toyManifest smallConfig.hmacSecret).map List.length = some 96 ∧
    freshReceiver.pendingManifestTransfer = none ∧
    freshReceiver.conf.hmacSecret = smallConfig.hmacSecret ∧
    (transferManifest toyCrypto toyEnv smallConfig toyManifest 9 freshReceiver (zeros 105)).map
        (fun x => x.1.map List.length) = some [105, 9] ∧
    (transferManifest toyCrypto toyEnv smallConfig toyManifest 9 freshReceiver (zeros 105)).map
        (fun x => x.2.2.2) = some [none, none] ∧
    (transferManifest toyCrypto toyEnv smallConfig toyManifest 9 freshReceiver (zeros 105)).map
        (fun x => x.2.1.manifest) = some none ∧
    (transferManifest toyCrypto toyEnv smallConfig toyManifest 9 freshReceiver (zeros 105)).map
        (fun x => x.2.1.pendingManifestTransfer.map fun p => (p.offset, p.index, p.buff.length))
      = some (some (94, 1, 96)) := by
  refine ⟨by decide, by decide, by decide, by decide, by decide, by decide, by decide⟩


/-! ## Sequence numbers of data packets: claim C11 -/

set_option maxRecDepth 100000 in
theorem nextType_high : ∀ m, m < 128 → nextType (byte (128 + m)) = byte (128 + (m + 1) % 128) := by
  decide

theorem nextType_iterate (k : Nat) : (nextType^[k + 1]) (0x7F : Byte) = byte (128 + k % 128) := by
  induction k with
  | zero => decide
  | succ k ih =>
    rw [Function.iterate_succ_apply', ih, nextType_high _ (Nat.mod_lt _ (by decide))]
    congr 2
    omega

/-- The data packets of the read loop of `sendFile`, started on a buffer with type byte
`b`: packet `k` has the type byte reached from `b` by `k + 1` increments. -/
theorem sendFileLoop_types : ∀ (reads : List (List Byte)) (b : Byte) (t : List Byte)
    (pkts : List (List Byte)) (h sb : List Byte),
    sendFileLoop reads (b :: t) = some (pkts, h, sb) →
    ∀ k, k < pkts.length → ∃ payload, pkts[k]? = some ((nextType^[k + 1]) b :: payload) := by
  intro reads
  induction reads with
  | nil =>
    intro b t pkts h sb hs k hk
    rw [sendFileLoop] at hs
    cases hs
    cases hk
  | cons ch reads ih =>
    intro b t pkts h sb hs k hk
    have hc : copyAt (b :: t) 1 ch
        = some (([b] ++ ch.take (min t.length ch.length))
            ++ t.drop (min t.length ch.length), min t.length ch.length) :=
      copyAt_pre_min [b] t ch 1 rfl
    rw [sendFileLoop, hc] at hs
    simp only [Option.bind_eq_bind, Option.some_bind] at hs
    by_cases h0 : min t.length ch.length = 0
    · rw [if_pos h0] at hs
      cases hs
      cases hk
    rw [if_neg h0] at hs
    simp only [List.singleton_append, List.cons_append, List.nil_append,
      List.getElem?_cons_zero, Option.some_bind] at hs
    have hp : putAt (b :: (ch.take (min t.length ch.length) ++ t.drop (min t.length ch.length))) 0
        [if byte (b.val + 1) = 0 then 0x80 else byte (b.val + 1)]
        = some (nextType b
            :: (ch.take (min t.length ch.length) ++ t.drop (min t.length ch.length))) := by
      simp [putAt, nextType]
    rw [hp] at hs
    simp only [Option.some_bind] at hs
    obtain ⟨pkt, hpkt, hs⟩ := Option.bind_eq_some.mp hs
    obtain ⟨hashed, -, hs⟩ := Option.bind_eq_some.mp hs
    obtain ⟨res, hres, hs⟩ := Option.bind_eq_some.mp hs
    obtain ⟨pkts1, h1, sb1⟩ := res
    simp only [Option.some.injEq, Prod.mk.injEq] at hs
    obtain ⟨hpk, -, -⟩ := hs
    subst hpk
    have hpkt2 : ∃ payload, pkt = nextType b :: payload := by
      unfold slice at hpkt
      split_ifs at hpkt with hb
      · cases hpkt
        exact ⟨(ch.take (min t.length ch.length) ++ t.drop (min t.length ch.length)).take
          (min t.length ch.length),
          by simp only [Nat.sub_zero, List.drop_zero, List.take_succ_cons]⟩
    cases k with
    | zero =>
      obtain ⟨payload, hpl⟩ := hpkt2
      exact ⟨payload, by simp [hpl]⟩
    | succ k =>
      obtain ⟨payload, hpl⟩ := ih (nextType b) _ pkts1 h1 sb1 hres k
        (by simpa using hk)
      exact ⟨payload, by simpa [Function.iterate_succ_apply] using hpl⟩

/-- The datagrams of `sendFile`: the `0x02` packet, the data packets of the read loop
started on a buffer with type byte `0x7F`, the `0x03` packet. -/
theorem sendFile_split (c : Crypto) (conf : Config) (X i : Nat) (size mtime : Int)
    (reads : List (List Byte)) (pkts : List (List Byte))
    (hs : sendFile c conf X i size mtime reads = some pkts) :
    ∃ start t dataPkts h sb complete, pkts = start :: dataPkts ++ [complete] ∧
      sendFileLoop reads ((0x7F : Byte) :: t) = some (dataPkts, h, sb) := by
  unfold sendFile at hs
  simp only [Option.bind_eq_bind] at hs
  obtain ⟨st, -, hs⟩ := Option.bind_eq_some.mp hs
  obtain ⟨start, buff1⟩ := st
  simp only at hs
  obtain ⟨buff2, hput, hs⟩ := Option.bind_eq_some.mp hs
  obtain ⟨res, hloop, hs⟩ := Option.bind_eq_some.mp hs
  obtain ⟨dataPkts, h, sb⟩ := res
  simp only at hs
  obtain ⟨complete, -, hs⟩ := Option.bind_eq_some.mp hs
  simp only [Option.some.injEq] at hs
  have hb2 : buff2 = (0x7F : Byte) :: buff1.drop 1 := by
    unfold putAt at hput
    split_ifs at hput with hb
    · simp only [Option.some.injEq] at hput
      rw [← hput]
      simp
  rw [hb2] at hloop
  exact ⟨start, _, dataPkts, h, sb, complete, hs.symm, hloop⟩

/-- A data packet that a non-errored transfer answers with no error has been accepted:
the sequence number advances by one modulo 128. -/
theorem onFileTransferData_advance (r : Receiver) (pt : PendingFileTransfer) (buff : List Byte)
    (read : Nat) (ret : Ret) (hp : r.pendingFileTransfer = some pt) (herr : pt.err = none)
    (hr : 1 ≤ read) (h : onFileTransferData r buff read = some ret) (he : ret.err = none) :
    ∃ pt1, ret.r.pendingFileTransfer = some pt1 ∧ pt1.index = (pt.index + 1) % 128 ∧
      pt1.err = none := by
  unfold onFileTransferData at h
  simp only [hp] at h
  rw [if_neg (by rw [herr]; simp; omega)] at h
  cases hb : buff[0]? with
  | none => simp [hb] at h
  | some b0 =>
    simp only [hb, Option.bind_eq_bind, Option.some_bind] at h
    by_cases c2 : b0.val % 128 = pt.index
    · rw [if_pos c2] at h
      by_cases c3 : (pt.offset + (read - 1)) % 18446744073709551616 > pt.size
      · rw [if_pos c3] at h
        cases h; cases he
      · rw [if_neg c3] at h
        cases hsl : slice buff 1 read with
        | none => simp [hsl] at h
        | some payload =>
          simp only [hsl, Option.some_bind] at h
          cases h
          exact ⟨_, rfl, by simp only; omega, herr⟩
    · rw [if_neg c2] at h
      cases h; cases he

theorem readInto_length (buff pkt : List Byte) :
    (readInto buff pkt).1.length = buff.length ∧ (readInto buff pkt).2 = min pkt.length buff.length := by
  unfold readInto
  simp only [List.length_append, List.length_take, List.length_drop, and_true]
  omega

/-- After `k` data packets that were all answered with no error, a transfer that
started at sequence number `s` is at `(s + k) mod 128`. -/
theorem accepted_index (c : Crypto) (env : Env) : ∀ (pkts : List (List Byte)) (s : Nat)
    (r : Receiver) (rbuff : List Byte) (pt : PendingFileTransfer) (r1 : Receiver)
    (rbuff1 : List Byte) (ops : List Op),
    0 < rbuff.length → (∀ p ∈ pkts, ∃ t rest, p = t :: rest ∧ 128 ≤ t.val) →
    r.pendingFileTransfer = some pt → pt.err = none → pt.index = s % 128 →
    receiveAll c env r rbuff pkts = some (r1, rbuff1, ops, List.replicate pkts.length none) →
    ∃ pt1, r1.pendingFileTransfer = some pt1 ∧ pt1.index = (s + pkts.length) % 128 ∧
      pt1.err = none := by
  intro pkts
  induction pkts with
  | nil =>
    intro s r rbuff pt r1 rbuff1 ops _ _ hp herr hidx h
    rw [receiveAll] at h
    simp only [Option.some.injEq, Prod.mk.injEq] at h
    rw [← h.1]
    exact ⟨pt, hp, by simpa using hidx, herr⟩
  | cons p pkts ih =>
    intro s r rbuff pt r1 rbuff1 ops hrb hty hp herr hidx h
    obtain ⟨t, rest, hpt, ht⟩ := hty p (List.mem_cons_self _ _)
    obtain ⟨hl, hn⟩ := readInto_length rbuff p
    have hn1 : 1 ≤ (readInto rbuff p).2 := by
      rw [hn, hpt]; simp only [List.length_cons]; omega
    have hhead : ∃ rest2, (readInto rbuff p).1 = t :: rest2 := by
      have hmin : min p.length rbuff.length = (min p.length rbuff.length - 1) + 1 := by
        rw [hpt]; simp only [List.length_cons]; omega
      unfold readInto
      simp only
      rw [hmin, hpt, List.take_succ_cons]
      exact ⟨_, rfl⟩
    obtain ⟨rest2, hr2⟩ := hhead
    rw [receiveAll] at h
    simp only [Option.bind_eq_bind] at h
    obtain ⟨ret, hret, h⟩ := Option.bind_eq_some.mp h
    obtain ⟨x, hx, h⟩ := Option.bind_eq_some.mp h
    obtain ⟨r2, buff2, ops2, errs2⟩ := x
    simp only [Option.some.injEq, Prod.mk.injEq, List.length_cons, List.replicate_succ,
      List.cons.injEq] at h
    obtain ⟨h1, h2, h3, h4, h5⟩ := h
    rw [hr2, dispatch_data c env r t rest2 _ hn1 ht, ← hr2] at hret
    obtain ⟨pt1, hp1, hi1, he1⟩ := onFileTransferData_advance r pt _ _ ret hp herr hn1 hret h4
    subst h1 h5
    obtain ⟨pt2, hp2, hi2, he2⟩ := ih (s + 1) ret.r (readInto rbuff p).1 pt1 r2 buff2 ops2
      (by rw [hl]; exact hrb) (fun q hq => hty q (List.mem_cons_of_mem _ hq)) hp1 he1
      (by rw [hi1, hidx]; omega) hx
    exact ⟨pt2, hp2, by rw [hi2]; simp only [List.length_cons]; congr 1; omega, he2⟩

theorem sendFileLoop_length : ∀ (chunks : List (List Byte)) (b : Byte) (t : List Byte)
    (pkts : List (List Byte)) (h sb : List Byte),
    (∀ ch ∈ chunks, 0 < ch.length ∧ ch.length ≤ t.length) →
    sendFileLoop chunks (b :: t) = some (pkts, h, sb) → pkts.length = chunks.length := by
  intro chunks
  induction chunks with
  | nil =>
    intro b t pkts h sb _ hs
    rw [sendFileLoop] at hs
    cases hs
    rfl
  | cons ch chunks ih =>
    intro b t pkts h sb hch hs
    have hc := hch ch (List.mem_cons_self _ _)
    rw [sendFileLoop_step ch chunks b t hc.1 hc.2] at hs
    obtain ⟨res, hres, hs⟩ := Option.bind_eq_some.mp hs
    obtain ⟨pkts1, h1, sb1⟩ := res
    simp only [Option.some.injEq, Prod.mk.injEq] at hs
    rw [← hs.1]
    simp only [List.length_cons, Nat.add_right_cancel_iff]
    exact ih (nextType b) (ch ++ t.drop ch.length) pkts1 h1 sb1
      (fun x hx => by
        have := hch x (List.mem_cons_of_mem _ hx)
        simp only [List.length_append, List.length_drop]
        omega) hres

/-- C11: data packet `k` of `sendFile`, counted from 0 after the `0x02` packet, has type
byte `0x80 + (k mod 128)`: no data packet has a type below `0x80` and `0xFF` is followed
by `0x80`. A receiver whose transfer was at sequence number 0 and that answered `k` data
packets with no error is at sequence number `k mod 128`. The data packets of the
sender's read loop, of any number, are all accepted in order by a receiver whose
transfer is at sequence number 0 and expects at least their bytes. -/
theorem C11_sequence_agreement (c : Crypto) (env : Env) :
    (∀ (conf : Config) (X i : Nat) (size mtime : Int) (reads pkts : List (List Byte)),
      sendFile c conf X i size mtime reads = some pkts →
      ∀ k, k + 2 < pkts.length →
        ∃ payload, pkts[k + 1]? = some (byte (0x80 + k % 128) :: payload)) ∧
    (∀ (pkts : List (List Byte)) (r : Receiver) (rbuff : List Byte) (pt : PendingFileTransfer)
      (r1 : Receiver) (rbuff1 : List Byte) (ops : List Op),
      0 < rbuff.length → (∀ p ∈ pkts, ∃ t rest, p = t :: rest ∧ 128 ≤ t.val) →
      r.pendingFileTransfer = some pt → pt.err = none → pt.index = 0 →
      receiveAll c env r rbuff pkts = some (r1, rbuff1, ops, List.replicate pkts.length none) →
      ∃ pt1, r1.pendingFileTransfer = some pt1 ∧ pt1.index = pkts.length % 128 ∧
        pt1.err = none) ∧
    (∀ (reads : List (List Byte)) (t rbuff : List Byte) (r : Receiver)
      (pt : PendingFileTransfer),
      (∀ ch ∈ reads, 0 < ch.length ∧ ch.length ≤ t.length) → rbuff.length = t.length + 1 →
      r.pendingFileTransfer = some pt → pt.err = none → pt.index = 0 →
      pt.offset + reads.flatten.length ≤ pt.size → pt.size < 18446744073709551616 →
      ∃ pkts h sb r1 rbuff1 ops pt1,
        sendFileLoop reads ((0x7F : Byte) :: t) = some (pkts, h, sb) ∧
        pkts.length = reads.length ∧
        receiveAll c env r rbuff pkts
          = some (r1, rbuff1, ops, List.replicate pkts.length none) ∧
        r1.pendingFileTransfer = some pt1 ∧ pt1.index = pkts.length % 128 ∧
        pt1.err = none) := by
  refine ⟨?_, ?_, ?_⟩
  · intro conf X i size mtime reads pkts hs k hk
    obtain ⟨start, t, dataPkts, h, sb, complete, hpk, hloop⟩ :=
      sendFile_split c conf X i size mtime reads pkts hs
    subst hpk
    have hk2 : k < dataPkts.length := by
      simp only [List.length_append, List.length_cons, List.length_nil] at hk
      omega
    obtain ⟨payload, hpl⟩ := sendFileLoop_types reads 0x7F t dataPkts h sb hloop k hk2
    refine ⟨payload, ?_⟩
    rw [nextType_iterate] at hpl
    rw [List.cons_append, List.getElem?_cons_succ, List.getElem?_append_left hk2, hpl]
  · intro pkts r rbuff pt r1 rbuff1 ops hrb hty hp herr hidx h
    obtain ⟨pt1, h1, h2, h3⟩ := accepted_index c env pkts 0 r rbuff pt r1 rbuff1 ops hrb hty hp
      herr (by rw [hidx]) h
    exact ⟨pt1, h1, by rw [h2, Nat.zero_add], h3⟩
  · intro reads t rbuff r pt hch hrb hp herr hidx hfit hsz
    obtain ⟨pkts, sb, rbuff1, pt1, hs, -, hrcv, -, -, he1, -⟩ :=
      data_phase c env reads 0x7F t rbuff r pt (by decide) hch hrb hp herr
        (by rw [hidx]; decide) hfit hsz
    have hty : ∀ p ∈ pkts, ∃ t rest, p = t :: rest ∧ 128 ≤ t.val := by
      intro p hp
      obtain ⟨k, hk, hpk⟩ := List.getElem_of_mem hp
      obtain ⟨payload, hpl⟩ := sendFileLoop_types reads 0x7F t pkts _ sb hs k hk
      rw [nextType_iterate, List.getElem?_eq_getElem hk, hpk] at hpl
      simp only [Option.some.injEq] at hpl
      refine ⟨_, _, hpl, ?_⟩
      simp only [byte]
      omega
    obtain ⟨pt2, h1, h2, h3⟩ := accepted_index c env pkts 0 r rbuff pt _ rbuff1 _
      (by omega) hty hp herr (by rw [hidx]) hrcv
    exact ⟨pkts, _, sb, _, rbuff1, _, pt2, hs,
      sendFileLoop_length reads 0x7F t pkts _ sb hch hs, hrcv, h1,
      by rw [h2, Nat.zero_add], h3⟩

set_option maxRecDepth 1000000 in
theorem C11_sequence_agreement_witness :
    (∃ payload,
      [toyStartPacket, (0x80 : Byte) :: lit "hello\n", (0x81 : Byte) :: lit "world",
        completePacket toyCrypto (lit "k") 3 0 (toyCrypto.sha256 (lit "hello\nworld"))][1 + 1]?
        = some (byte (0x80 + 1 % 128) :: payload)) ∧
    (∃ pkts h sb r1 rbuff1 ops pt1,
      sendFileLoop [lit "hello\n", lit "world"] ((0x7F : Byte) :: zeros 119) = some (pkts, h, sb) ∧
      pkts.length = [lit "hello\n", lit "world"].length ∧
      receiveAll toyCrypto toyEnv
          { toyReceiver with
            pendingFileTransfer := some
              { toyPending with offset := 0, index := 0, rawSize := 0, hash := [] } }
          (zeros 120) pkts
        = some (r1, rbuff1, ops, List.replicate pkts.length none) ∧
      r1.pendingFileTransfer = some pt1 ∧ pt1.index = pkts.length % 128 ∧ pt1.err = none) :=
  ⟨(C11_sequence_agreement toyCrypto toyEnv).1 toyConfig 3 0 11 99
      [lit "hello\n", lit "world"] _ (by decide) 1 (by decide),
   (C11_sequence_agreement toyCrypto toyEnv).2.2 [lit "hello\n", lit "world"] (zeros 119)
      (zeros 120) _ { toyPending with offset := 0, index := 0, rawSize := 0, hash := [] }
      (by decide) (by decide) rfl rfl rfl (by decide) (by decide)⟩

/-! ## Data packets and the pending transfer: claims C12, C13, C14 -/

/-- C12: when no file transfer is pending, or the pending transfer has been marked
errored, `onFileTransferData` returns no error for every data packet, issues no call and
leaves the receiver, with its pending transfer, byte counter and hash accumulator, as it
was. -/
theorem C12_data_ignored (r : Receiver) (buff : List Byte) (read : Nat)
    (h : r.pendingFileTransfer = none
      ∨ ∃ pt e, r.pendingFileTransfer = some pt ∧ pt.err = some e) :
    onFileTransferData r buff read = some ⟨r, [], none⟩ := by
  unfold onFileTransferData
  rcases h with h | ⟨pt, e, h, he⟩
  · rw [h]
  · rw [h]
    simp only [he]
    rw [if_pos (Or.inr (by simp))]

set_option maxRecDepth 100000 in
theorem C12_data_ignored_witness :
    onFileTransferData
        { busyReceiver with
          pendingFileTransfer := some { toyPending with err := some .outOfOrderFilePacket } }
        ((0x81 : Byte) :: lit "world") 6
      = some ⟨{ busyReceiver with
            pendingFileTransfer := some { toyPending with err := some .outOfOrderFilePacket } },
          [], none⟩ :=
  C12_data_ignored _ _ _ (Or.inr ⟨{ toyPending with err := some .outOfOrderFilePacket },
    .outOfOrderFilePacket, rfl, rfl⟩)

theorem uint64_lt (l : List Byte) (v : Nat) (h : uint64 l = some v) :
    v < 18446744073709551616 := by
  match l, h with
  | b0 :: b1 :: b2 :: b3 :: b4 :: b5 :: b6 :: b7 :: _, h =>
    have h2 : b0.val * 72057594037927936 + b1.val * 281474976710656 + b2.val * 1099511627776
      + b3.val * 4294967296 + b4.val * 16777216 + b5.val * 65536 + b6.val * 256 + b7.val
      = v := Option.some.inj h
    have := b0.isLt; have := b1.isLt; have := b2.isLt; have := b3.isLt
    have := b4.isLt; have := b5.isLt; have := b6.isLt; have := b7.isLt
    omega

theorem onFileTransferStart_fresh (c : Crypto) (env : Env) (r : Receiver) (buff : List Byte)
    (read : Nat) (ret : Ret) (hs : onFileTransferStart c env r buff read = some ret)
    (he : ret.err = none) :
    ∃ pt, ret.r.pendingFileTransfer = some pt ∧ pt.offset = 0 ∧ pt.index = 0 ∧ pt.err = none
      ∧ pt.size < 18446744073709551616 := by
  unfold onFileTransferStart at hs
  by_cases h90 : read < 1 + 1 + 4 + 4 + 8 + 8 + 64
  · rw [if_pos h90] at hs; cases hs; cases he
  rw [if_neg h90] at hs
  cases hM : r.manifest with
  | none => simp only [hM] at hs; cases hs; cases he
  | some M =>
    simp only [hM, Option.bind_eq_bind] at hs
    obtain ⟨b1, -, hs⟩ := Option.bind_eq_some.mp hs
    by_cases c1 : b1 ≠ 0
    · rw [if_pos c1] at hs
      obtain ⟨b2, -, hs⟩ := Option.bind_eq_some.mp hs
      cases hs; cases he
    rw [if_neg c1] at hs
    obtain ⟨id, -, hs⟩ := Option.bind_eq_some.mp hs
    by_cases c2 : id ≠ r.manifestId
    · rw [if_pos c2] at hs; cases hs; cases he
    rw [if_neg c2] at hs
    obtain ⟨idx, -, hs⟩ := Option.bind_eq_some.mp hs
    by_cases c3 : idx ≥ M.files.length
    · rw [if_pos c3] at hs; cases hs; cases he
    rw [if_neg c3] at hs
    obtain ⟨mf, -, hs⟩ := Option.bind_eq_some.mp hs
    by_cases c4 : pathClean (r.dir ++ mf.path) = [dot]
    · rw [if_pos c4] at hs; cases hs; cases he
    rw [if_neg c4] at hs
    obtain ⟨sz, hsz, hs⟩ := Option.bind_eq_some.mp hs
    obtain ⟨signed, -, hs⟩ := Option.bind_eq_some.mp hs
    obtain ⟨sg, -, hs⟩ := Option.bind_eq_some.mp hs
    by_cases c5 : sign c r.conf.hmacSecret signed ≠ sg
    · rw [if_pos c5] at hs; cases hs; cases he
    rw [if_neg c5] at hs
    by_cases c6 : env.openOk (stagingPath r.tmpDir id idx) = true
    · simp only [c6, if_true] at hs
      cases hs
      refine ⟨_, rfl, rfl, rfl, rfl, ?_⟩
      obtain ⟨l, -, hl⟩ := Option.bind_eq_some.mp hsz
      exact uint64_lt l sz hl
    · simp only [c6] at hs
      cases hs; cases he

/-- One data packet keeps `offset ≤ size` and `index < 128`, and the declared size. -/
theorem onFileTransferData_inv (r : Receiver) (buff : List Byte) (read : Nat) (ret : Ret)
    (h : onFileTransferData r buff read = some ret)
    (hinv : ∀ pt, r.pendingFileTransfer = some pt →
      pt.offset ≤ pt.size ∧ pt.index < 128 ∧ pt.size < 18446744073709551616) :
    ∀ pt, ret.r.pendingFileTransfer = some pt →
      pt.offset ≤ pt.size ∧ pt.index < 128 ∧ pt.size < 18446744073709551616 := by
  unfold onFileTransferData at h
  cases hp : r.pendingFileTransfer with
  | none => simp only [hp] at h; cases h; exact hinv
  | some pt =>
    have hi := hinv pt hp
    simp only [hp] at h
    by_cases c1 : read < 1 ∨ pt.err ≠ none
    · rw [if_pos c1] at h; cases h; exact hinv
    rw [if_neg c1] at h
    cases hb : buff[0]? with
    | none => simp [hb] at h
    | some b0 =>
      simp only [hb, Option.bind_eq_bind, Option.some_bind] at h
      by_cases c2 : b0.val % 128 = pt.index
      · rw [if_pos c2] at h
        by_cases c3 : (pt.offset + (read - 1)) % 18446744073709551616 > pt.size
        · rw [if_pos c3] at h
          cases h
          intro q hq
          simp only [Option.some.injEq] at hq
          subst hq
          exact hi
        · rw [if_neg c3] at h
          cases hsl : slice buff 1 read with
          | none => simp [hsl] at h
          | some payload =>
            simp only [hsl, Option.some_bind] at h
            cases h
            intro q hq
            simp only [Option.some.injEq] at hq
            subst hq
            exact ⟨by simp only; omega, by simp only; omega, hi.2.2⟩
      · rw [if_neg c2] at h
        cases h
        intro q hq
        simp only [Option.some.injEq] at hq
        subst hq
        exact hi

theorem feedData_inv : ∀ (pkts : List (List Byte × Nat)) (r r1 : Receiver),
    feedData r pkts = some r1 →
    (∀ pt, r.pendingFileTransfer = some pt →
      pt.offset ≤ pt.size ∧ pt.index < 128 ∧ pt.size < 18446744073709551616) →
    ∀ pt, r1.pendingFileTransfer = some pt →
      pt.offset ≤ pt.size ∧ pt.index < 128 ∧ pt.size < 18446744073709551616 := by
  intro pkts
  induction pkts with
  | nil => intro r r1 h hinv; cases h; exact hinv
  | cons p pkts ih =>
    intro r r1 h hinv
    obtain ⟨buff, read⟩ := p
    rw [feedData] at h
    obtain ⟨ret, hret, h⟩ := Option.bind_eq_some.mp h
    exact ih ret.r r1 h (onFileTransferData_inv r buff read ret hret hinv)

/-- C13 (as amended): in every receiver state reached from an accepted `0x02` start by
any sequence of data packets the pending transfer has `offset ≤ size` and `index < 128`.
In such a state, when the transfer is not errored, a data packet with the expected
sequence number whose payload takes the byte counter above the expected size, the sum
staying below `2^64`, marks the transfer errored and returns an error; it closes the
staging file and removes a path, writes and hashes nothing and leaves the byte counter
and the sequence number as they were. -/
theorem C13_data_invariant (c : Crypto) (env : Env) (r0 : Receiver) (sbuff : List Byte)
    (sread : Nat) (ret : Ret) (pkts : List (List Byte × Nat)) (r : Receiver)
    (pt : PendingFileTransfer)
    (hs : onFileTransferStart c env r0 sbuff sread = some ret) (he : ret.err = none)
    (hf : feedData ret.r pkts = some r) (hp : r.pendingFileTransfer = some pt) :
    pt.offset ≤ pt.size ∧ pt.index < 128 ∧
    ∀ (t : Byte) (p stale : List Byte), pt.err = none → t.val % 128 = pt.index →
      pt.size < pt.offset + p.length → pt.offset + p.length < 18446744073709551616 →
      onFileTransferData r (t :: (p ++ stale)) (p.length + 1)
        = some ⟨{ r with pendingFileTransfer := some { pt with err := some .tooMuchData } },
            [.close pt.file, .remove pt.filename], some .tooMuchData⟩ := by
  obtain ⟨q, hq, hq0, hqi, -, hqs⟩ := onFileTransferStart_fresh c env r0 sbuff sread ret hs he
  have hinv := feedData_inv pkts ret.r r hf (fun x hx => by
    rw [hq] at hx
    simp only [Option.some.injEq] at hx
    subst hx
    exact ⟨by omega, by omega, hqs⟩) pt hp
  refine ⟨hinv.1, hinv.2.1, fun t p stale herr hseq hbig hno => ?_⟩
  have hmod : (pt.offset + p.length) % 18446744073709551616 = pt.offset + p.length :=
    Nat.mod_eq_of_lt hno
  unfold onFileTransferData
  simp only [hp, herr, ne_eq, not_true_eq_false, or_false, Nat.add_sub_cancel,
    List.getElem?_cons_zero, Option.bind_eq_bind, Option.some_bind, hseq, if_true, hmod]
  rw [if_neg (by omega), if_pos (by omega)]

theorem feedData_seqPackets (payload : List Byte) : ∀ (n s : Nat) (r : Receiver)
    (pt : PendingFileTransfer), r.pendingFileTransfer = some pt → pt.err = none →
    pt.index = s % 128 → pt.offset + n * payload.length ≤ pt.size →
    pt.size < 18446744073709551616 →
    ∃ pt1, feedData r (seqPackets payload s n) = some { r with pendingFileTransfer := some pt1 } ∧
      pt1.offset = pt.offset + n * payload.length ∧ pt1.index = (s + n) % 128 ∧
      pt1.err = none ∧ pt1.size = pt.size ∧ pt1.file = pt.file := by
  intro n
  induction n with
  | zero =>
    intro s r pt hp herr hidx _ _
    refine ⟨pt, ?_, by simp, by simpa using hidx, herr, rfl, rfl⟩
    have hr : ({ r with pendingFileTransfer := some pt } : Receiver) = r := by
      cases r; simp_all
    rw [hr]; rfl
  | succ n ih =>
    intro s r pt hp herr hidx hfit hsz
    have hmul : (n + 1) * payload.length = n * payload.length + payload.length :=
      Nat.succ_mul n payload.length
    rw [hmul] at hfit
    have hacc := onFileTransferData_accept r pt (byte (128 + s % 128)) payload []
      hp herr (by rw [hidx]; simp only [byte]; omega) (by omega) hsz
    rw [List.append_nil] at hacc
    obtain ⟨pt1, hf, ho, hi, he, hs1, hfl⟩ := ih (s + 1)
      { r with
        pendingFileTransfer := some
          { pt with
            hash := pt.hash ++ payload
            index := (pt.index + 1) % 128
            offset := pt.offset + payload.length
            rawSize := (pt.rawSize + (HEADER_OVERHEAD + (payload.length + 1)))
              % 18446744073709551616 } }
      _ rfl herr (by show (pt.index + 1) % 128 = (s + 1) % 128; omega)
      (by show pt.offset + payload.length + n * payload.length ≤ pt.size; omega) hsz
    refine ⟨pt1, ?_, ?_, ?_, he, hs1, hfl⟩
    · have hsq : seqPackets payload s (n + 1)
          = (byte (128 + s % 128) :: payload, payload.length + 1)
            :: seqPackets payload (s + 1) n := by
        simp [seqPackets, List.range'_succ]
      rw [hsq, feedData, hacc]
      simp only [Option.some_bind]
      rw [hf]
    · rw [ho, hmul]; show pt.offset + payload.length + n * payload.length = _; omega
    · rw [hi]; congr 1; omega

set_option maxRecDepth 100000 in
theorem C13_data_invariant_witness :
    toyPending.offset ≤ toyPending.size ∧ toyPending.index < 128 ∧
    onFileTransferData busyReceiver ((0x81 : Byte) :: (lit "worldwide" ++ [])) (9 + 1)
      = some ⟨{ busyReceiver with
            pendingFileTransfer := some { toyPending with err := some .tooMuchData } },
          [.close toyPending.file, .remove toyPending.filename], some .tooMuchData⟩ :=
  have h := C13_data_invariant toyCrypto toyEnv toyReceiver toyStartPacket 90
    ⟨{ toyReceiver with
        pendingFileTransfer := some
          { size := 11, offset := 0, index := 0, rawSize := 0, hash := [],
            file := stagingPath toyReceiver.tmpDir toyReceiver.manifestId 0, err := none,
            filename := pathClean (toyReceiver.dir ++ lit "a/f"), fileIndex := 0,
            modts := 7 } },
      closePending toyReceiver
        ++ [.openTrunc (stagingPath toyReceiver.tmpDir toyReceiver.manifestId 0)
              toyReceiver.conf.receiver.filePermission],
      none⟩
    [((0x80 : Byte) :: lit "hello\n", 7)] busyReceiver toyPending
    (onFileTransferStart_accept toyCrypto toyEnv toyReceiver toyStartPacket 90 toyManifest 0 11
      ⟨⟨lit "a/f", 7⟩, 11⟩ (by decide) (by decide) rfl (by decide) (by decide) (by decide)
      (by decide) (by decide) (by decide) (by decide) rfl)
    rfl rfl rfl
  ⟨h.1, h.2.1, h.2.2 0x81 (lit "worldwide") [] rfl (by decide) (by decide) (by decide)⟩

set_option maxRecDepth 100000 in
/-- C13 (counterexample): a `0x02` start for file 0 of session 3 declares the size
`2^64 - 1`; then 14355442858917939 data packets arrive in sequence, each with 1285
payload bytes, which brings the byte counter to `2^64 - 1`. The next packet has the
expected sequence number and one payload byte, which would take the counter above the
expected size: it is accepted, the byte written, no error returned and the counter is
0 afterwards. -/
theorem C13_counterexample :
    ∃ ret r pt, onFileTransferStart toyCrypto toyEnv toyReceiver wrapStartPacket 90 = some ret ∧
      ret.err = none ∧
      feedData ret.r (seqPackets (zeros 1285) 0 14355442858917939) = some r ∧
      r.pendingFileTransfer = some pt ∧ pt.err = none ∧
      (0xB3 : Byte).val % 128 = pt.index ∧ pt.size < pt.offset + [(0x41 : Byte)].length ∧
      (onFileTransferData r [0xB3, 0x41] 2).map
          (fun x => (x.err, x.ops, x.r.pendingFileTransfer.map fun q => q.offset))
        = some (none, [.write pt.file [0x41]], some 0) := by
  have hs := onFileTransferStart_accept toyCrypto toyEnv toyReceiver wrapStartPacket 90
    toyManifest 0 18446744073709551615 ⟨⟨lit "a/f", 7⟩, 11⟩ (by decide) (by decide) rfl
    (by decide) (by decide) (by decide) (by decide) (by decide) (by decide) (by decide) rfl
  obtain ⟨pt1, hf, ho, hi, he, hsz, -⟩ := feedData_seqPackets (zeros 1285) 14355442858917939 0
    { toyReceiver with
      pendingFileTransfer := some
        { size := 18446744073709551615, offset := 0, index := 0, rawSize := 0, hash := [],
          file := stagingPath toyReceiver.tmpDir toyReceiver.manifestId 0, err := none,
          filename := pathClean (toyReceiver.dir ++ lit "a/f"), fileIndex := 0,
          modts := 7 } }
    _ rfl rfl rfl (by simp) (by decide)
  have ho2 : pt1.offset = 18446744073709551615 := by rw [ho]; simp
  have hi2 : pt1.index = 51 := by rw [hi]
  have hsz2 : pt1.size = 18446744073709551615 := hsz
  refine ⟨_, _, pt1, hs, rfl, hf, rfl, he, by rw [hi2]; decide, by rw [ho2, hsz2]; decide, ?_⟩
  unfold onFileTransferData
  simp [he, hi2, ho2, hsz2, slice]
  rw [if_pos (by decide)]
  exact ⟨_, rfl, rfl, rfl, _, rfl, rfl⟩

set_option maxRecDepth 1000000 in
/-- C14 (evaluation): file 0 of `toyManifest`, 11 bytes, target `x/a/f`, staging file
`x/.tmp/godiodetmp.3.0`. When the data packet carries 12 bytes, and when the `0x03`
packet carries a digest other than that of the 11 bytes received, the receiver closes
the staging file and removes `x/a/f`, the target path; the staging file is not
removed. -/
theorem C14_target_removed :
    stagingPath toyReceiver.tmpDir 3 0 = lit "x/.tmp/godiodetmp.3.0" ∧
    pathClean (toyReceiver.dir ++ lit "a/f") = lit "x/a/f" ∧
    (receiveAll toyCrypto toyEnv toyReceiver (zeros 120)
        [toyStartPacket, (0x80 : Byte) :: lit "hello world!"]).map
        (fun x => (x.2.2.1, x.2.2.2))
      = some ([.openTrunc (lit "x/.tmp/godiodetmp.3.0") 0o600,
            .close (lit "x/.tmp/godiodetmp.3.0"), .remove (lit "x/a/f")],
          [none, some .tooMuchData]) ∧
    (receiveAll toyCrypto toyEnv toyReceiver (zeros 120)
        [toyStartPacket, (0x80 : Byte) :: lit "hello world",
          completePacket toyCrypto (lit "k") 3 0 (zeros 32)]).map
        (fun x => (x.2.2.1, x.2.2.2))
      = some ([.openTrunc (lit "x/.tmp/godiodetmp.3.0") 0o600,
            .write (lit "x/.tmp/godiodetmp.3.0") (lit "hello world"),
            .close (lit "x/.tmp/godiodetmp.3.0"), .remove (lit "x/a/f")],
          [none, none, some .checksumError]) :=
  ⟨by decide, by decide, by decide, by decide⟩

/-! ## The `0x03` packet: claims C15, C16 -/

/-- C15: a `0x03` packet that is shorter than 105 bytes, or arrives when no transfer is
pending, or names another session than the current one, or another file index than the
pending transfer's, or whose trailing 64-byte HMAC does not match its first 41 bytes,
makes `onFileTransferComplete` return an error; the receiver is left as it was, the
pending transfer included, and no call is issued: no file is closed, renamed or
deleted. -/
theorem C15_complete_rejected (c : Crypto) (r : Receiver) (buff : List Byte) (read : Nat)
    (hlen : read ≤ buff.length)
    (h : read < 105 ∨ r.pendingFileTransfer = none
      ∨ (sliceFrom buff 1).bind uint32 ≠ some r.manifestId
      ∨ (∃ pft, r.pendingFileTransfer = some pft
          ∧ (sliceFrom buff 5).bind uint32 ≠ some pft.fileIndex)
      ∨ c.hmac512 (c.sha512 r.conf.hmacSecret) (buff.take 41) ≠ (buff.drop 41).take 64) :
    ∃ e, onFileTransferComplete c r buff read = some ⟨r, [], some e⟩ := by
  unfold onFileTransferComplete
  by_cases h105 : read < 1 + 4 + 4 + 32 + 64
  · rw [if_pos h105]
    exact ⟨_, rfl⟩
  rw [if_neg h105]
  obtain ⟨id, hid⟩ := uint32_at buff 1 (by omega)
  obtain ⟨idx, hidx⟩ := uint32_at buff 5 (by omega)
  cases hp : r.pendingFileTransfer with
  | none => exact ⟨_, rfl⟩
  | some pft =>
    simp only [hid, hidx, Option.bind_eq_bind, Option.some_bind,
      slice_eq buff 9 (9 + 32) (by omega) (by omega),
      slice_eq buff 0 (9 + 32) (by omega) (by omega),
      slice_eq buff (9 + 32) (9 + 32 + 64) (by omega) (by omega), List.drop_zero, Nat.sub_zero,
      Nat.add_sub_cancel_left]
    by_cases c1 : id = r.manifestId
    swap
    · rw [if_pos c1]
      exact ⟨_, rfl⟩
    rw [if_neg (not_not.mpr c1)]
    by_cases c2 : idx = pft.fileIndex
    swap
    · rw [if_pos c2]
      exact ⟨_, rfl⟩
    rw [if_neg (not_not.mpr c2)]
    by_cases c3 : sign c r.conf.hmacSecret (buff.take 41) = (buff.drop 41).take 64
    swap
    · rw [if_pos c3]
      exact ⟨_, rfl⟩
    exfalso
    rcases h with h | h | h | h | h
    · exact h105 h
    · rw [hp] at h; cases h
    · rw [hid, c1] at h; exact h rfl
    · obtain ⟨q, hq, hne⟩ := h
      rw [hp] at hq; cases hq
      rw [hidx, c2] at hne; exact hne rfl
    · exact h c3

set_option maxRecDepth 100000 in
theorem C15_complete_rejected_witness :
    ∃ e, onFileTransferComplete toyCrypto busyReceiver
        ((completePacket toyCrypto (lit "k") 3 0 (toyCrypto.sha256 toyPending.hash)).set 41 0)
        105 = some ⟨busyReceiver, [], some e⟩ :=
  C15_complete_rejected toyCrypto busyReceiver
    ((completePacket toyCrypto (lit "k") 3 0 (toyCrypto.sha256 toyPending.hash)).set 41 0) 105
    (by decide) (Or.inr (Or.inr (Or.inr (Or.inr (by decide)))))

/-- An accepted `0x02` packet installs a transfer for a file of the current manifest:
the handle is on that file's staging path of the current session, the target is the
cleaned `dir + path` and the timestamp the modts of the manifest record. -/
theorem onFileTransferStart_installed (c : Crypto) (env : Env) (r : Receiver)
    (buff : List Byte) (read : Nat) (ret : Ret)
    (hs : onFileTransferStart c env r buff read = some ret) (he : ret.err = none) :
    ∃ M mf pt, ret.r.manifest = some M ∧ ret.r.pendingFileTransfer = some pt ∧
      M.files[pt.fileIndex]? = some mf ∧
      pt.file = stagingPath ret.r.tmpDir ret.r.manifestId pt.fileIndex ∧
      pt.filename = pathClean (ret.r.dir ++ mf.path) ∧ pt.modts = mf.modts := by
  unfold onFileTransferStart at hs
  by_cases h90 : read < 1 + 1 + 4 + 4 + 8 + 8 + 64
  · rw [if_pos h90] at hs; cases hs; cases he
  rw [if_neg h90] at hs
  cases hM : r.manifest with
  | none => simp only [hM] at hs; cases hs; cases he
  | some M =>
    simp only [hM, Option.bind_eq_bind] at hs
    obtain ⟨b1, -, hs⟩ := Option.bind_eq_some.mp hs
    by_cases c1 : b1 ≠ 0
    · rw [if_pos c1] at hs
      obtain ⟨b2, -, hs⟩ := Option.bind_eq_some.mp hs
      cases hs; cases he
    rw [if_neg c1] at hs
    obtain ⟨id, -, hs⟩ := Option.bind_eq_some.mp hs
    by_cases c2 : id ≠ r.manifestId
    · rw [if_pos c2] at hs; cases hs; cases he
    rw [if_neg c2] at hs
    have hid : id = r.manifestId := not_not.mp c2
    obtain ⟨idx, -, hs⟩ := Option.bind_eq_some.mp hs
    by_cases c3 : idx ≥ M.files.length
    · rw [if_pos c3] at hs; cases hs; cases he
    rw [if_neg c3] at hs
    obtain ⟨mf, hmf, hs⟩ := Option.bind_eq_some.mp hs
    by_cases c4 : pathClean (r.dir ++ mf.path) = [dot]
    · rw [if_pos c4] at hs; cases hs; cases he
    rw [if_neg c4] at hs
    obtain ⟨sz, -, hs⟩ := Option.bind_eq_some.mp hs
    obtain ⟨signed, -, hs⟩ := Option.bind_eq_some.mp hs
    obtain ⟨sg, -, hs⟩ := Option.bind_eq_some.mp hs
    by_cases c5 : sign c r.conf.hmacSecret signed ≠ sg
    · rw [if_pos c5] at hs; cases hs; cases he
    rw [if_neg c5] at hs
    by_cases c6 : env.openOk (stagingPath r.tmpDir id idx) = true
    · simp only [c6, if_true] at hs
      cases hs
      exact ⟨M, mf, _, rfl, rfl, hmf, by rw [hid], rfl, rfl⟩
    · simp only [c6] at hs
      cases hs; cases he

/-- A data packet leaves the manifest, the session id and the directories as they are,
and a pending transfer stays pending with its handle, target, file index and
timestamp. -/
theorem onFileTransferData_keeps (r : Receiver) (buff : List Byte) (read : Nat) (ret : Ret)
    (h : onFileTransferData r buff read = some ret) :
    ret.r.manifest = r.manifest ∧ ret.r.manifestId = r.manifestId ∧ ret.r.dir = r.dir ∧
    ret.r.tmpDir = r.tmpDir ∧ ret.r.conf = r.conf ∧
    ∀ pt, r.pendingFileTransfer = some pt →
      ∃ pt1, ret.r.pendingFileTransfer = some pt1 ∧ pt1.file = pt.file ∧
        pt1.filename = pt.filename ∧ pt1.fileIndex = pt.fileIndex ∧ pt1.modts = pt.modts := by
  unfold onFileTransferData at h
  cases hp : r.pendingFileTransfer with
  | none =>
    simp only [hp] at h
    cases h
    exact ⟨rfl, rfl, rfl, rfl, rfl, fun pt hpt => by cases hpt⟩
  | some pt =>
    simp only [hp] at h
    by_cases c1 : read < 1 ∨ pt.err ≠ none
    · rw [if_pos c1] at h
      cases h
      exact ⟨rfl, rfl, rfl, rfl, rfl, fun q hq => ⟨q, hp.trans hq, rfl, rfl, rfl, rfl⟩⟩
    rw [if_neg c1] at h
    cases hb : buff[0]? with
    | none => simp [hb] at h
    | some b0 =>
      simp only [hb, Option.bind_eq_bind, Option.some_bind] at h
      by_cases c2 : b0.val % 128 = pt.index
      · rw [if_pos c2] at h
        by_cases c3 : (pt.offset + (read - 1)) % 18446744073709551616 > pt.size
        · rw [if_pos c3] at h
          cases h
          refine ⟨rfl, rfl, rfl, rfl, rfl, fun q hq => ?_⟩
          simp only [Option.some.injEq] at hq
          subst hq
          exact ⟨_, rfl, rfl, rfl, rfl, rfl⟩
        · rw [if_neg c3] at h
          cases hsl : slice buff 1 read with
          | none => simp [hsl] at h
          | some payload =>
            simp only [hsl, Option.some_bind] at h
            cases h
            refine ⟨rfl, rfl, rfl, rfl, rfl, fun q hq => ?_⟩
            simp only [Option.some.injEq] at hq
            subst hq
            exact ⟨_, rfl, rfl, rfl, rfl, rfl⟩
      · rw [if_neg c2] at h
        cases h
        refine ⟨rfl, rfl, rfl, rfl, rfl, fun q hq => ?_⟩
        simp only [Option.some.injEq] at hq
        subst hq
        exact ⟨_, rfl, rfl, rfl, rfl, rfl⟩

theorem feedData_keeps : ∀ (pkts : List (List Byte × Nat)) (r r1 : Receiver),
    feedData r pkts = some r1 →
    r1.manifest = r.manifest ∧ r1.manifestId = r.manifestId ∧ r1.dir = r.dir ∧
    r1.tmpDir = r.tmpDir ∧ r1.conf = r.conf ∧
    ∀ pt, r.pendingFileTransfer = some pt →
      ∃ pt1, r1.pendingFileTransfer = some pt1 ∧ pt1.file = pt.file ∧
        pt1.filename = pt.filename ∧ pt1.fileIndex = pt.fileIndex ∧ pt1.modts = pt.modts := by
  intro pkts
  induction pkts with
  | nil =>
    intro r r1 h
    cases h
    exact ⟨rfl, rfl, rfl, rfl, rfl, fun q hq => ⟨q, hq, rfl, rfl, rfl, rfl⟩⟩
  | cons p pkts ih =>
    intro r r1 h
    obtain ⟨buff, read⟩ := p
    rw [feedData] at h
    obtain ⟨ret, hret, h⟩ := Option.bind_eq_some.mp h
    obtain ⟨a1, a2, a3, a4, a5, a6⟩ := onFileTransferData_keeps r buff read ret hret
    obtain ⟨b1, b2, b3, b4, b5, b6⟩ := ih ret.r r1 h
    refine ⟨b1.trans a1, b2.trans a2, b3.trans a3, b4.trans a4, b5.trans a5, fun q hq => ?_⟩
    obtain ⟨q1, h1, e1, e2, e3, e4⟩ := a6 q hq
    obtain ⟨q2, h2, f1, f2, f3, f4⟩ := b6 q1 h1
    exact ⟨q2, h2, f1.trans e1, f2.trans e2, f3.trans e3, f4.trans e4⟩

/-- C16 (as amended): the pending transfer was started by an accepted `0x02` packet and
only data packets followed, so that session id and manifest are those of the start. A
`0x03` packet of at least 105 bytes that carries the current session id, the file index
of the pending transfer and a valid trailing HMAC makes `onFileTransferComplete` close
the staging file and clear the pending transfer. When the carried SHA-256 equals the
SHA-256 of the bytes accepted, no error is returned and the promotion is issued, which
renames the staging file to the cleaned `dir + path` of the manifest record of that
index and, when that succeeds, sets the times of the target to the modts of that record;
otherwise the checksum error is returned and no rename is issued. -/
theorem C16_complete_accepted (c : Crypto) (env : Env) (r0 : Receiver) (sbuff : List Byte)
    (sread : Nat) (ret : Ret) (pkts : List (List Byte × Nat)) (r : Receiver)
    (buff : List Byte) (read : Nat) (pft : PendingFileTransfer)
    (hs : onFileTransferStart c env r0 sbuff sread = some ret) (he : ret.err = none)
    (hf : feedData ret.r pkts = some r) (hp : r.pendingFileTransfer = some pft)
    (h105 : 105 ≤ read) (hlen : read ≤ buff.length)
    (hid : (sliceFrom buff 1).bind uint32 = some r.manifestId)
    (hidx : (sliceFrom buff 5).bind uint32 = some pft.fileIndex)
    (hsig : c.hmac512 (c.sha512 r.conf.hmacSecret) (buff.take 41) = (buff.drop 41).take 64) :
    ∃ M mf, r.manifest = some M ∧ M.files[pft.fileIndex]? = some mf ∧
      pft.file = stagingPath r.tmpDir r.manifestId pft.fileIndex ∧
      ((buff.drop 9).take 32 = c.sha256 pft.hash →
        onFileTransferComplete c r buff read
          = some ⟨{ r with pendingFileTransfer := none },
              [.close pft.file,
               .goMoveTmpFile pft.file (pathClean (r.dir ++ mf.path)) mf.modts], none⟩ ∧
        (moveTmpFile env (pathClean (r.dir ++ mf.path)) mf.modts pft.file
          = if env.renameOk pft.file (pathClean (r.dir ++ mf.path)) then
              [.rename pft.file (pathClean (r.dir ++ mf.path)),
               .chtimes (pathClean (r.dir ++ mf.path)) mf.modts]
            else [.rename pft.file (pathClean (r.dir ++ mf.path))])) ∧
      ((buff.drop 9).take 32 ≠ c.sha256 pft.hash →
        onFileTransferComplete c r buff read
          = some ⟨{ r with pendingFileTransfer := none },
              [.close pft.file, .remove (pathClean (r.dir ++ mf.path))],
              some .checksumError⟩) := by
  obtain ⟨M, mf, pt, hM, hpt, hmf, hfile, hname, hmod⟩ :=
    onFileTransferStart_installed c env r0 sbuff sread ret hs he
  obtain ⟨k1, k2, k3, k4, -, k6⟩ := feedData_keeps pkts ret.r r hf
  obtain ⟨pt1, hp1, e1, e2, e3, e4⟩ := k6 pt hpt
  rw [hp] at hp1
  simp only [Option.some.injEq] at hp1
  subst hp1
  have hfile2 : pft.file = stagingPath r.tmpDir r.manifestId pft.fileIndex := by
    rw [e1, hfile, k4, k2, e3]
  have hname2 : pft.filename = pathClean (r.dir ++ mf.path) := by rw [e2, hname, k3]
  have hmod2 : pft.modts = mf.modts := by rw [e4, hmod]
  have hsig2 : sign c r.conf.hmacSecret (buff.take 41) = (buff.drop 41).take 64 := hsig
  refine ⟨M, mf, by rw [k1, hM], by rw [e3]; exact hmf, hfile2, fun hh => ⟨?_, rfl⟩,
    fun hh => ?_⟩
  · unfold onFileTransferComplete
    rw [if_neg (by omega)]
    simp only [hp, hid, hidx, Option.bind_eq_bind, Option.some_bind, ne_eq, not_true_eq_false,
      if_false, slice_eq buff 9 (9 + 32) (by omega) (by omega),
      slice_eq buff 0 (9 + 32) (by omega) (by omega),
      slice_eq buff (9 + 32) (9 + 32 + 64) (by omega) (by omega), List.drop_zero, Nat.sub_zero,
      Nat.add_sub_cancel_left, hsig2, hh, ← hfile2, hname2, hmod2]
  · unfold onFileTransferComplete
    rw [if_neg (by omega)]
    simp only [hp, hid, hidx, Option.bind_eq_bind, Option.some_bind, ne_eq, not_true_eq_false,
      if_false, slice_eq buff 9 (9 + 32) (by omega) (by omega),
      slice_eq buff 0 (9 + 32) (by omega) (by omega),
      slice_eq buff (9 + 32) (9 + 32 + 64) (by omega) (by omega), List.drop_zero, Nat.sub_zero,
      Nat.add_sub_cancel_left, hsig2, hh, hname2]
    rw [if_pos not_false]

set_option maxRecDepth 100000 in
theorem C16_complete_accepted_witness :
    ∃ M mf, busyReceiver.manifest = some M ∧ M.files[toyPending.fileIndex]? = some mf ∧
      toyPending.file
        = stagingPath busyReceiver.tmpDir busyReceiver.manifestId toyPending.fileIndex ∧
      onFileTransferComplete toyCrypto busyReceiver
          (completePacket toyCrypto (lit "k") 3 0 (toyCrypto.sha256 toyPending.hash)) 105
        = some ⟨{ busyReceiver with pendingFileTransfer := none },
            [.close toyPending.file,
             .goMoveTmpFile toyPending.file (pathClean (busyReceiver.dir ++ mf.path)) mf.modts],
            none⟩ :=
  have h := C16_complete_accepted toyCrypto toyEnv toyReceiver toyStartPacket 90
    ⟨{ toyReceiver with
        pendingFileTransfer := some
          { size := 11, offset := 0, index := 0, rawSize := 0, hash := [],
            file := stagingPath toyReceiver.tmpDir toyReceiver.manifestId 0, err := none,
            filename := pathClean (toyReceiver.dir ++ lit "a/f"), fileIndex := 0,
            modts := 7 } },
      closePending toyReceiver
        ++ [.openTrunc (stagingPath toyReceiver.tmpDir toyReceiver.manifestId 0)
              toyReceiver.conf.receiver.filePermission],
      none⟩
    [((0x80 : Byte) :: lit "hello\n", 7)] busyReceiver
    (completePacket toyCrypto (lit "k") 3 0 (toyCrypto.sha256 toyPending.hash)) 105 toyPending
    (onFileTransferStart_accept toyCrypto toyEnv toyReceiver toyStartPacket 90 toyManifest 0 11
      ⟨⟨lit "a/f", 7⟩, 11⟩ (by decide) (by decide) rfl (by decide) (by decide) (by decide)
      (by decide) (by decide) (by decide) (by decide) rfl)
    rfl rfl rfl (by decide) (by decide) (by decide) (by decide) (by decide)
  match h with
  | ⟨M, mf, h1, h2, h3, h4, _⟩ => ⟨M, mf, h1, h2, h3, (h4 (by decide)).1⟩

set_option maxRecDepth 1000000 in
/-- C16 (counterexample): a transfer of file 0 of session 3 is pending, its staging file
`x/.tmp/godiodetmp.3.0` open, all 11 bytes received, when the manifest of session 9
arrives, whose file 0 is `b/g` with modts 8. The signed `0x03` packet for file 0 of
session 9 with the digest of the 11 bytes names the pending transfer and is answered
with no error: the promotion issued renames `x/.tmp/godiodetmp.9.0`, not the open
staging file, to `x/a/f`, not `x/b/g`, with modts 7, not 8. -/
theorem C16_counterexample :
    (sendManifest toyCrypto toyConfig otherManifest 9).map Except.toOption
      = some (some [otherChunk]) ∧
    (receiveAll toyCrypto toyEnv toyReceiver (zeros 120)
        [toyStartPacket, (0x80 : Byte) :: lit "hello world", otherChunk]).map
        (fun x => (x.1.manifestId, x.1.manifest, x.2.2.2))
      = some (9, some otherManifest, [none, none, none]) ∧
    (receiveAll toyCrypto toyEnv toyReceiver (zeros 120)
        [toyStartPacket, (0x80 : Byte) :: lit "hello world", otherChunk]).map
        (fun x => x.1.pendingFileTransfer.map fun q => (q.file, q.fileIndex))
      = some (some (lit "x/.tmp/godiodetmp.3.0", 0)) ∧
    (receiveAll toyCrypto toyEnv toyReceiver (zeros 120)
        [toyStartPacket, (0x80 : Byte) :: lit "hello world", otherChunk,
          completePacket toyCrypto (lit "k") 9 0 (toyCrypto.sha256 (lit "hello world"))]).map
        (fun x => (x.2.2.1, x.2.2.2))
      = some ([.openTrunc (lit "x/.tmp/godiodetmp.3.0") 0o600,
            .write (lit "x/.tmp/godiodetmp.3.0") (lit "hello world"),
            .mkdirAll (lit "x/b") 0o700, .chtimes (lit "x/b") 6,
            .close (lit "x/.tmp/godiodetmp.3.0"),
            .goMoveTmpFile (lit "x/.tmp/godiodetmp.9.0") (lit "x/a/f") 7],
          [none, none, none, none]) ∧
    pathClean (toyReceiver.dir ++ lit "b/g") = lit "x/b/g" :=
  ⟨by decide, by decide, by decide, by decide, by decide⟩

/-! ## Manifest chunks and delete mode: claims C17, C18, C19 -/

/-- A manifest chunk of at least 10 bytes whose part is not the expected one: with a
manifest transfer pending for the chunk's session the transfer is cleared and the
out-of-order error returned; with none pending and a part other than 0 the receiver is
left as it was and an error returned. The manifest is the same afterwards. -/
theorem onManifestPacket_out_of_order (c : Crypto) (env : Env) (r : Receiver)
    (buff : List Byte) (read part : Nat) (h10 : 10 ≤ read) (hlen : read ≤ buff.length)
    (hpart : (sliceFrom buff 5).bind uint16 = some part) :
    (∀ pmt, r.pendingManifestTransfer = some pmt →
      (sliceFrom buff 1).bind uint32 = some r.manifestId → part ≠ pmt.index →
      onManifestPacket c env r buff read
        = some ⟨{ r with pendingManifestTransfer := none }, [],
            some .outOfOrderManifestPacket⟩) ∧
    (r.pendingManifestTransfer = none → part ≠ 0 →
      onManifestPacket c env r buff read = some ⟨r, [], some .unexpectedManifestPart⟩) := by
  obtain ⟨id, hid⟩ := uint32_at buff 1 (by omega)
  refine ⟨fun pmt hp hsess hne => ?_, fun hp hne => ?_⟩
  · unfold onManifestPacket
    rw [if_neg (by omega)]
    simp only [hsess, hpart, hp, Option.bind_eq_bind, Option.some_bind, ne_eq,
      not_true_eq_false, if_false]
    rw [if_pos hne]
  · unfold onManifestPacket onManifestPartZero
    rw [if_neg (by omega)]
    simp only [hid, hpart, hp, Option.bind_eq_bind, Option.some_bind]
    rw [if_pos hne]

set_option maxRecDepth 1000000 in
/-- C17 (evaluation): the receiver is reassembling the manifest of session 9 and expects
part 1. A chunk of 8 bytes of that session with part 5 is answered with no error and the
pending manifest transfer stays as it was; the same chunk with two more payload bytes is
answered with the out-of-order error and clears it. With no manifest transfer pending,
the 8-byte chunk with part 5 is answered with no error as well. -/
theorem C17_short_chunk_ignored :
    (onManifestPacket toyCrypto toyEnv reassembling
        ([0x01, 0, 0, 0, 9, 0, 5, 0xAA] ++ zeros 97) 8).map
        (fun ret => (ret.err, ret.r.pendingManifestTransfer))
      = some (none, some ⟨zeros 200, 94, 1⟩) ∧
    (onManifestPacket toyCrypto toyEnv reassembling
        ([0x01, 0, 0, 0, 9, 0, 5, 0xAA, 0xAA, 0xAA] ++ zeros 95) 10).map
        (fun ret => (ret.err, ret.r.pendingManifestTransfer))
      = some (some .outOfOrderManifestPacket, none) ∧
    (onManifestPacket toyCrypto toyEnv freshReceiver
        ([0x01, 0, 0, 0, 9, 0, 5, 0xAA] ++ zeros 97) 8).map
        (fun ret => (ret.err, ret.r.pendingManifestTransfer))
      = some (none, none) :=
  ⟨by decide, by decide, by decide⟩

theorem deserializeManifest_error (c : Crypto) (data K : List Byte) (e : Err)
    (h : deserializeManifest c data K = some (.error e)) :
    e = .truncatedManifest ∨ e = .invalidManifestSignature := by
  unfold deserializeManifest at h
  simp only at h
  split_ifs at h with h1
  · left; cases h; rfl
  · cases hs : slice data 0 (data.length - 64) with
    | none => simp [hs] at h
    | some signed =>
      cases ht : sliceFrom data (data.length - 64) with
      | none => simp [hs, ht] at h
      | some tail =>
        simp only [hs, ht, Option.bind_eq_bind, Option.some_bind] at h
        split_ifs at h with h2
        · right; cases h; rfl
        · simp [Option.bind_eq_some] at h

/-- C18: with no manifest transfer pending, a part-0 manifest chunk (at least its 11
header bytes read) whose size field is below 1 or above `5 * 1024 * 1024` makes
`onManifestPacket` return an error and leave the receiver as it was: no buffer, no
pending manifest transfer, the same session id and manifest. With a size field from 1
to `5 * 1024 * 1024` the call never returns that error, and when the size is more than
the bytes that follow the header the chunk is taken: the session id is set and a
reassembly buffer of that size is pending, part 1 expected. -/
theorem C18_size_bounds (c : Crypto) (env : Env) (r : Receiver) (buff : List Byte)
    (read size : Nat) (h11 : 11 ≤ read) (hlen : read ≤ buff.length)
    (hp : r.pendingManifestTransfer = none)
    (hpart : (sliceFrom buff 5).bind uint16 = some 0)
    (hsize : (sliceFrom buff 7).bind uint32 = some size) :
    (size < 1 ∨ 5 * 1024 * 1024 < size →
      onManifestPacket c env r buff read = some ⟨r, [], some .tooLargeManifest⟩) ∧
    (1 ≤ size ∧ size ≤ 5 * 1024 * 1024 →
      (∀ ret, onManifestPacket c env r buff read = some ret →
        ret.err ≠ some .tooLargeManifest) ∧
      (buff.length - 11 < size →
        ∃ id data, (sliceFrom buff 1).bind uint32 = some id ∧ data.length = size ∧
          onManifestPacket c env r buff read
            = some ⟨{ r with
                  manifestId := id
                  pendingManifestTransfer := some ⟨data, buff.length - 11, 1⟩ }, [], none⟩)) := by
  obtain ⟨id, hid⟩ := uint32_at buff 1 (by omega)
  have hsrc : sliceFrom buff 11 = some (buff.drop 11) := sliceFrom_eq buff 11 (by omega)
  obtain ⟨data, n, hcp, hn, hdl⟩ : ∃ data n, copyAt (zeros size) 0 (buff.drop 11)
      = some (data, n) ∧ n = min size (buff.length - 11) ∧ data.length = size := by
    have := copyAt_pre_min [] (zeros size) (buff.drop 11) 0 rfl
    refine ⟨_, _, this, by simp, ?_⟩
    simp only [List.nil_append, List.length_append, List.length_take, List.length_drop,
      List.length_replicate]
    omega
  have hun : onManifestPacket c env r buff read
      = onManifestPartZero c env r buff id 0 := by
    unfold onManifestPacket
    rw [if_neg (by omega)]
    simp only [hid, hpart, hp, Option.bind_eq_bind, Option.some_bind]
  rw [hun]
  unfold onManifestPartZero
  simp only [ne_eq, not_true_eq_false, if_false, hsize, Option.bind_eq_bind, Option.some_bind,
    hsrc, hcp]
  refine ⟨fun h => ?_, fun h => ⟨fun ret hret => ?_, fun hmore => ?_⟩⟩
  · rw [if_pos (by omega)]
  · rw [if_neg (by omega)] at hret
    split_ifs at hret with hc
    · cases hd : deserializeManifest c data r.conf.hmacSecret with
      | none => simp [hd] at hret
      | some res =>
        cases res with
        | error e =>
          simp only [hd, Option.some_bind] at hret
          cases hret
          rcases deserializeManifest_error c _ _ e hd with he | he <;> rw [he] <;> simp
        | ok M =>
          simp only [hd, Option.some_bind] at hret
          cases hh : handleManifestReceived env
              { r with manifestId := id, manifest := some M } with
          | none => simp [hh] at hret
          | some x =>
            simp only [hh, Option.some_bind] at hret
            cases hret
            simp
    · cases hret
      simp
  · rw [if_neg (by omega), if_neg (by omega)]
    have hn2 : n = buff.length - 11 := by omega
    subst hn2
    exact ⟨id, data, hid, hdl, rfl⟩

set_option maxRecDepth 100000 in
theorem C18_size_bounds_witness :
    onManifestPacket toyCrypto toyEnv freshReceiver
        (chunkHeader 9 0 ++ be32 6000000 ++ zeros 94) 105
      = some ⟨freshReceiver, [], some .tooLargeManifest⟩ :=
  (C18_size_bounds toyCrypto toyEnv freshReceiver
    (chunkHeader 9 0 ++ be32 6000000 ++ zeros 94) 105 6000000 (by decide) (by decide) rfl
    (by decide) (by decide)).1 (Or.inr (by decide))

set_option maxRecDepth 1000000 in
/-- C19 (evaluation): with `delete` on, a walk of the target directory that visits one
regular file, or the temporary directory `x/.tmp`, makes `handleManifestReceived` store
into a nil map: the run faults. So does the arrival of the manifest of a new session
at such a receiver, which is handled when the walk visits nothing. -/
theorem C19_delete_faults :
    deleteReceiver.conf.receiver.delete = true ∧
    handleManifestReceived strayEnv deleteReceiver = none ∧
    handleManifestReceived tmpDirEnv deleteReceiver = none ∧
    (transferManifest toyCrypto tmpDirEnv toyConfig toyManifest 9 deleteReceiver
      (zeros 120)).isNone = true ∧
    (transferManifest toyCrypto toyEnv toyConfig toyManifest 9 deleteReceiver
      (zeros 120)).isSome = true :=
  ⟨by decide, by decide, by decide, by decide, by decide⟩

/-! ## The token bucket: claim C20 -/

theorem throttleIter_inv (t : Throttle) (read : Nat) (refill : Int)
    (h0 : 0 ≤ t.tokens) (h1 : t.tokens ≤ t.capacity) :
    0 ≤ (throttleIter t read refill).1.tokens ∧
    (throttleIter t read refill).1.tokens ≤ (throttleIter t read refill).1.capacity ∧
    (throttleIter t read refill).1.capacity = t.capacity ∧
    (throttleIter t read refill).1.enabled = t.enabled := by
  unfold throttleIter
  simp only
  have hpl : (0 : Int) ≤ ((read + 1 + HEADER_OVERHEAD : Nat) : Int) := Int.ofNat_nonneg _
  split_ifs with c1 c2 c3
  · exact ⟨by simp only; omega, by simp only; omega, rfl, rfl⟩
  · exact ⟨by simp only; omega, by simp only; omega, rfl, rfl⟩
  · exact ⟨by simp only; omega, by simp only; omega, rfl, rfl⟩
  · exact ⟨h0, h1, rfl, rfl⟩

theorem throttleRun_inv : ∀ (steps : List (Nat × Int)) (t : Throttle),
    0 ≤ t.tokens → t.tokens ≤ t.capacity →
    0 ≤ (throttleRun t steps).tokens ∧ (throttleRun t steps).tokens ≤ (throttleRun t steps).capacity ∧
    (throttleRun t steps).capacity = t.capacity ∧ (throttleRun t steps).enabled = t.enabled := by
  intro steps
  induction steps with
  | nil => intro t h0 h1; exact ⟨h0, h1, rfl, rfl⟩
  | cons s steps ih =>
    intro t h0 h1
    obtain ⟨read, refill⟩ := s
    obtain ⟨a, b, c, d⟩ := throttleIter_inv t read refill h0 h1
    obtain ⟨a2, b2, c2, d2⟩ := ih _ a b
    rw [throttleRun]
    exact ⟨a2, b2, c2.trans c, d2.trans d⟩

/-- C20: after the initialisation in `send` with a positive bandwidth, the bucket has
capacity `13 * (maxPacketSize + 46)` and as many tokens; after any number of passes
through the pacing loop of `sendFile`, for data packets of any size and any refilled
amounts, the tokens are at least 0 and at most the capacity, and the capacity is the
one set at initialisation. -/
theorem C20_token_bucket (conf : Config) (t0 : Throttle) (steps : List (Nat × Int))
    (hbw : conf.sender.bw > 0) :
    (throttleInit conf t0).capacity = 13 * ((conf.maxPacketSize : Int) + 46) ∧
    (throttleInit conf t0).tokens = (throttleInit conf t0).capacity ∧
    0 ≤ (throttleRun (throttleInit conf t0) steps).tokens ∧
    (throttleRun (throttleInit conf t0) steps).tokens
      ≤ (throttleRun (throttleInit conf t0) steps).capacity ∧
    (throttleRun (throttleInit conf t0) steps).capacity
      = 13 * ((conf.maxPacketSize : Int) + 46) := by
  have hi : throttleInit conf t0
      = { enabled := true
          capacity := 13 * ((conf.maxPacketSize + HEADER_OVERHEAD : Nat) : Int)
          tokens := 13 * ((conf.maxPacketSize + HEADER_OVERHEAD : Nat) : Int) } := by
    unfold throttleInit
    rw [if_pos hbw]
  have hc : (13 : Int) * ((conf.maxPacketSize + HEADER_OVERHEAD : Nat) : Int)
      = 13 * ((conf.maxPacketSize : Int) + 46) := by
    simp [HEADER_OVERHEAD]
  obtain ⟨a, b, c, _⟩ := throttleRun_inv steps (throttleInit conf t0)
    (by rw [hi]; simp only; omega) (by rw [hi])
  refine ⟨by rw [hi]; exact hc, by rw [hi], a, b, ?_⟩
  rw [c, hi]
  exact hc

set_option maxRecDepth 100000 in
theorem C20_token_bucket_witness :
    (throttleRun (throttleInit { toyConfig with sender := ⟨8⟩ } ⟨false, 0, 0⟩)
      (List.replicate 13 (119, 0) ++ [(119, 100), (119, 5000), (119, 0)])).tokens = 1992 ∧
    0 ≤ (throttleRun (throttleInit { toyConfig with sender := ⟨8⟩ } ⟨false, 0, 0⟩)
      (List.replicate 13 (119, 0) ++ [(119, 100), (119, 5000), (119, 0)])).tokens ∧
    (throttleRun (throttleInit { toyConfig with sender := ⟨8⟩ } ⟨false, 0, 0⟩)
      (List.replicate 13 (119, 0) ++ [(119, 100), (119, 5000), (119, 0)])).tokens
      ≤ 13 * ((120 : Int) + 46) :=
  ⟨by decide,
   (C20_token_bucket { toyConfig with sender := ⟨8⟩ } ⟨false, 0, 0⟩
      (List.replicate 13 (119, 0) ++ [(119, 100), (119, 5000), (119, 0)]) (by decide)).2.2.1,
   by decide⟩


/-! ## Pacing of the sender's packets: claim C21 -/

theorem throttleIter_enabled (t : Throttle) (read : Nat) (refill : Int) :
    (throttleIter t read refill).1.enabled = t.enabled := by
  unfold throttleIter
  simp only
  split_ifs <;> rfl

/-- A pass breaks only when the bucket holds at least `read + 1 + HEADER_OVERHEAD`
tokens, and then leaves exactly that many fewer and the capacity as it was. -/
theorem throttleIter_break (t : Throttle) (read : Nat) (refill : Int)
    (h : (throttleIter t read refill).2 = true) :
    t.tokens ≥ ((read + 1 + HEADER_OVERHEAD : Nat) : Int) ∧
    (throttleIter t read refill).1.tokens
      = t.tokens - ((read + 1 + HEADER_OVERHEAD : Nat) : Int) ∧
    (throttleIter t read refill).1.capacity = t.capacity := by
  unfold throttleIter at h ⊢
  simp only at h ⊢
  by_cases c : t.tokens ≥ ((read + 1 + HEADER_OVERHEAD : Nat) : Int)
  · rw [if_pos c]
    exact ⟨c, rfl, rfl⟩
  · rw [if_neg c] at h
    split_ifs at h

theorem chained_append (a b : List SockEv) : ∀ t : Throttle,
    chained t (a ++ b) = (chained t a && chained (bucketAfter t a) b) := by
  induction a with
  | nil => intro t; simp [chained, bucketAfter]
  | cons e a ih =>
    intro t
    cases e with
    | pass x y => simp [chained, bucketAfter, ih, Bool.and_assoc]
    | deduct x y => simp [chained, bucketAfter, ih, Bool.and_assoc]
    | write p => simp [chained, bucketAfter, ih]

theorem bucketAfter_append (a b : List SockEv) : ∀ t : Throttle,
    bucketAfter t (a ++ b) = bucketAfter (bucketAfter t a) b := by
  induction a with
  | nil => intro t; rfl
  | cons e a ih =>
    intro t
    cases e with
    | pass x y => simp [bucketAfter, ih]
    | deduct x y => simp [bucketAfter, ih]
    | write p => simp [bucketAfter, ih]

theorem writes_append (a b : List SockEv) : writes (a ++ b) = writes a ++ writes b := by
  induction a with
  | nil => rfl
  | cons e a ih =>
    cases e with
    | pass x y => simpa [writes] using ih
    | deduct x y => simpa [writes] using ih
    | write p => simpa [writes] using ih

/-- The passes of the pacing loop for one packet: they start from the bucket given and
follow one another, the last one leaves the bucket returned, nothing is written, and the
write that follows them comes right after a deducting pass that found enough tokens and
took exactly the packet's charge. -/
theorem paceLoop_spec : ∀ (refills : List Int) (t : Throttle) (read : Nat)
    (evs : List SockEv) (t1 : Throttle) (rf : List Int),
    paceLoop t read refills = some (evs, t1, rf) →
    chained t evs = true ∧ bucketAfter t evs = t1 ∧ writes evs = [] ∧
    t1.enabled = t.enabled ∧
    ∀ (pkt : List Byte) (rest : List SockEv), pkt.length = read + 1 → charged rest = true →
      charged (evs ++ .write pkt :: rest) = true := by
  intro refills
  induction refills with
  | nil =>
    intro t read evs t1 rf h
    rw [paceLoop] at h
    by_cases c : (throttleIter t read 0).2 = true
    · rw [if_pos c] at h
      simp only [Option.some.injEq, Prod.mk.injEq] at h
      obtain ⟨h1, h2, -⟩ := h
      subst h1 h2
      obtain ⟨b1, b2, b3⟩ := throttleIter_break t read 0 c
      refine ⟨by simp [chained], rfl, rfl, throttleIter_enabled t read 0, fun pkt rest hl hr => ?_⟩
      simp only [List.singleton_append, charged, Bool.and_eq_true, decide_eq_true_eq, hl]
      exact ⟨⟨⟨b1, b2⟩, b3⟩, hr⟩
    · rw [if_neg c] at h; cases h
  | cons d ds ih =>
    intro t read evs t1 rf h
    rw [paceLoop] at h
    by_cases c : (throttleIter t read d).2 = true
    · rw [if_pos c] at h
      simp only [Option.some.injEq, Prod.mk.injEq] at h
      obtain ⟨h1, h2, -⟩ := h
      subst h1 h2
      obtain ⟨b1, b2, b3⟩ := throttleIter_break t read d c
      refine ⟨by simp [chained], rfl, rfl, throttleIter_enabled t read d, fun pkt rest hl hr => ?_⟩
      simp only [List.singleton_append, charged, Bool.and_eq_true, decide_eq_true_eq, hl]
      exact ⟨⟨⟨b1, b2⟩, b3⟩, hr⟩
    · rw [if_neg c] at h
      obtain ⟨x, hx, hxe⟩ := Option.map_eq_some'.mp h
      obtain ⟨evs1, tx, rx⟩ := x
      simp only [Prod.mk.injEq] at hxe
      obtain ⟨h1, h2, -⟩ := hxe
      subst h1 h2
      obtain ⟨a1, a2, a3, a4, a5⟩ := ih _ read evs1 tx rx hx
      refine ⟨by simp [chained, a1], by simp [bucketAfter, a2], by simp [writes, a3],
        a4.trans (throttleIter_enabled t read d), fun pkt rest hl hr => ?_⟩
      rw [List.cons_append, charged]
      exact a5 pkt rest hl hr

/-- The paced read loop writes the packets of `sendFileLoop`; every pass of the bucket
is in the list, from the bucket given to the bucket returned, and with the bucket
enabled each write comes right after its deduction. -/
theorem sendFileLoopPaced_spec : ∀ (reads : List (List Byte)) (buff : List Byte) (t : Throttle)
    (refills : List Int) (evs : List SockEv) (h sb : List Byte) (t1 : Throttle)
    (rf : List Int),
    sendFileLoopPaced reads buff t refills = some (evs, h, sb, t1, rf) →
    sendFileLoop reads buff = some (writes evs, h, sb) ∧
    (t.enabled = true → charged evs = true) ∧ chained t evs = true ∧
    bucketAfter t evs = t1 ∧ t1.enabled = t.enabled := by
  intro reads
  induction reads with
  | nil =>
    intro buff t refills evs h sb t1 rf hs
    rw [sendFileLoopPaced] at hs
    simp only [Option.some.injEq, Prod.mk.injEq] at hs
    obtain ⟨h1, h2, h3, h4, -⟩ := hs
    subst h1 h2 h3 h4
    exact ⟨rfl, fun _ => rfl, rfl, rfl, rfl⟩
  | cons ch reads ih =>
    intro buff t refills evs h sb t1 rf hs
    rw [sendFileLoopPaced] at hs
    simp only [Option.bind_eq_bind] at hs
    obtain ⟨cp, hcp, hs⟩ := Option.bind_eq_some.mp hs
    rw [sendFileLoop, hcp]
    simp only [Option.bind_eq_bind, Option.some_bind]
    by_cases h0 : cp.2 = 0
    · rw [if_pos h0] at hs
      rw [if_pos h0]
      simp only [Option.some.injEq, Prod.mk.injEq] at hs
      obtain ⟨h1, h2, h3, h4, -⟩ := hs
      subst h1 h2 h3 h4
      exact ⟨rfl, fun _ => rfl, rfl, rfl, rfl⟩
    rw [if_neg h0] at hs
    rw [if_neg h0]
    obtain ⟨b0, hb0, hs⟩ := Option.bind_eq_some.mp hs
    obtain ⟨buff2, hput, hs⟩ := Option.bind_eq_some.mp hs
    obtain ⟨pc, hpc, hs⟩ := Option.bind_eq_some.mp hs
    obtain ⟨pkt, hpkt, hs⟩ := Option.bind_eq_some.mp hs
    obtain ⟨hashed, hhashed, hs⟩ := Option.bind_eq_some.mp hs
    obtain ⟨res, hres, hs⟩ := Option.bind_eq_some.mp hs
    obtain ⟨evs1, h1, sb1, t2, rf1⟩ := res
    obtain ⟨pevs, pt, prf⟩ := pc
    simp only [Option.some.injEq, Prod.mk.injEq] at hs
    obtain ⟨e1, e2, e3, e4, -⟩ := hs
    subst e1 e2 e3 e4
    obtain ⟨ih1, ih2, ih3, ih4, ih5⟩ := ih buff2 pt prf evs1 h1 sb1 t2 rf1 hres
    have hlen : pkt.length = cp.2 + 1 := by
      unfold slice at hpkt
      split_ifs at hpkt with hb
      · cases hpkt
        simp only [Nat.sub_zero, List.drop_zero, List.length_take]
        omega
    -- the pacing block
    have hpace : chained t pevs = true ∧ bucketAfter t pevs = pt ∧ writes pevs = [] ∧
        pt.enabled = t.enabled ∧
        (t.enabled = true → charged (pevs ++ .write pkt :: evs1) = true) := by
      unfold pace at hpc
      by_cases he : t.enabled = true
      · rw [if_pos he] at hpc
        obtain ⟨a1, a2, a3, a4, a5⟩ := paceLoop_spec refills t cp.2 pevs pt prf hpc
        exact ⟨a1, a2, a3, a4, fun _ => a5 pkt evs1 hlen (ih2 (a4.trans he))⟩
      · rw [if_neg he] at hpc
        simp only [Option.some.injEq, Prod.mk.injEq] at hpc
        obtain ⟨q1, q2, -⟩ := hpc
        subst q1 q2
        exact ⟨rfl, rfl, rfl, rfl, fun h => absurd h he⟩
    obtain ⟨p1, p2, p3, p4, p5⟩ := hpace
    refine ⟨?_, p5, ?_, ?_, ih5.trans p4⟩
    · simp only [hb0, hput, hpkt, hhashed, ih1, Option.some_bind, writes_append, p3, writes,
        List.nil_append]
    · rw [chained_append, p1, p2]
      simpa [chained] using ih3
    · rw [bucketAfter_append, p2]
      simpa [bucketAfter] using ih4

/-- C21 (as amended): with the bucket enabled, `sendFile` writes the `0x02` packet,
then the data packets, then the `0x03` packet. Each data packet, of `n` bytes, is
written right after the pass of the pacing loop that found at least `n + 46` tokens in
the bucket and left exactly `n + 46` fewer; the passes listed are all changes of the
bucket, from the bucket `sendFile` starts with to the bucket it ends with. The `0x02`
and the `0x03` packet are written without a pass. The packets written are those of
`sendFile` without the bucket. -/
theorem C21_data_packets_charged (c : Crypto) (conf : Config) (t : Throttle) (X i : Nat)
    (size mtime : Int) (reads : List (List Byte)) (refills : List Int) (evs : List SockEv)
    (t1 : Throttle) (hen : t.enabled = true)
    (h : sendFilePaced c conf t X i size mtime reads refills = some (evs, t1)) :
    ∃ start body complete, evs = .write start :: body ++ [.write complete] ∧
      charged body = true ∧ chained t body = true ∧ bucketAfter t body = t1 ∧
      sendFile c conf X i size mtime reads = some (start :: writes body ++ [complete]) := by
  unfold sendFilePaced at h
  simp only [Option.bind_eq_bind] at h
  obtain ⟨st, hst, h⟩ := Option.bind_eq_some.mp h
  obtain ⟨buff, hput, h⟩ := Option.bind_eq_some.mp h
  obtain ⟨res, hres, h⟩ := Option.bind_eq_some.mp h
  obtain ⟨complete, hcomp, h⟩ := Option.bind_eq_some.mp h
  obtain ⟨body, hh, sb, t2, rf⟩ := res
  simp only [Option.some.injEq, Prod.mk.injEq] at h
  obtain ⟨h1, h2⟩ := h
  obtain ⟨hloop, hch, hcn, hba, -⟩ :=
    sendFileLoopPaced_spec reads buff t refills body hh sb t2 rf hres
  refine ⟨st.1, body, complete, h1.symm, hch hen, hcn, hba.trans h2, ?_⟩
  unfold sendFile
  simp only [hst, hput, hloop, hcomp, Option.bind_eq_bind, Option.some_bind]

set_option maxRecDepth 1000000 in
theorem C21_data_packets_charged_witness :
    ∃ start body complete,
      [SockEv.write toyStartPacket,
        .pass ⟨true, 10, 2158⟩ ⟨true, 110, 2158⟩, .deduct ⟨true, 110, 2158⟩ ⟨true, 52, 2158⟩,
        .write ((0x80 : Byte) :: lit "hello world"),
        .write (completePacket toyCrypto (lit "k") 3 0 (toyCrypto.sha256 (lit "hello world")))]
        = .write start :: body ++ [.write complete] ∧
      charged body = true ∧ chained ⟨true, 10, 2158⟩ body = true ∧
      bucketAfter ⟨true, 10, 2158⟩ body = ⟨true, 52, 2158⟩ ∧
      sendFile toyCrypto pacedConfig 3 0 11 99 [lit "hello world"]
        = some (start :: writes body ++ [complete]) :=
  C21_data_packets_charged toyCrypto pacedConfig ⟨true, 10, 2158⟩ 3 0
    11 99 [lit "hello world"] [100] _ ⟨true, 52, 2158⟩ (by decide) (by decide)

set_option maxRecDepth 1000000 in
/-- C21 (counterexample): with a bandwidth limit of 8 Mbit/s and packets of at most 120
bytes the bucket starts with 2158 tokens. `sendFile` of an 11-byte file writes the
90-byte `0x02` packet, a 12-byte data packet and the 105-byte `0x03` packet: the bucket
is touched once, by the deduction of 58 tokens for the data packet, the `0x02` packet is
written before any deduction and the `0x03` packet after none of its own, and 2100 tokens
are left. -/
theorem C21_counterexample :
    pacedConfig.sender.bw > 0 ∧
    (throttleInit pacedConfig ⟨false, 0, 0⟩) = ⟨true, 2158, 2158⟩ ∧
    toyStartPacket.length = 90 ∧
    (completePacket toyCrypto (lit "k") 3 0 (toyCrypto.sha256 (lit "hello world"))).length
      = 105 ∧
    sendFilePaced toyCrypto pacedConfig (throttleInit pacedConfig ⟨false, 0, 0⟩) 3 0 11 99
        [lit "hello world"] []
      = some ([.write toyStartPacket, .deduct ⟨true, 2158, 2158⟩ ⟨true, 2100, 2158⟩,
            .write ((0x80 : Byte) :: lit "hello world"),
            .write (completePacket toyCrypto (lit "k") 3 0
              (toyCrypto.sha256 (lit "hello world")))],
          ⟨true, 2100, 2158⟩) :=
  ⟨by decide, by decide, by decide, by decide, by decide⟩

/-! ## Sizes of the sender's packets: claim C22 -/

/-- The read loop of `sendFile` returns on every sequence of reads; each data packet has
the type byte and at least one and at most `len(buff) - 1` file bytes. -/
theorem sendFileLoop_total : ∀ (reads : List (List Byte)) (b : Byte) (t : List Byte),
    ∃ pkts h sb, sendFileLoop reads (b :: t) = some (pkts, h, sb) ∧
      sb.length = t.length + 1 ∧ ∀ p ∈ pkts, 2 ≤ p.length ∧ p.length ≤ t.length + 1 := by
  intro reads
  induction reads with
  | nil =>
    intro b t
    exact ⟨[], [], b :: t, rfl, rfl, fun p hp => by cases hp⟩
  | cons ch reads ih =>
    intro b t
    have hc : copyAt (b :: t) 1 ch
        = some (([b] ++ ch.take (min t.length ch.length))
            ++ t.drop (min t.length ch.length), min t.length ch.length) :=
      copyAt_pre_min [b] t ch 1 rfl
    generalize hn : min t.length ch.length = n at hc
    generalize hX : ch.take n ++ t.drop n = X
    have hXl : X.length = t.length := by
      rw [← hX, List.length_append, List.length_take, List.length_drop]; omega
    rw [sendFileLoop, hc]
    simp only [Option.bind_eq_bind, Option.some_bind]
    by_cases h0 : n = 0
    · rw [if_pos h0]
      refine ⟨[], [], _, rfl, ?_, fun p hp => by cases hp⟩
      subst h0
      simp
    rw [if_neg h0]
    simp only [List.singleton_append, List.cons_append, List.nil_append,
      List.getElem?_cons_zero, Option.some_bind, hX]
    have hp : putAt (b :: X) 0 [if byte (b.val + 1) = 0 then 0x80 else byte (b.val + 1)]
        = some (nextType b :: X) := by
      simp [putAt, nextType]
    rw [hp]
    simp only [Option.some_bind]
    rw [slice_eq _ 0 (n + 1) (by omega) (by simp only [List.length_cons]; omega),
      slice_eq _ 1 (n + 1) (by omega) (by simp only [List.length_cons]; omega)]
    simp only [Option.some_bind]
    obtain ⟨pkts, h, sb, hs, hsl, hall⟩ := ih (nextType b) X
    rw [hs]
    simp only [Option.some_bind]
    refine ⟨_, _, _, rfl, by rw [hsl, hXl], fun p hp => ?_⟩
    rcases List.mem_cons.mp hp with hp | hp
    · rw [hp]
      simp only [Nat.sub_zero, List.drop_zero, List.length_take, List.length_cons]
      omega
    · have := hall p hp
      omega

/-- With `MaxPacketSize` at least 105, `sendFile` returns on every file content: it
writes the 90-byte `0x02` packet, data packets of at most `MaxPacketSize` bytes and the
105-byte `0x03` packet. -/
theorem sendFile_sizes (c : Crypto) (conf : Config) (X i : Nat) (size mtime : Int)
    (reads : List (List Byte)) (hmps : 105 ≤ conf.maxPacketSize) :
    ∃ start data complete,
      sendFile c conf X i size mtime reads = some (start :: data ++ [complete]) ∧
      start.length = 90 ∧ complete.length = 105 ∧
      ∀ p ∈ data, 2 ≤ p.length ∧ p.length ≤ conf.maxPacketSize := by
  have hz : (zeros conf.maxPacketSize).length = conf.maxPacketSize := List.length_replicate _ _
  have hstart := sendFileStart_eq c conf X i size mtime (zeros conf.maxPacketSize)
    (by rw [hz]; omega)
  generalize hsb : startPacket c conf.hmacSecret X i (toUint64 size) (toUint64 mtime)
    ++ (zeros conf.maxPacketSize).drop 90 = sb at hstart
  have hsbl : sb.length = conf.maxPacketSize := by
    rw [← hsb, List.length_append, startPacket_length, List.length_drop, hz]; omega
  have hhead := putAt_head sb 0x7F (by omega)
  obtain ⟨data, h, sb2, hloop, hsl, hall⟩ := sendFileLoop_total reads 0x7F sb.tail
  rw [List.length_tail, hsbl] at hsl
  have hcomp := sendFileComplete_eq c conf X i (c.sha256 h) sb2 (by omega) (c.sha256_length _)
  refine ⟨_, data, _, ?_, startPacket_length c conf.hmacSecret X i (toUint64 size)
    (toUint64 mtime), completePacket_length c conf.hmacSecret X i (c.sha256 h)
    (c.sha256_length _), fun p hp => ?_⟩
  · unfold sendFile
    simp only [hstart, hhead, hloop, hcomp, Option.bind_eq_bind, Option.some_bind]
  · have := hall p hp
    rw [List.length_tail, hsbl] at this
    omega

/-- The chunks `sendManifest` writes after part 0: each has the 7-byte header of its
part and carries the next bytes of the manifest, and none is longer than the packet
size. The loop returns when the fuel exceeds the bytes left. -/
theorem sendManifestLoop_chunks (data : List Byte) (id mps : Nat) (hmps : 14 ≤ mps) :
    ∀ (fuel i offset : Nat) (rest : List Byte), 0 < i → offset ≤ data.length →
      data.length - offset < fuel → rest.length = mps - 5 →
      ∃ chunks : List (List Byte),
        sendManifestLoop data fuel ([0x01] ++ be32 id ++ rest) offset i
          = some ((chunks.enumFrom i).map fun x => manifestChunk id data.length x.1 x.2) ∧
        chunks.flatten = data.drop offset ∧
        ∀ p ∈ (chunks.enumFrom i).map (fun x => manifestChunk id data.length x.1 x.2),
          p.length ≤ mps := by
  intro fuel
  induction fuel with
  | zero => intro i offset rest _ _ hf; omega
  | succ fuel ih =>
    intro i offset rest hi hle hfuel hrest
    by_cases hoff : offset < data.length
    swap
    · refine ⟨[], ?_, ?_, fun p hp => by cases hp⟩
      · rw [sendManifestLoop_end data fuel _ offset i (by omega)]
        rfl
      · rw [List.drop_eq_nil_of_le (by omega)]
        rfl
    have hsend := sendManifestLoop_later data fuel id i offset rest hi hoff (by omega)
    have hmin : min (rest.length - 2) (data.length - offset)
        = min (mps - 7) (data.length - offset) := by rw [hrest]; congr 1
    rw [hmin] at hsend
    generalize hn : min (mps - 7) (data.length - offset) = n at hsend
    have hn1 : 1 ≤ n := by rw [← hn]; omega
    have hnle : n ≤ data.length - offset := by rw [← hn]; omega
    have hnB : n ≤ mps - 7 := by rw [← hn]; omega
    generalize hchunk : (data.drop offset).take n = chunk at hsend
    have hcl : chunk.length = n := by
      rw [← hchunk, List.length_take, List.length_drop]; omega
    have hbuffeq : chunkHeader id i ++ chunk ++ (rest.drop 2).drop n
        = [0x01] ++ be32 id ++ (be16 i ++ chunk ++ (rest.drop 2).drop n) := by
      simp [chunkHeader]
    obtain ⟨chunks, hs, hflat, hall⟩ := ih (i + 1) (offset + n)
      (be16 i ++ chunk ++ (rest.drop 2).drop n) (by omega) (by omega) (by omega)
      (by simp only [List.length_append, be16_length, hcl, List.length_drop]; omega)
    have hmc : manifestChunk id data.length i chunk = chunkHeader id i ++ chunk := by
      unfold manifestChunk
      rw [if_neg (by omega)]
    refine ⟨chunk :: chunks, ?_, ?_, fun p hp => ?_⟩
    · rw [hsend, hbuffeq, hs]
      simp only [Option.some_bind, List.enumFrom_cons, List.map_cons, hmc]
    · rw [List.flatten_cons, hflat, ← hchunk, ← List.drop_drop, List.take_append_drop]
    · rw [List.enumFrom_cons, List.map_cons] at hp
      rcases List.mem_cons.mp hp with hp | hp
      · rw [hp, hmc, List.length_append, chunkHeader_length, hcl]
        omega
      · exact hall p hp

/-- The datagrams of `sendManifest`: the chunks of the serialized manifest in part
order, part 0 with the total size after its header, none longer than the packet size. -/
theorem sendManifest_chunks (c : Crypto) (conf : Config) (M : Manifest) (id : Nat)
    (data : List Byte) (hmps : 14 ≤ conf.maxPacketSize)
    (hser : serializeManifest c M conf.hmacSecret = some data) :
    ∃ chunks : List (List Byte),
      sendManifest c conf M id
        = some (.ok ((chunks.enumFrom 0).map fun x => manifestChunk id data.length x.1 x.2)) ∧
      chunks.flatten = data ∧
      ∀ p ∈ (chunks.enumFrom 0).map (fun x => manifestChunk id data.length x.1 x.2),
        p.length ≤ conf.maxPacketSize := by
  generalize hmpsdef : conf.maxPacketSize = mps at *
  have hb0 : putAt (zeros mps) 0 [0x01] = some ([0x01] ++ zeros (mps - 1)) := by
    have := putAt_zeros [] [0x01] mps 0 rfl (by simp; omega)
    simpa using this
  have hb1 : putAt ([0x01] ++ zeros (mps - 1)) 1 (be32 (id % 4294967296))
      = some ([0x01] ++ be32 id ++ zeros (mps - 5)) := by
    rw [be32_mod, putAt_zeros [0x01] (be32 id) (mps - 1) 1 rfl (by simp; omega)]
    have : mps - 1 - (be32 id).length = mps - 5 := by simp only [be32_length]; omega
    rw [this]
  have hz : (zeros (mps - 5)).length = mps - 5 := List.length_replicate _ _
  have hsm : sendManifest c conf M id
      = (sendManifestLoop data (data.length + 1) ([0x01] ++ be32 id ++ zeros (mps - 5)) 0 0).bind
          fun pkts => some (.ok pkts) := by
    unfold sendManifest
    rw [hmpsdef, if_neg (by omega), hser]
    simp only [Option.bind_eq_bind, Option.some_bind, hb0, hb1]
  by_cases hd : data.length = 0
  · refine ⟨[], ?_, ?_, fun p hp => by cases hp⟩
    · rw [hsm, sendManifestLoop_end data data.length _ 0 0 (by omega)]
      rfl
    · exact (List.length_eq_zero.mp hd).symm
  have hfirst := sendManifestLoop_first data data.length id (zeros (mps - 5)) (by omega)
    (by rw [hz]; omega)
  have hmin : min ((zeros (mps - 5)).length - 6) data.length = min (mps - 11) data.length := by
    rw [hz]; congr 1
  rw [hmin] at hfirst
  generalize hn : min (mps - 11) data.length = n at hfirst
  have hn1 : 1 ≤ n := by rw [← hn]; omega
  have hnle : n ≤ data.length := by rw [← hn]; omega
  have hnA : n ≤ mps - 11 := by rw [← hn]; omega
  generalize hchunk : data.take n = chunk at hfirst
  have hcl : chunk.length = n := by rw [← hchunk, List.length_take]; omega
  have hbuffeq : chunkHeader id 0 ++ be32 data.length ++ chunk
        ++ ((zeros (mps - 5)).drop 6).drop n
      = [0x01] ++ be32 id
        ++ (be16 0 ++ be32 data.length ++ chunk ++ ((zeros (mps - 5)).drop 6).drop n) := by
    simp [chunkHeader]
  obtain ⟨chunks, hs, hflat, hall⟩ := sendManifestLoop_chunks data id mps hmps data.length 1 n
    (be16 0 ++ be32 data.length ++ chunk ++ ((zeros (mps - 5)).drop 6).drop n)
    (by omega) hnle (by omega)
    (by simp only [List.length_append, be16_length, be32_length, hcl, List.length_drop, hz]
        omega)
  have hmc : manifestChunk id data.length 0 chunk
      = chunkHeader id 0 ++ be32 data.length ++ chunk := by
    unfold manifestChunk
    rw [if_pos rfl]
  refine ⟨chunk :: chunks, ?_, ?_, fun p hp => ?_⟩
  · rw [hsm, hfirst, hbuffeq, hs]
    simp only [Option.some_bind, List.enumFrom_cons, List.map_cons, hmc, Nat.zero_add]
  · rw [List.flatten_cons, hflat, ← hchunk, List.take_append_drop]
  · rw [List.enumFrom_cons, List.map_cons] at hp
    rcases List.mem_cons.mp hp with hp | hp
    · rw [hp, hmc]
      simp only [List.length_append, chunkHeader_length, be32_length, hcl]
      omega
    · exact hall p hp

/-- C22: with `MaxPacketSize` at least 105, for every manifest, session id and file
content the sender returns and no datagram it writes is longer than `MaxPacketSize`.
`sendManifest` writes the chunks of the serialized manifest in part order, part 0 with
an 11-byte header that carries the total length and each later part with a 7-byte
header, and the chunk payloads concatenated are the serialized manifest. `sendFile`
writes the 90-byte `0x02` packet, data packets of the type byte and at least one and at
most `MaxPacketSize - 1` file bytes, and the 105-byte `0x03` packet. -/
theorem C22_packet_sizes (c : Crypto) (conf : Config) (hmps : 105 ≤ conf.maxPacketSize) :
    (∀ (M : Manifest) (id : Nat),
      ∃ (data : List Byte) (chunks : List (List Byte)),
        serializeManifest c M conf.hmacSecret = some data ∧
        sendManifest c conf M id
          = some (.ok ((chunks.enumFrom 0).map fun x =>
              manifestChunk id data.length x.1 x.2)) ∧
        chunks.flatten = data ∧
        (∀ p ∈ (chunks.enumFrom 0).map (fun x => manifestChunk id data.length x.1 x.2),
          p.length ≤ conf.maxPacketSize) ∧
        (data.length < 4294967296 → uint32 (be32 data.length) = some data.length)) ∧
    (∀ (X i : Nat) (size mtime : Int) (reads : List (List Byte)),
      ∃ start data complete,
        sendFile c conf X i size mtime reads = some (start :: data ++ [complete]) ∧
        start.length = 90 ∧ complete.length = 105 ∧
        (∀ p ∈ data, 2 ≤ p.length) ∧
        ∀ p ∈ start :: data ++ [complete], p.length ≤ conf.maxPacketSize) := by
  refine ⟨fun M id => ?_, fun X i size mtime reads => ?_⟩
  · have hser := serializeManifest_eq c M conf.hmacSecret
    obtain ⟨chunks, h1, h2, h3⟩ := sendManifest_chunks c conf M id _ (by omega) hser
    refine ⟨_, chunks, hser, h1, h2, h3, fun hlt => ?_⟩
    have := uint32_be32 (manifestLayout M ++ sign c conf.hmacSecret (manifestLayout M)).length []
    rw [List.append_nil, Nat.mod_eq_of_lt hlt] at this
    exact this
  · obtain ⟨start, data, complete, h1, h2, h3, h4⟩ := sendFile_sizes c conf X i size mtime reads hmps
    refine ⟨start, data, complete, h1, h2, h3, fun p hp => (h4 p hp).1, fun p hp => ?_⟩
    rcases List.mem_cons.mp hp with hp | hp
    · rw [hp, h2]; omega
    · rcases List.mem_append.mp hp with hp | hp
      · exact (h4 p hp).2
      · rw [List.mem_singleton.mp hp, h3]; omega

set_option maxRecDepth 1000000 in
theorem C22_packet_sizes_witness :
    105 ≤ toyConfig.maxPacketSize ∧
    ∃ start data complete,
      sendFile toyCrypto toyConfig 3 0 11 99 [lit "hello world"]
        = some (start :: data ++ [complete]) ∧
      start.length = 90 ∧ complete.length = 105 ∧
      (∀ p ∈ data, 2 ≤ p.length) ∧
      ∀ p ∈ start :: data ++ [complete], p.length ≤ toyConfig.maxPacketSize :=
  ⟨by decide, (C22_packet_sizes toyCrypto toyConfig (by decide)).2 3 0 11 99 [lit "hello world"]⟩

/-! ## Manifest paths, errored transfers, stale bytes, sessions: claims C23 to C26 -/

set_option maxRecDepth 1000000 in
/-- C23 (evaluation): a manifest with the dir path `../d` and the file path `../evil`,
serialized and signed with the secret, is returned by `deserializeManifest` as it is.
At a receiver in `x/` that holds it, the `0x02` packet for file 0 is accepted with the
target path `evil`, which is not under `x/`, and `createFolders` makes the directory
`x/../d`. -/
theorem C23_paths_unchecked :
    ((serializeManifest toyCrypto evilManifest (lit "k")).bind
        (fun d => deserializeManifest toyCrypto d (lit "k"))).map Except.toOption
      = some (some evilManifest) ∧
    (onFileTransferStart toyCrypto toyEnv evilReceiver toyStartPacket 90).map
        (fun ret => (ret.err, ret.ops, ret.r.pendingFileTransfer.map fun q => q.filename))
      = some (none, [.openTrunc (lit "x/.tmp/godiodetmp.3.0") 0o600], some (lit "evil")) ∧
    createFolders toyEnv evilReceiver
      = ([.mkdirAll (lit "x/../d") 0o700, .chtimes (lit "x/../d") 5], none) :=
  ⟨by decide, by decide, by decide⟩

set_option maxRecDepth 1000000 in
/-- C24 (evaluation): file 0 of `toyManifest`, 11 bytes. After the data packet with all
11 bytes, a second packet with sequence number 0 (a duplicate), or a packet with one
more byte, marks the transfer errored. The `0x03` packet of the sender, which carries
the digest of the 11 bytes, is then answered with no error and the promotion of the
staging file to `x/a/f` is issued. -/
theorem C24_errored_promoted :
    (receiveAll toyCrypto toyEnv toyReceiver (zeros 120)
        [toyStartPacket, (0x80 : Byte) :: lit "hello world", (0x80 : Byte) :: lit "hello world",
          completePacket toyCrypto (lit "k") 3 0 (toyCrypto.sha256 (lit "hello world"))]).map
        (fun x => (x.2.2.1, x.2.2.2))
      = some ([.openTrunc (lit "x/.tmp/godiodetmp.3.0") 0o600,
            .write (lit "x/.tmp/godiodetmp.3.0") (lit "hello world"),
            .close (lit "x/.tmp/godiodetmp.3.0"),
            .goMoveTmpFile (lit "x/.tmp/godiodetmp.3.0") (lit "x/a/f") 7],
          [none, none, some .outOfOrderFilePacket, none]) ∧
    (receiveAll toyCrypto toyEnv toyReceiver (zeros 120)
        [toyStartPacket, (0x80 : Byte) :: lit "hello world", (0x81 : Byte) :: lit "!",
          completePacket toyCrypto (lit "k") 3 0 (toyCrypto.sha256 (lit "hello world"))]).map
        (fun x => (x.2.2.1, x.2.2.2))
      = some ([.openTrunc (lit "x/.tmp/godiodetmp.3.0") 0o600,
            .write (lit "x/.tmp/godiodetmp.3.0") (lit "hello world"),
            .close (lit "x/.tmp/godiodetmp.3.0"), .remove (lit "x/a/f"),
            .close (lit "x/.tmp/godiodetmp.3.0"),
            .goMoveTmpFile (lit "x/.tmp/godiodetmp.3.0") (lit "x/a/f") 7],
          [none, none, some .tooMuchData, none]) ∧
    moveTmpFile toyEnv (lit "x/a/f") 7 (lit "x/.tmp/godiodetmp.3.0")
      = [.rename (lit "x/.tmp/godiodetmp.3.0") (lit "x/a/f"), .chtimes (lit "x/a/f") 7] :=
  ⟨by decide, by decide, by decide⟩

set_option maxRecDepth 1000000 in
/-- C25 (evaluation): the read buffer has 120 bytes; a part-0 chunk of 50 bytes is read
into it, which declares a manifest of 200 bytes and carries 39 payload bytes, the 70
bytes behind it being `0xEE` from an earlier packet. The reassembly buffer receives the
39 payload bytes and the 70 stale bytes and the recorded offset is 109. A later chunk
of 46 bytes in the same buffer stores its 39 payload bytes only. -/
theorem C25_stale_bytes_stored :
    (onManifestPacket toyCrypto toyEnv freshReceiver
        (chunkHeader 9 0 ++ be32 200 ++ lit "thirty-nine bytes of the manifest data."
          ++ List.replicate 70 (0xEE : Byte)) 50).map
        (fun ret => (ret.err, ret.r.pendingManifestTransfer))
      = some (none, some ⟨lit "thirty-nine bytes of the manifest data."
            ++ List.replicate 70 (0xEE : Byte) ++ zeros 91, 109, 1⟩) ∧
    (lit "thirty-nine bytes of the manifest data.").length = 50 - 11 ∧
    (onManifestPacket toyCrypto toyEnv { freshReceiver with
            manifestId := 9
            pendingManifestTransfer := some ⟨zeros 200, 39, 1⟩ }
        (chunkHeader 9 1 ++ lit "thirty-nine bytes of the manifest data."
          ++ List.replicate 74 (0xEE : Byte)) 46).map
        (fun ret => (ret.err, ret.r.pendingManifestTransfer))
      = some (none, some ⟨zeros 39 ++ lit "thirty-nine bytes of the manifest data."
            ++ zeros 122, 78, 2⟩) :=
  ⟨by decide, by decide, by decide⟩

set_option maxRecDepth 1000000 in
/-- C26 (evaluation): the receiver holds `toyManifest` for session 3. Part 0 of a
manifest of session 9 that needs more chunks, and also a one-chunk manifest of session 9
with a wrong signature, set the session id to 9 and leave `toyManifest` in place. The
`0x02` packet for file 0 of session 9 that follows is accepted and resolved against
`toyManifest`: the target is `x/a/f`. -/
theorem C26_session_ahead_of_manifest :
    toyReceiver.manifestId = 3 ∧ toyReceiver.manifest = some toyManifest ∧
    (receiveAll toyCrypto toyEnv toyReceiver (zeros 120)
        [chunkHeader 9 0 ++ be32 200 ++ zeros 109]).map
        (fun x => (x.1.manifestId, x.1.manifest, x.2.2.2))
      = some (9, some toyManifest, [none]) ∧
    (receiveAll toyCrypto toyEnv toyReceiver (zeros 120)
        [chunkHeader 9 0 ++ be32 80 ++ zeros 80]).map
        (fun x => (x.1.manifestId, x.1.manifest, x.2.2.2))
      = some (9, some toyManifest, [some .invalidManifestSignature]) ∧
    (receiveAll toyCrypto toyEnv toyReceiver (zeros 120)
        [chunkHeader 9 0 ++ be32 200 ++ zeros 109,
          startPacket toyCrypto (lit "k") 9 0 11 99]).map
        (fun x => (x.1.manifestId, x.1.pendingFileTransfer.map fun q => (q.file, q.filename),
          x.2.2.2))
      = some (9, some (lit "x/.tmp/godiodetmp.9.0", lit "x/a/f"), [none, none]) :=
  ⟨by decide, by decide, by decide, by decide, by decide⟩

end Godiode
